import Mathlib

/-!
# Ginnungagap: tiles, patches, regular grids and communication schemes

A shallow embedding of parts of `ginnungagap` (`libutil/tile.h`,
`libgrid/gridPatch.c`, `libgrid/gridRegular.c`, `libutil/commScheme.c`,
`libutil/bov.c`, `libcosmo/cosmoPk.c`) together with theorems about them.

Conventions of the embedding:

* `uint32_t` / `uint64_t` values are natural numbers; every operation that
  can wrap carries an explicit `% 2 ^ 32` / `% 2 ^ 64`.
* A failing `assert` (and `diediedie`) is the result `none`.
* C arrays of length `NDIM` are lists; `NDIM` is a parameter because
  `gridConfig.h` fixes it at compile time (2 or 3).
-/

namespace Ginnungagap

/-! ## libutil/tile.h -/

/-- The modulus of `uint32_t` arithmetic. -/
def U32 : Nat := 2 ^ 32

/-- The modulus of `uint64_t` arithmetic. -/
def U64 : Nat := 2 ^ 64

/-- Function `tile_calcNumLargeTilesEven` (tile.h 181-188): two assertions, then
`numGridCells % numTiles`. -/
def tile_calcNumLargeTilesEven (numGridCells numTiles : Nat) : Option Nat :=
  if ¬ (numGridCells > 0) then none
  else if ¬ (numTiles > 0 ∧ numTiles ≤ numGridCells) then none
  else some (numGridCells % numTiles)

/-- Function `tile_calcNumSmallTilesEven` (tile.h 203-207):
`numTiles - tile_calcNumLargeTilesEven(...)` in `uint32_t`. -/
def tile_calcNumSmallTilesEven (numGridCells numTiles : Nat) : Option Nat :=
  match tile_calcNumLargeTilesEven numGridCells numTiles with
  | none => none
  | some l => some ((numTiles + U32 - l) % U32)

/-- Function `tile_calcMinTileSizeEven` (tile.h 222-229): note the strict `<` in the
second assertion. -/
def tile_calcMinTileSizeEven (numGridCells numTiles : Nat) : Option Nat :=
  if ¬ (numGridCells > 0) then none
  else if ¬ (numTiles > 0 ∧ numTiles < numGridCells) then none
  else some (numGridCells / numTiles)

/-- Function `tile_calcMaxTileSizeEven` (tile.h 244-251). -/
def tile_calcMaxTileSizeEven (numGridCells numTiles : Nat) : Option Nat :=
  match tile_calcNumLargeTilesEven numGridCells numTiles with
  | none => none
  | some l =>
    if l ≠ 0 then
      match tile_calcMinTileSizeEven numGridCells numTiles with
      | none => none
      | some m => some ((m + 1) % U32)
    else
      tile_calcMinTileSizeEven numGridCells numTiles

/-- Modelled from the spec: the size of tile `i` under the large-at-end
policy (the body of the ELAE functions, `tile.c`, is missing; `tile.h` only
declares them).  Tiles `[0, k-r)` have `n / k` cells, tiles `[k-r, k)` have
`n / k + 1` cells, where `r = n % k`. -/
def tileSizeELAE (n k i : Nat) : Nat :=
  if i < k - n % k then n / k else n / k + 1

/-- Modelled from the spec: the size of tile `i` under the
large-at-beginning policy: the `r = n % k` oversized tiles come first. -/
def tileSizeELAB (n k i : Nat) : Nat :=
  if i < n % k then n / k + 1 else n / k

/-- Modelled from the spec: `tile_calcIdxsELAE` (declared tile.h 95-100, body
missing).  Given `(n, k, tileIndex)` it returns the inclusive range
`(idxLo, idxHi)` of the tile; violated preconditions (`k` outside `[1, n]`,
tile index out of range) are fatal. -/
def tile_calcIdxsELAE (n k i : Nat) : Option (Nat × Nat) :=
  if ¬ (n > 0) then none
  else if ¬ (k > 0 ∧ k ≤ n) then none
  else if ¬ (i < k) then none
  else
    let lo := i * (n / k) + (i - (k - n % k))
    some (lo, lo + tileSizeELAE n k i - 1)

/-- Modelled from the spec: `tile_calcIdxsELAB` (declared tile.h 145-150,
body missing). -/
def tile_calcIdxsELAB (n k i : Nat) : Option (Nat × Nat) :=
  if ¬ (n > 0) then none
  else if ¬ (k > 0 ∧ k ≤ n) then none
  else if ¬ (i < k) then none
  else
    let lo := i * (n / k) + min i (n % k)
    some (lo, lo + tileSizeELAB n k i - 1)

/-- Modelled from the spec: `tile_calcTileNumberForIdxELAE` (declared tile.h
115-118, body missing): given `(n, k, globalIndex)` the owning tile index.
The index lies in the small tiles when it is below `(k-r) * (n/k)`. -/
def tile_calcTileNumberForIdxELAE (n k idx : Nat) : Option Nat :=
  if ¬ (n > 0) then none
  else if ¬ (k > 0 ∧ k ≤ n) then none
  else if ¬ (idx < n) then none
  else
    let numSmall := k - n % k
    if idx < numSmall * (n / k) then some (idx / (n / k))
    else some (numSmall + (idx - numSmall * (n / k)) / (n / k + 1))

/-- Modelled from the spec: `tile_calcTileNumberForIdxELAB` (declared tile.h
154-157, body missing). -/
def tile_calcTileNumberForIdxELAB (n k idx : Nat) : Option Nat :=
  if ¬ (n > 0) then none
  else if ¬ (k > 0 ∧ k ≤ n) then none
  else if ¬ (idx < n) then none
  else
    let numLarge := n % k
    if idx < numLarge * (n / k + 1) then some (idx / (n / k + 1))
    else some (numLarge + (idx - numLarge * (n / k + 1)) / (n / k))

/-- The `k` inclusive ranges `[lo i, hi i]`, `i < k`, tile `[0, n)` exactly:
they start at 0, each starts right after its predecessor, the last ends at
`n - 1`, every size is `n / k` or `n / k + 1`, and the sizes sum to `n`. -/
def TilesExactly (lo hi : Nat → Nat) (n k : Nat) : Prop :=
  lo 0 = 0
  ∧ (∀ i, i + 1 < k → lo (i + 1) = hi i + 1)
  ∧ hi (k - 1) = n - 1
  ∧ (∀ i, i < k → lo i ≤ hi i ∧
      (hi i - lo i + 1 = n / k ∨ hi i - lo i + 1 = n / k + 1))
  ∧ ((List.range k).map (fun i => hi i - lo i + 1)).sum = n

/-- The lower bound of tile `i` (0 when the forward function aborts). -/
def idxLoELAE (n k i : Nat) : Nat := ((tile_calcIdxsELAE n k i).getD (0, 0)).1

/-- The upper bound of tile `i` (0 when the forward function aborts). -/
def idxHiELAE (n k i : Nat) : Nat := ((tile_calcIdxsELAE n k i).getD (0, 0)).2

/-- The lower bound of tile `i` (0 when the forward function aborts). -/
def idxLoELAB (n k i : Nat) : Nat := ((tile_calcIdxsELAB n k i).getD (0, 0)).1

/-- The upper bound of tile `i` (0 when the forward function aborts). -/
def idxHiELAB (n k i : Nat) : Nat := ((tile_calcIdxsELAB n k i).getD (0, 0)).2


/-! ## Memory, descriptors and `varArr` (collaborators of libgrid) -/

/-- Modelled from the spec: the heap of raw data buffers (`xmem.h` is
missing).  A pointer is the index of its buffer in `bufs`; a buffer is its
sequence of bytes; `freed` logs the pointers handed to the deallocator, in
call order. -/
structure Mem where
  bufs : List (List Nat)
  freed : List Nat
deriving DecidableEq, Repr

/-- Read the byte at offset `off` of buffer `p` (0 outside every buffer). -/
def Mem.read (m : Mem) (p off : Nat) : Nat := (m.bufs.getD p []).getD off 0

/-- Write byte `v` at offset `off` of buffer `p`. -/
def Mem.write (m : Mem) (p off v : Nat) : Mem :=
  { m with bufs := m.bufs.set p ((m.bufs.getD p []).set off v) }

/-- The call `memcpy(dst + dOff, src + sOff, size)` on two distinct buffers. -/
def Mem.memcpy (m : Mem) (dst dOff src sOff size : Nat) : Mem :=
  (List.range size).foldl (fun acc b => acc.write dst (dOff + b) (m.read src (sOff + b))) m

/-- Modelled from the spec: the variable descriptor (`gridVar_t`, in
`gridRegular.c` under its later name `dataVar_t`; `gridVar.c` is missing):
name, element kind (here its byte width), components per element, and the
flags `isComplexified` and requires-padded-layout. -/
structure gridVar where
  name : String
  sizePerComponent : Nat
  numComponents : Nat
  isFFTWPadded : Bool
  isComplexified : Bool
deriving DecidableEq, Repr

/-- The descriptor type as `gridRegular.c` names it. -/
abbrev dataVar := gridVar

/-- Modelled from the spec: `gridVar_getSizePerElement`, the bytes of one
element (`components × element kind`). -/
def gridVar_getSizePerElement (var : gridVar) : Nat :=
  var.sizePerComponent * var.numComponents

/-- Modelled from the spec: `gridVar_isFFTWPadded`, the padded-layout flag. -/
def gridVar_isFFTWPadded (var : gridVar) : Bool := var.isFFTWPadded

/-- Modelled from the spec: `gridVar_getMemory(var, numCells)` allocates a
fresh buffer for `numCells` elements of the variable and returns its
pointer (the content of fresh memory is taken to be zero bytes). -/
def gridVar_getMemory (m : Mem) (var : gridVar) (numCells : Nat) : Mem × Nat :=
  ({ m with bufs := m.bufs ++ [List.replicate (numCells * gridVar_getSizePerElement var) 0] },
   m.bufs.length)

/-- Modelled from the spec: `gridVar_freeMemory(var, data)` frees the
buffer `data`. -/
def gridVar_freeMemory (m : Mem) (_var : gridVar) (data : Nat) : Mem :=
  { m with freed := m.freed ++ [data] }

/-- Modelled from the spec: `varArr_insert` appends the element and returns
its position (`varArr.h` is missing; §9 describes a growable store with
shift-down removal and stable integer positions). -/
def varArr_insert {α : Type} (arr : List α) (x : α) : List α × Int :=
  (arr ++ [x], (arr.length : Int))

/-- Modelled from the spec: `varArr_remove` removes the element at `idx`,
shifts the later ones down, and returns the removed element. -/
def varArr_remove {α : Type} (arr : List α) (idx : Int) : Option (List α × α) :=
  if ¬ (idx ≥ 0 ∧ idx < arr.length) then none
  else (arr[idx.toNat]?).map (fun x => (arr.eraseIdx idx.toNat, x))

/-- Modelled from the spec: `varArr_replace` installs `x` at `idx` and
returns the element previously stored there. -/
def varArr_replace {α : Type} (arr : List α) (idx : Int) (x : α) : Option (List α × α) :=
  if ¬ (idx ≥ 0 ∧ idx < arr.length) then none
  else (arr[idx.toNat]?).map (fun old => (arr.set idx.toNat x, old))

/-- Modelled from the spec: `varArr_getElementHandle`. -/
def varArr_getElementHandle {α : Type} (arr : List α) (idx : Int) : Option α :=
  if ¬ (idx ≥ 0 ∧ idx < arr.length) then none
  else arr[idx.toNat]?

/-! ## libgrid/gridPatch.c -/

/-- Modelled from the spec: the patch structure (`gridPatch_adt.h` is missing;
the fields are those `gridPatch.c` uses).  `self` is the address of the structure, the identity
that pointer comparisons see; `varData` holds buffer pointers. -/
structure gridPatch where
  self : Nat
  idxLo : List Nat
  dims : List Nat
  numCells : Nat
  vars : List gridVar
  varData : List Nat
deriving DecidableEq, Repr

/-- Function `gridPatch_new` (gridPatch.c 37-57).  `self` is the address `xmalloc`
returns.  `dims[i] = idxHi[i] - idxLo[i] + 1` is `uint32_t` arithmetic and
`numCells *= dims[i]` is `uint64_t` arithmetic. -/
def gridPatch_new (NDIM : Nat) (self : Nat) (idxLo idxHi : List Nat) : Option gridPatch :=
  if ¬ (∀ i, i < NDIM → idxLo.getD i 0 ≤ idxHi.getD i 0) then none
  else
    let dims := (List.range NDIM).map
      (fun i => ((idxHi.getD i 0 + U32 - idxLo.getD i 0) % U32 + 1) % U32)
    some { self := self
           idxLo := (List.range NDIM).map (fun i => idxLo.getD i 0)
           dims := dims
           numCells := dims.foldl (fun acc d => (acc * d) % U64) 1
           vars := []
           varData := [] }

/-- Function `gridPatch_getVarHandle` (gridPatch.c 217-223). -/
def gridPatch_getVarHandle (patch : gridPatch) (idxOfVar : Int) : Option gridVar :=
  if ¬ (idxOfVar ≥ 0 ∧ idxOfVar < patch.vars.length) then none
  else varArr_getElementHandle patch.vars idxOfVar

/-- Function `gridPatch_getVarDataHandle` (gridPatch.c 225-232). -/
def gridPatch_getVarDataHandle (patch : gridPatch) (idxOfVarData : Int) : Option Nat :=
  if ¬ (idxOfVarData ≥ 0 ∧ idxOfVarData < patch.varData.length) then none
  else varArr_getElementHandle patch.varData idxOfVarData

/-- Function `gridPatch_getNumVars` (gridPatch.c 234-240). -/
def gridPatch_getNumVars (patch : gridPatch) : Int := patch.vars.length

/-- Function `gridPatch_getDimActual1D` (gridPatch.c 89-107): `2 * (dims/2 + 1)` is
computed in `uint32_t`. -/
def gridPatch_getDimActual1D (NDIM : Nat) (patch : gridPatch) (idxOfVar dim : Int) :
    Option Nat :=
  if ¬ (idxOfVar ≥ 0 ∧ idxOfVar < patch.vars.length) then none
  else if ¬ (dim ≥ 0 ∧ dim < NDIM) then none
  else
    match gridPatch_getVarHandle patch idxOfVar with
    | none => none
    | some var =>
      if gridVar_isFFTWPadded var ∧ dim = 0 then
        some ((2 * ((patch.dims.getD dim.toNat 0 / 2 + 1) % U32)) % U32)
      else
        some (patch.dims.getD dim.toNat 0)

/-- Function `gridPatch_getDimsActual` (gridPatch.c 119-130). -/
def gridPatch_getDimsActual (NDIM : Nat) (patch : gridPatch) (idxOfVar : Int) :
    Option (List Nat) :=
  if ¬ (idxOfVar ≥ 0 ∧ idxOfVar < patch.vars.length) then none
  else (List.range NDIM).mapM
    (fun (i : Nat) => gridPatch_getDimActual1D NDIM patch idxOfVar (i : Int))

/-- Function `gridPatch_getNumCellsActual` (gridPatch.c 140-152): the product is
accumulated in `uint64_t`. -/
def gridPatch_getNumCellsActual (NDIM : Nat) (patch : gridPatch) (idxOfVar : Int) :
    Option Nat :=
  if ¬ (idxOfVar ≥ 0 ∧ idxOfVar < patch.vars.length) then none
  else
    (List.range NDIM).foldlM
      (fun (acc : Nat) (i : Nat) => (gridPatch_getDimActual1D NDIM patch idxOfVar (i : Int)).map
        (fun d => (acc * d) % U64)) 1

/-- Function `gridPatch_attachVarData` (gridPatch.c 163-186). -/
def gridPatch_attachVarData (NDIM : Nat) (m : Mem) (patch : gridPatch) (var : gridVar) :
    Option (Mem × gridPatch × Int) :=
  let (vars1, posVar) := varArr_insert patch.vars var
  let patch1 := { patch with vars := vars1 }
  match gridPatch_getNumCellsActual NDIM patch1 posVar with
  | none => none
  | some numCellsToAllocate =>
    let (m1, data) := gridVar_getMemory m var numCellsToAllocate
    let (varData1, posVarData) := varArr_insert patch1.varData data
    if posVar ≠ posVarData then none
    else some (m1, { patch1 with varData := varData1 }, posVar)

/-- Function `gridPatch_detachVarData` (gridPatch.c 188-200): returns the buffer. -/
def gridPatch_detachVarData (patch : gridPatch) (idxOfVarData : Int) :
    Option (gridPatch × Nat) :=
  if ¬ (idxOfVarData ≥ 0 ∧ idxOfVarData < patch.varData.length) then none
  else
    match varArr_remove patch.vars idxOfVarData with
    | none => none
    | some (vars1, _tmp) =>
      match varArr_remove patch.varData idxOfVarData with
      | none => none
      | some (varData1, data) => some ({ patch with vars := vars1, varData := varData1 }, data)

/-- Function `gridPatch_replaceVarData` (gridPatch.c 202-215). -/
def gridPatch_replaceVarData (m : Mem) (patch : gridPatch) (idxOfVarData : Int)
    (newData : Nat) : Option (Mem × gridPatch) :=
  if ¬ (idxOfVarData ≥ 0 ∧ idxOfVarData < patch.varData.length) then none
  else
    match varArr_replace patch.varData idxOfVarData newData with
    | none => none
    | some (varData1, oldData) =>
      let patch1 := { patch with varData := varData1 }
      match gridPatch_getVarHandle patch1 idxOfVarData with
      | none => none
      | some var => some (gridVar_freeMemory m var oldData, patch1)

/-- Function `local_transposeVar_2d` (gridPatch.c 284-300).  The byte offsets
`(k0 + k1 * dimsT[0]) * size` and `(k1 + k0 * dimsT[1]) * size` are computed
in 32-bit unsigned arithmetic before they are widened to `size_t`. -/
def local_transposeVar_2d (m : Mem) (data dataT : Nat) (size : Nat) (dimsT : List Nat) : Mem :=
  (List.range (dimsT.getD 1 0)).foldl
    (fun m1 k1 =>
      (List.range (dimsT.getD 0 0)).foldl
        (fun m0 k0 =>
          let posT := ((k0 + k1 * dimsT.getD 0 0) * size) % U32
          let pos := ((k1 + k0 * dimsT.getD 1 0) * size) % U32
          m0.memcpy dataT posT data pos size)
        m1)
    m

/-- Function `gridPatch_transposeVar` (gridPatch.c 242-280).  The `switch` has the
single `default` branch; for `NDIM == 2` it calls `local_transposeVar_2d`,
for `NDIM == 3` the call is commented out. -/
def gridPatch_transposeVar (NDIM : Nat) (m : Mem) (patch : gridPatch)
    (idxOfVarData dimA dimB : Int) : Option (Mem × gridPatch) :=
  if ¬ (idxOfVarData ≥ 0 ∧ idxOfVarData < gridPatch_getNumVars patch) then none
  else if ¬ (dimA ≥ 0 ∧ dimA < NDIM) then none
  else if ¬ (dimB ≥ 0 ∧ dimB < NDIM) then none
  else
    match gridPatch_getVarDataHandle patch idxOfVarData,
          gridPatch_getVarHandle patch idxOfVarData,
          gridPatch_getDimsActual NDIM patch idxOfVarData,
          gridPatch_getNumCellsActual NDIM patch idxOfVarData with
    | some data, some var, some dims, some numCellsActual =>
      let size := gridVar_getSizePerElement var
      let dimsT := (dims.set dimA.toNat (dims.getD dimB.toNat 0)).set dimB.toNat
        (dims.getD dimA.toNat 0)
      let (m1, dataT) := gridVar_getMemory m var numCellsActual
      if NDIM = 2 then some (local_transposeVar_2d m1 data dataT size dimsT, patch)
      else some (m1, patch)
    | _, _, _, _ => none


/-- Function `gridPatch_del` (gridPatch.c 59-78): removes position 0 of both sequences
`numVarData` times and frees each buffer. -/
def gridPatch_del (m : Mem) (patch : gridPatch) : Option Mem :=
  (List.range patch.varData.length).foldlM
    (fun (acc : Mem × gridPatch) _ =>
      match varArr_remove acc.2.vars 0, varArr_remove acc.2.varData 0 with
      | some (vars1, var), some (varData1, data) =>
        some (gridVar_freeMemory acc.1 var data,
              { acc.2 with vars := vars1, varData := varData1 })
      | _, _ => none)
    (m, patch) |>.map Prod.fst

/-- The macro `LOCAL_SWAP(a[dimA], a[dimB], tmp)` of gridRegular.c 423-428 on
an array: `tmp = a[dimA]; a[dimA] = a[dimB]; a[dimB] = tmp`. -/
def LOCAL_SWAP {α : Type} (arr : List α) (dimA dimB : Nat) : List α :=
  match arr[dimA]?, arr[dimB]? with
  | some x, some y => (arr.set dimA y).set dimB x
  | _, _ => arr

/-- Flat index of the cell with coordinates `c` in a block of extents `ds`
(axis 0 runs fastest). -/
def flatIdx : List Nat → List Nat → Nat
  | d :: ds, c :: cs => c + d * flatIdx ds cs
  | _, _ => 0

/-- Coordinates of the cell with flat index `j` in a block of extents `ds`. -/
def coordsOf : List Nat → Nat → List Nat
  | [], _ => []
  | d :: ds, j => (j % d) :: coordsOf ds (j / d)

/-- Modelled from the spec: `gridPatch_attachVar`, the patch operation
`gridRegular.c` calls (the `gridPatch.c` under src has it under its earlier
name `gridPatch_attachVarData`): allocates a buffer sized to the patch's
actual cell count, appends the (descriptor, buffer) pair, returns its
position. -/
def gridPatch_attachVar (NDIM : Nat) (m : Mem) (patch : gridPatch) (var : dataVar) :
    Option (Mem × gridPatch × Int) :=
  gridPatch_attachVarData NDIM m patch var

/-- Modelled from the spec: `gridPatch_detachVar` as `gridRegular.c` calls it
(it is not in the `gridPatch.c` under src): removes the pair at the
position, out of range being fatal; the grid "detaches+frees", so the buffer
is freed and the descriptor is handed back. -/
def gridPatch_detachVar (m : Mem) (patch : gridPatch) (idxOfVar : Int) :
    Option (Mem × gridPatch × dataVar) :=
  match gridPatch_getVarHandle patch idxOfVar with
  | none => none
  | some var =>
    match gridPatch_detachVarData patch idxOfVar with
    | none => none
    | some (patch1, data) => some (gridVar_freeMemory m var data, patch1, var)

/-- Modelled from the spec: the element-wise gather of `transpose`: a new
buffer whose logical axis order has `dimA` and `dimB` swapped; the cell with
coordinates `c` of the new buffer is the cell of the old buffer with the two
coordinates exchanged. -/
def transposedBytes (m : Mem) (data size : Nat) (dims : List Nat) (dimA dimB : Nat) :
    List Nat :=
  let dimsT := LOCAL_SWAP dims dimA dimB
  (List.range (dims.prod * size)).map
    (fun o => m.read data (flatIdx dims (LOCAL_SWAP (coordsOf dimsT (o / size)) dimA dimB) * size
      + o % size))

/-- Modelled from the spec: one variable of `gridPatch_transpose`: produce
the transposed buffer, install it at the position and free the old one. -/
def transposeOneVar (NDIM : Nat) (dimA dimB : Nat) (acc : Mem × gridPatch) (i : Nat) :
    Option (Mem × gridPatch) :=
  match gridPatch_getVarDataHandle acc.2 i, gridPatch_getVarHandle acc.2 i,
        gridPatch_getDimsActual NDIM acc.2 i with
  | some data, some var, some dims =>
    let bytes := transposedBytes acc.1 data (gridVar_getSizePerElement var) dims dimA dimB
    let m1 : Mem := { acc.1 with bufs := acc.1.bufs ++ [bytes] }
    gridPatch_replaceVarData m1 acc.2 i acc.1.bufs.length
  | _, _, _ => none

/-- Modelled from the spec: `gridPatch_transpose` as `gridRegular.c` calls it
(not in the `gridPatch.c` under src): for every attached buffer it produces
the buffer with the two axes swapped, and the patch's `dims` (and lower
bound) follow the axis swap. -/
def gridPatch_transpose (NDIM : Nat) (m : Mem) (patch : gridPatch) (dimA dimB : Int) :
    Option (Mem × gridPatch) :=
  if ¬ (dimA ≥ 0 ∧ dimA < NDIM) then none
  else if ¬ (dimB ≥ 0 ∧ dimB < NDIM) then none
  else
    match (List.range patch.vars.length).foldlM
        (transposeOneVar NDIM dimA.toNat dimB.toNat) (m, patch) with
    | none => none
    | some (m1, patch1) =>
      some (m1, { patch1 with idxLo := LOCAL_SWAP patch1.idxLo dimA.toNat dimB.toNat
                              dims := LOCAL_SWAP patch1.dims dimA.toNat dimB.toNat })

/-! ## libgrid/gridRegular.c -/

/-- The two operations on `double` the grid performs, kept abstract: the test
`x > 0.0` and the quotient `x / (double)n`. -/
structure DblOps (R : Type) where
  isPos : R → Bool
  divByCount : R → Nat → R

/-- Modelled from the spec: `refCounter_init` (`refCounter.h` is missing); the
count starts at zero and `gridRegular_getRef` makes it 1. -/
def refCounter_init : Nat := 0

/-- Modelled from the spec: `refCounter_ref` increments the count. -/
def refCounter_ref (c : Nat) : Nat := c + 1

/-- Modelled from the spec: the grid structure (`gridRegular_adt.h` is missing;
the fields are those `gridRegular.c` uses).  `R` stands for `double`.  A patch
is owned by exactly one holder at a time and every patch handed to the grid is
a distinct object (spec §3), so `patches` holds the patches themselves. -/
structure gridRegular (R : Type) where
  name : String
  origin : List R
  extent : List R
  delta : List R
  dims : List Nat
  dimsComplex : List Nat
  permute : List Int
  patches : List gridPatch
  vars : List dataVar
  refCounter : Nat
deriving DecidableEq, Repr

/-- Function `local_resetDelta` (gridRegular.c 478-485). -/
def local_resetDelta {R : Type} (dbl : DblOps R) (NDIM : Nat) (g : gridRegular R) :
    gridRegular R :=
  { g with delta := (List.zipWith dbl.divByCount g.extent g.dims).take NDIM }

/-- Function `gridRegular_getRef` (gridRegular.c 178-186). -/
def gridRegular_getRef {R : Type} (g : gridRegular R) : gridRegular R :=
  { g with refCounter := refCounter_ref g.refCounter }

/-- Function `gridRegular_new` (gridRegular.c 121-152). -/
def gridRegular_new {R : Type} (dbl : DblOps R) (NDIM : Nat) (name : String)
    (origin extent : List R) (dims : List Nat) : Option (gridRegular R) :=
  if ¬ (∀ i, i < NDIM → dims.getD i 0 > 0 ∧ (extent[i]?).map dbl.isPos = some true) then none
  else
    let g0 : gridRegular R :=
      { name := name
        origin := origin.take NDIM
        extent := extent.take NDIM
        delta := []
        dims := dims.take NDIM
        dimsComplex := dims.take NDIM
        permute := (List.range NDIM).map (fun (i : Nat) => (i : Int))
        patches := []
        vars := []
        refCounter := refCounter_init }
    let g1 := { g0 with dimsComplex := g0.dimsComplex.set 0 (g0.dimsComplex.getD 0 0 / 2 + 1) }
    let g2 := local_resetDelta dbl NDIM g1
    some (gridRegular_getRef g2)

/-- Function `gridRegular_cloneWithoutData` (gridRegular.c 154-161). -/
def gridRegular_cloneWithoutData {R : Type} (dbl : DblOps R) (NDIM : Nat) (grid : gridRegular R) :
    Option (gridRegular R) :=
  gridRegular_new dbl NDIM grid.name grid.origin grid.extent grid.dims

/-- Function `gridRegular_getPermute` (gridRegular.c 251-259). -/
def gridRegular_getPermute {R : Type} (NDIM : Nat) (grid : gridRegular R) : List Int :=
  grid.permute.take NDIM

/-- Run a patch operation on every patch of a sequence in order, threading
the memory (the `for` loops over `grid->patches`). -/
def forEachPatch (f : Mem → gridPatch → Option (Mem × gridPatch)) :
    Mem → List gridPatch → Option (Mem × List gridPatch)
  | m, [] => some (m, [])
  | m, p :: ps =>
    match f m p with
    | none => none
    | some (m1, p1) =>
      match forEachPatch f m1 ps with
      | none => none
      | some (m2, ps2) => some (m2, p1 :: ps2)

/-- Function `local_addVarToAllPatches` (gridRegular.c 509-518). -/
def local_addVarToAllPatches {R : Type} (NDIM : Nat) (m : Mem) (grid : gridRegular R)
    (var : dataVar) : Option (Mem × gridRegular R) :=
  (forEachPatch
    (fun m p => (gridPatch_attachVar NDIM m p var).map (fun r => (r.1, r.2.1)))
    m grid.patches).map (fun r => (r.1, { grid with patches := r.2 }))

/-- Function `local_removeVarFromAllPatches` (gridRegular.c 520-530). -/
def local_removeVarFromAllPatches {R : Type} (m : Mem) (grid : gridRegular R)
    (idxOfVar : Int) : Option (Mem × gridRegular R) :=
  (forEachPatch
    (fun m p => (gridPatch_detachVar m p idxOfVar).map (fun r => (r.1, r.2.1)))
    m grid.patches).map (fun r => (r.1, { grid with patches := r.2 }))

/-- The loop of `local_addAllVarsToPatch` over the grid's variables. -/
def addVarsToPatch (NDIM : Nat) : Mem → gridPatch → List dataVar → Option (Mem × gridPatch)
  | m, patch, [] => some (m, patch)
  | m, patch, var :: rest =>
    match gridPatch_attachVar NDIM m patch var with
    | none => none
    | some (m1, patch1, _) => addVarsToPatch NDIM m1 patch1 rest

/-- Function `local_addAllVarsToPatch` (gridRegular.c 532-541). -/
def local_addAllVarsToPatch {R : Type} (NDIM : Nat) (m : Mem) (grid : gridRegular R)
    (patch : gridPatch) : Option (Mem × gridPatch) :=
  addVarsToPatch NDIM m patch grid.vars

/-- Function `gridRegular_attachVar` (gridRegular.c 318-330). -/
def gridRegular_attachVar {R : Type} (NDIM : Nat) (m : Mem) (grid : gridRegular R)
    (var : dataVar) : Option (Mem × gridRegular R × Int) :=
  let (vars1, idxOfVar) := varArr_insert grid.vars var
  (local_addVarToAllPatches NDIM m { grid with vars := vars1 } var).map
    (fun r => (r.1, r.2, idxOfVar))

/-- Function `gridRegular_detachVar` (gridRegular.c 332-341). -/
def gridRegular_detachVar {R : Type} (m : Mem) (grid : gridRegular R) (idxOfVar : Int) :
    Option (Mem × gridRegular R × dataVar) :=
  if ¬ (idxOfVar ≥ 0 ∧ idxOfVar < grid.vars.length) then none
  else
    match local_removeVarFromAllPatches m grid idxOfVar with
    | none => none
    | some (m1, grid1) =>
      (varArr_remove grid1.vars idxOfVar).map
        (fun r => (m1, { grid1 with vars := r.1 }, r.2))

/-- Function `gridRegular_attachPatch` (gridRegular.c 373-385). -/
def gridRegular_attachPatch {R : Type} (NDIM : Nat) (m : Mem) (grid : gridRegular R)
    (patch : gridPatch) : Option (Mem × gridRegular R × Int) :=
  match local_addAllVarsToPatch NDIM m grid patch with
  | none => none
  | some (m1, patch1) =>
    let (patches1, idxOfPatch) := varArr_insert grid.patches patch1
    some (m1, { grid with patches := patches1 }, idxOfPatch)

/-- Function `gridRegular_detachPatch` (gridRegular.c 387-394). -/
def gridRegular_detachPatch {R : Type} (grid : gridRegular R) (idxOfPatch : Int) :
    Option (gridRegular R × gridPatch) :=
  if ¬ (idxOfPatch ≥ 0 ∧ idxOfPatch < grid.patches.length) then none
  else (varArr_remove grid.patches idxOfPatch).map
    (fun r => ({ grid with patches := r.1 }, r.2))

/-- Function `gridRegular_replacePatch` (gridRegular.c 406-420): `oldPatch != newPatch`
compares the two addresses. -/
def gridRegular_replacePatch {R : Type} (m : Mem) (grid : gridRegular R) (idxOfPatch : Int)
    (newPatch : gridPatch) : Option (Mem × gridRegular R) :=
  if ¬ (idxOfPatch ≥ 0 ∧ idxOfPatch < grid.patches.length) then none
  else
    match varArr_replace grid.patches idxOfPatch newPatch with
    | none => none
    | some (patches1, oldPatch) =>
      if oldPatch.self ≠ newPatch.self then
        (gridPatch_del m oldPatch).map (fun m1 => (m1, { grid with patches := patches1 }))
      else some (m, { grid with patches := patches1 })

/-- Function `gridRegular_transpose` (gridRegular.c 430-453). -/
def gridRegular_transpose {R : Type} (NDIM : Nat) (m : Mem) (grid : gridRegular R)
    (dimA dimB : Int) : Option (Mem × gridRegular R) :=
  if ¬ (dimA ≥ 0 ∧ dimA < NDIM) then none
  else if ¬ (dimB ≥ 0 ∧ dimB < NDIM) then none
  else
    let a := dimA.toNat
    let b := dimB.toNat
    let grid1 : gridRegular R :=
      { grid with origin := LOCAL_SWAP grid.origin a b
                  extent := LOCAL_SWAP grid.extent a b
                  delta := LOCAL_SWAP grid.delta a b
                  dims := LOCAL_SWAP grid.dims a b
                  dimsComplex := LOCAL_SWAP grid.dimsComplex a b
                  permute := LOCAL_SWAP grid.permute a b }
    (forEachPatch (fun m p => gridPatch_transpose NDIM m p dimA dimB) m grid1.patches).map
      (fun r => (r.1, { grid1 with patches := r.2 }))

/-- The search loop of `gridRegular_getCurrentDim` over the slots still to be
visited: the first slot `i` with `permute[i] == originalDim`, or `-1`. -/
def findCurrentDim (permute : List Int) (originalDim : Int) : List Nat → Int
  | [] => -1
  | i :: rest =>
    if permute[i]? = some originalDim then (i : Int)
    else findCurrentDim permute originalDim rest

/-- Function `gridRegular_getCurrentDim` (gridRegular.c 457-475). -/
def gridRegular_getCurrentDim {R : Type} (NDIM : Nat) (grid : gridRegular R)
    (originalDim : Int) : Option Int :=
  if ¬ (originalDim ≥ 0 ∧ originalDim < NDIM) then none
  else
    let currentDim := findCurrentDim grid.permute originalDim (List.range NDIM)
    if ¬ (currentDim ≠ -1) then none
    else some currentDim

/-- The calls that change a grid. -/
inductive GridOp where
  | attachVar (var : dataVar)
  | detachVar (idxOfVar : Int)
  | attachPatch (patch : gridPatch)
  | detachPatch (idxOfPatch : Int)
  | replacePatch (idxOfPatch : Int) (newPatch : gridPatch)
  | transpose (dimA dimB : Int)
deriving DecidableEq, Repr

/-- One call on the state (memory, grid); `none` when the call aborts. -/
def GridOp.step {R : Type} (NDIM : Nat) (s : Mem × gridRegular R) :
    GridOp → Option (Mem × gridRegular R)
  | .attachVar var => (gridRegular_attachVar NDIM s.1 s.2 var).map (fun r => (r.1, r.2.1))
  | .detachVar idxOfVar => (gridRegular_detachVar s.1 s.2 idxOfVar).map (fun r => (r.1, r.2.1))
  | .attachPatch patch => (gridRegular_attachPatch NDIM s.1 s.2 patch).map (fun r => (r.1, r.2.1))
  | .detachPatch idxOfPatch => (gridRegular_detachPatch s.2 idxOfPatch).map (fun r => (s.1, r.1))
  | .replacePatch idxOfPatch newPatch => gridRegular_replacePatch s.1 s.2 idxOfPatch newPatch
  | .transpose dimA dimB => gridRegular_transpose NDIM s.1 s.2 dimA dimB

/-- Run a sequence of calls, each of which must be admitted by `ok` in the
state it is issued in; `none` when a call is not admitted or aborts. -/
def runOps {R : Type} (NDIM : Nat) (ok : gridRegular R → GridOp → Bool) :
    Mem × gridRegular R → List GridOp → Option (Mem × gridRegular R)
  | s, [] => some s
  | s, op :: rest =>
    if ok s.2 op then
      match GridOp.step NDIM s op with
      | none => none
      | some s1 => runOps NDIM ok s1 rest
    else none

/-- A state is reachable from `gridRegular_new` by calls admitted by `ok`:
some grid built by `gridRegular_new`, in some memory, and some sequence of
admitted calls, none of which aborts, lead to it. -/
def Reachable {R : Type} (dbl : DblOps R) (NDIM : Nat) (ok : gridRegular R → GridOp → Bool)
    (s : Mem × gridRegular R) : Prop :=
  ∃ (m : Mem) (name : String) (origin extent : List R) (dims : List Nat) (ops : List GridOp),
    (gridRegular_new dbl NDIM name origin extent dims).bind
      (fun g => runOps NDIM ok (m, g) ops) = some s

/-- Every call is admitted. -/
def anyOp {R : Type} : gridRegular R → GridOp → Bool := fun _ _ => true

/-- Only `gridRegular_transpose` is admitted. -/
def onlyTranspose {R : Type} : gridRegular R → GridOp → Bool
  | _, .transpose _ _ => true
  | _, _ => false

/-- Every owned patch carries the same ordered sequence of variables as the
grid. -/
def patchesCarryGridVars {R : Type} (g : gridRegular R) : Bool :=
  g.patches.all (fun p => decide (p.vars = g.vars))

/-- A stand-in for `double` on which examples are evaluated: integers with
integer division. -/
def intDbl : DblOps Int := ⟨fun x => decide (x > 0), fun x n => x / (n : Int)⟩

/-- A descriptor of one-byte, one-component elements. -/
def exampleVar : gridVar := ⟨"rho", 1, 1, false, false⟩

/-- A 2 x 3 patch (`NDIM = 2`) holding `exampleVar` in buffer 1. -/
def examplePatch : gridPatch :=
  { self := 100, idxLo := [0, 0], dims := [2, 3], numCells := 6,
    vars := [exampleVar], varData := [1] }

/-- A 2 x 3 x 1 patch (`NDIM = 3`) holding `exampleVar` in buffer 1. -/
def examplePatch3 : gridPatch :=
  { self := 100, idxLo := [0, 0, 0], dims := [2, 3, 1], numCells := 6,
    vars := [exampleVar], varData := [1] }

/-- A memory with two buffers; buffer 1 holds the cells 10..15. -/
def exampleMem : Mem := ⟨[[1, 2, 3, 4, 5, 6], [10, 11, 12, 13, 14, 15]], []⟩


/-- The empty memory. -/
def emptyMem : Mem := ⟨[], []⟩

/-- The grid `gridRegular_new("grid", (0,0,0), (8,8,8), (4,10,6))`, `NDIM = 3`. -/
def exampleGrid : Option (gridRegular Int) :=
  gridRegular_new intDbl 3 "grid" [0, 0, 0] [8, 8, 8] [4, 10, 6]

/-- A fresh 2 x 3 x 1 patch without variables, as `gridPatch_new` returns it. -/
def freshPatchA : gridPatch :=
  { self := 100, idxLo := [0, 0, 0], dims := [2, 3, 1], numCells := 6, vars := [], varData := [] }

/-- A second fresh patch without variables. -/
def freshPatchB : gridPatch :=
  { self := 200, idxLo := [2, 0, 0], dims := [2, 3, 1], numCells := 6, vars := [], varData := [] }

/-- The calls under which the grid keeps its patches' variables aligned:
`attachPatch` of a patch that holds no variables, `replacePatch` with a patch
that already carries the grid's variables, and every `attachVar`,
`detachVar`, `detachPatch` and `transpose`. -/
def varsAligningOp {R : Type} : gridRegular R → GridOp → Bool
  | _, .attachPatch patch => decide (patch.vars = [])
  | g, .replacePatch _ newPatch => decide (newPatch.vars = g.vars)
  | _, _ => true

/-- The permutation vector is a bijection on `[0, NDIM)`: it has `NDIM`
entries, each an axis index below `NDIM`, no two slots hold the same axis, and
every axis is held by some slot. -/
def IsBijection (NDIM : Nat) (permute : List Int) : Prop :=
  permute.length = NDIM
  ∧ (∀ i, i < NDIM → ∃ d : Nat, d < NDIM ∧ permute[i]? = some (d : Int))
  ∧ (∀ i j, i < NDIM → j < NDIM → permute[i]? = permute[j]? → i = j)
  ∧ (∀ d : Nat, d < NDIM → ∃ i, i < NDIM ∧ permute[i]? = some (d : Int))

/-- The state after `attachVar(exampleVar)` and `attachPatch(freshPatchA)` on
`exampleGrid` in the empty memory. -/
def alignedState : Mem × gridRegular Int :=
  (⟨[[0, 0, 0, 0, 0, 0]], []⟩,
   { name := "grid", origin := [0, 0, 0], extent := [8, 8, 8], delta := [2, 0, 1],
     dims := [4, 10, 6], dimsComplex := [3, 10, 6], permute := [0, 1, 2],
     patches := [{ freshPatchA with vars := [exampleVar], varData := [0] }],
     vars := [exampleVar], refCounter := 1 })

/-- The state after `transpose(0,1)` and `transpose(1,2)` on `exampleGrid`. -/
def cycledState : Mem × gridRegular Int :=
  (⟨[], []⟩,
   { name := "grid", origin := [0, 0, 0], extent := [8, 8, 8], delta := [0, 1, 2],
     dims := [10, 6, 4], dimsComplex := [10, 6, 3], permute := [1, 2, 0],
     patches := [], vars := [], refCounter := 1 })

/-- The permutation vector lists the values of a permutation of the axes. -/
def PermInv (NDIM : Nat) (l : List Int) : Prop :=
  l.length = NDIM ∧ ∃ σ : Equiv.Perm (Fin NDIM), ∀ i : Fin NDIM, l[i.val]? = some ((σ i).val : Int)

/-- The two sequences of a patch are index-aligned: they have equal length
(data model, spec §3). -/
def gridPatch.aligned (patch : gridPatch) : Prop :=
  patch.varData.length = patch.vars.length

/-- The patch that `gridRegular_detachVar(grid, i)` leaves in place of `p`:
position `i` is removed from both sequences, the later entries move down by
one and keep their order. -/
def patchWithoutVar (i : Nat) (p : gridPatch) : gridPatch :=
  { p with vars := p.vars.eraseIdx i, varData := p.varData.eraseIdx i }

/-- The grid/patch variable invariant together with the index alignment of
every owned patch. -/
def gridVarsInvariant {R : Type} (g : gridRegular R) : Prop :=
  ∀ p ∈ g.patches, p.vars = g.vars ∧ p.aligned

/-- The six per-axis vectors of the grid have one entry per axis. -/
def geometryHasNDIM {R : Type} (NDIM : Nat) (g : gridRegular R) : Prop :=
  g.origin.length = NDIM ∧ g.extent.length = NDIM ∧ g.delta.length = NDIM
  ∧ g.dims.length = NDIM ∧ g.dimsComplex.length = NDIM ∧ g.permute.length = NDIM

/-- The halved axis of `dimsComplex` is the slot that holds original axis 0:
`dimsComplex[d] = dims[d] / 2 + 1` in the slot `d` with `permute[d] = 0`, and
`dimsComplex[d] = dims[d]` in every other slot. -/
def halvedAxisFollows {R : Type} (NDIM : Nat) (g : gridRegular R) : Prop :=
  ∀ d, d < NDIM → ∃ x, g.dims[d]? = some x ∧
    g.dimsComplex[d]? = some (if g.permute[d]? = some 0 then x / 2 + 1 else x)

/-- The slot that `LOCAL_SWAP(a[dimA], a[dimB], tmp)` fills slot `d` from. -/
def swapIdx (dimA dimB d : Nat) : Nat :=
  if d = dimB then dimA else if d = dimA then dimB else d

/-- The state after `transpose(0,1)` on `exampleGrid`. -/
def transposedState : Mem × gridRegular Int :=
  (⟨[], []⟩,
   { name := "grid", origin := [0, 0, 0], extent := [8, 8, 8], delta := [0, 2, 1],
     dims := [10, 4, 6], dimsComplex := [10, 3, 6], permute := [1, 0, 2],
     patches := [], vars := [], refCounter := 1 })

/-- Entries `dimA` and `dimB` of the vector are exchanged and every other
entry is kept: `l1` is `l` after `LOCAL_SWAP`. -/
def EntriesExchanged {α : Type} (l l1 : List α) (dimA dimB : Nat) : Prop :=
  l1.length = l.length ∧ l1[dimA]? = l[dimB]? ∧ l1[dimB]? = l[dimA]?
  ∧ ∀ d, d ≠ dimA → d ≠ dimB → l1[d]? = l[d]?

/-! ## Reference counting of the grid (gridRegular.c 163-186) -/

/-- Modelled from the spec: `refCounter_deref` (`refCounter.h` is missing)
decrements the count and reports whether it has reached zero. -/
def refCounter_deref (c : Nat) : Nat × Bool := (c - 1, decide (c - 1 = 0))

/-- Function `local_freePatches` (gridRegular.c 487-496): removes patch 0 and
deletes it until no patch is left. -/
def local_freePatches (m : Mem) : List gridPatch → Option Mem
  | [] => some m
  | patch :: rest =>
    match gridPatch_del m patch with
    | none => none
    | some m1 => local_freePatches m1 rest

/-- Function `local_freeVars` (gridRegular.c 498-507): removes variable 0 and
drops the grid's reference to it until none is left; the descriptors hold no
data buffer, so the memory of buffers is untouched. -/
def local_freeVars (m : Mem) (_vars : List dataVar) : Mem := m

/-- Function `gridRegular_del` (gridRegular.c 163-176).  The argument is what
the caller's handle `*gridRegular` holds (`none` for `NULL`); the result is the
memory and what the handle holds afterwards. -/
def gridRegular_del {R : Type} (m : Mem) (handle : Option (gridRegular R)) :
    Option (Mem × Option (gridRegular R)) :=
  match handle with
  | none => none
  | some grid =>
    let r := refCounter_deref grid.refCounter
    if r.2 then
      match local_freePatches m grid.patches with
      | none => none
      | some m1 => some (local_freeVars m1 grid.vars, none)
    else some (m, some { grid with refCounter := r.1 })

/-- The two calls of the reference-count discipline. -/
inductive RefOp where
  | getRef
  | del
deriving DecidableEq, Repr

/-- One call of the discipline through the caller's handle: `gridRegular_getRef`
asserts the handle is not `NULL`. -/
def RefOp.step {R : Type} (s : Mem × Option (gridRegular R)) :
    RefOp → Option (Mem × Option (gridRegular R))
  | .getRef =>
    match s.2 with
    | none => none
    | some grid => some (s.1, some (gridRegular_getRef grid))
  | .del => gridRegular_del s.1 s.2

/-- Run a sequence of `getRef` / `del` calls; `none` when a call aborts. -/
def runRefOps {R : Type} :
    Mem × Option (gridRegular R) → List RefOp → Option (Mem × Option (gridRegular R))
  | s, [] => some s
  | s, op :: rest =>
    match RefOp.step s op with
    | none => none
    | some s1 => runRefOps s1 rest

/-- Every prefix of the call sequence contains at most as many `del` as
`getRef` calls. -/
def delsNeverAhead (ops : List RefOp) : Prop :=
  ∀ k, k ≤ ops.length → (ops.take k).count RefOp.del ≤ (ops.take k).count RefOp.getRef

/-! ## libutil/commScheme.c -/

/-- Modelled from the spec: the lifecycle state of a scheme (`commScheme_adt.h`
is missing): `PREFIRE`, `FIRING`, `POSTFIRE`. -/
inductive commSchemeStatus where
  | PREFIRE
  | FIRING
  | POSTFIRE
deriving DecidableEq, Repr

/-- Modelled from the spec: a communication buffer (`commSchemeBuffer_adt.h` is
missing; the fields are those `commScheme.c` reads): raw region, element
count, element kind and peer rank. -/
structure commSchemeBuffer where
  buf : Nat
  count : Int
  datatype : Nat
  rank : Int
deriving DecidableEq, Repr

/-- Modelled from the spec: the communicator context as `commScheme_new`
queries it: whether it is `MPI_COMM_NULL`, and what `MPI_Comm_rank` and
`MPI_Comm_size` report. -/
structure MPI_Comm where
  isNull : Bool
  rank : Int
  size : Int
deriving DecidableEq, Repr

/-- Modelled from the spec: an in-flight request handle, recording the
non-blocking transfer it was posted for. -/
structure MPI_Request where
  isSend : Bool
  buf : Nat
  count : Int
  datatype : Nat
  peer : Int
  tag : Int
deriving DecidableEq, Repr

/-- Modelled from the spec: the scheme structure (`commScheme_adt.h` is
missing; the fields are those `commScheme.c` uses).  A request array is `none`
when the pointer is `NULL`. -/
structure commScheme where
  comm : MPI_Comm
  rank : Int
  size : Int
  tag : Int
  buffersRecv : List commSchemeBuffer
  requestsRecv : Option (List MPI_Request)
  buffersSend : List commSchemeBuffer
  requestsSend : Option (List MPI_Request)
  status : commSchemeStatus
deriving DecidableEq, Repr

/-- Modelled from the spec: the direction constant for send buffers
(`commScheme.h` is missing; only its difference from the receive constant
matters). -/
def COMMSCHEME_TYPE_SEND : Int := 0

/-- Modelled from the spec: the direction constant for receive buffers. -/
def COMMSCHEME_TYPE_RECV : Int := 1

/-- Function `commScheme_new` (commScheme.c 31-51). -/
def commScheme_new (comm : MPI_Comm) (tag : Int) : Option commScheme :=
  if ¬ (comm.isNull = false) then none
  else if ¬ (tag ≥ 0 ∧ tag < 32767) then none
  else some { comm := comm, rank := comm.rank, size := comm.size, tag := tag
              buffersRecv := [], requestsRecv := none
              buffersSend := [], requestsSend := none
              status := commSchemeStatus.PREFIRE }

/-- Function `commScheme_addBuffer` (commScheme.c 76-90). -/
def commScheme_addBuffer (scheme : commScheme) (buffer : commSchemeBuffer) (type : Int) :
    Option (commScheme × Int) :=
  if ¬ (type = COMMSCHEME_TYPE_SEND ∨ type = COMMSCHEME_TYPE_RECV) then none
  else if ¬ (scheme.status = commSchemeStatus.PREFIRE) then none
  else if type = COMMSCHEME_TYPE_SEND then
    let r := varArr_insert scheme.buffersSend buffer
    some ({ scheme with buffersSend := r.1 }, r.2)
  else
    let r := varArr_insert scheme.buffersRecv buffer
    some ({ scheme with buffersRecv := r.1 }, r.2)

/-- A communicator of 4 processes, seen from rank 0. -/
def exampleComm : MPI_Comm := ⟨false, 0, 4⟩

/-- A buffer whose peer rank 7 lies outside `[0, 4)`. -/
def bufferRank7 : commSchemeBuffer := ⟨0, 16, 0, 7⟩

/-- A buffer whose peer rank is negative. -/
def bufferRankNeg : commSchemeBuffer := ⟨1, 16, 0, -1⟩

/-- The grid that `exampleGrid` holds. -/
def exampleGridValue : gridRegular Int :=
  { name := "grid", origin := [0, 0, 0], extent := [8, 8, 8], delta := [2, 0, 1],
    dims := [4, 10, 6], dimsComplex := [3, 10, 6], permute := [0, 1, 2],
    patches := [], vars := [], refCounter := 1 }

/-- The scheme `commScheme_new(exampleComm, 5)` returns. -/
def exampleScheme : commScheme :=
  { comm := exampleComm, rank := 0, size := 4, tag := 5
    buffersRecv := [], requestsRecv := none
    buffersSend := [], requestsSend := none
    status := commSchemeStatus.PREFIRE }

/-! ## Definitions used for the padded extents of a patch -/

/-- The axis-0 extent of the padded layout, `2*(d0/2 + 1)`, as a natural
number (no wrap-around). -/
def paddedDim (d0 : Nat) : Nat := 2 * (d0 / 2 + 1)

/-- The extent `gridPatch_getDimActual1D` reports for a variable on axis `d`:
the padded axis-0 extent reduced modulo `2^32` for a padded variable on axis 0,
the stored extent in every other case. -/
def actualDim (patch : gridPatch) (var : gridVar) (d : Nat) : Nat :=
  if gridVar_isFFTWPadded var ∧ d = 0 then paddedDim (patch.dims.getD 0 0) % U32
  else patch.dims.getD d 0

/-- A variable whose descriptor requires the padded layout. -/
def paddedVar : gridVar := ⟨"rhoK", 8, 1, true, false⟩

/-- A 5 x 3 patch (`NDIM = 2`) holding first a non-padded and then a padded
variable. -/
def paddedPatch : gridPatch :=
  { self := 100, idxLo := [0, 0], dims := [5, 3], numCells := 15,
    vars := [exampleVar, paddedVar], varData := [1, 2] }

/-- The patch `gridPatch_new` builds for the bounds `[0, 2^32 - 2] x [0, 0] x
[0, 0]` (`NDIM = 3`), with a padded variable attached. -/
def widePatch : gridPatch :=
  { self := 100, idxLo := [0, 0, 0], dims := [4294967295, 1, 1], numCells := 4294967295,
    vars := [paddedVar], varData := [0] }

/-- The patch `gridPatch_new` builds for the bounds `[0, 2^22 - 1]` on each of
three axes, with a non-padded variable attached. -/
def cubePatch : gridPatch :=
  { self := 100, idxLo := [0, 0, 0], dims := [4194304, 4194304, 4194304], numCells := 0,
    vars := [exampleVar], varData := [0] }

/-- A patch holding three variables in three buffers. -/
def threeVarPatch : gridPatch :=
  { self := 100, idxLo := [0, 0], dims := [2, 3], numCells := 6,
    vars := [exampleVar, paddedVar, ⟨"vel", 4, 3, false, false⟩], varData := [1, 2, 3] }

/-! ## libutil/commScheme.c: execution, completion and deletion -/

/-- What the scheme asks of the message-passing library and of the buffer
module, in program order: a non-blocking transfer posted on a communicator
(`MPI_Irecv` when the request has `isSend = false`, `MPI_Isend` otherwise), a
completion wait on an array of requests (`MPI_Waitall`), and the deletion of a
registered buffer (`commSchemeBuffer_del`). -/
inductive commEvent where
  | post (comm : MPI_Comm) (r : MPI_Request)
  | waitall (rs : List MPI_Request)
  | bufferDel (b : commSchemeBuffer)
deriving DecidableEq, Repr

/-- Library call `MPI_Irecv(buf, count, datatype, source, tag, comm, request)`:
posts the receive and stores the handle of the posted transfer in `request`. -/
def MPI_Irecv (log : List commEvent) (buf : Nat) (count : Int) (datatype : Nat)
    (source tag : Int) (comm : MPI_Comm) : List commEvent × MPI_Request :=
  let r : MPI_Request := ⟨false, buf, count, datatype, source, tag⟩
  (log ++ [commEvent.post comm r], r)

/-- Library call `MPI_Isend(buf, count, datatype, dest, tag, comm, request)`:
posts the send and stores the handle of the posted transfer in `request`. -/
def MPI_Isend (log : List commEvent) (buf : Nat) (count : Int) (datatype : Nat)
    (dest tag : Int) (comm : MPI_Comm) : List commEvent × MPI_Request :=
  let r : MPI_Request := ⟨true, buf, count, datatype, dest, tag⟩
  (log ++ [commEvent.post comm r], r)

/-- Library call `MPI_Waitall(count, requests, MPI_STATUSES_IGNORE)`: returns
once the first `count` requests of the array have completed.  A `NULL` array or
one with fewer than `count` entries is an invalid access. -/
def MPI_Waitall (log : List commEvent) (count : Nat) (requests : Option (List MPI_Request)) :
    Option (List commEvent) :=
  match requests with
  | none => none
  | some rs =>
    if count ≤ rs.length then some (log ++ [commEvent.waitall (rs.take count)]) else none

/-- Modelled from the spec: `commSchemeBuffer_del` (`commSchemeBuffer.c` is
missing) disposes of one registered buffer. -/
def commSchemeBuffer_del (log : List commEvent) (buf : commSchemeBuffer) : List commEvent :=
  log ++ [commEvent.bufferDel buf]

/-- Function `local_startReceiving` (commScheme.c 140-154): allocates the
request array and posts one receive per registered receive buffer, in index
order, storing the handle at the same index. -/
def local_startReceiving (log : List commEvent) (scheme : commScheme) :
    List commEvent × commScheme :=
  let r := scheme.buffersRecv.foldl
    (fun (acc : List commEvent × List MPI_Request) (buf : commSchemeBuffer) =>
      let p := MPI_Irecv acc.1 buf.buf buf.count buf.datatype buf.rank scheme.tag scheme.comm
      (p.1, acc.2 ++ [p.2]))
    (log, [])
  (r.1, { scheme with requestsRecv := some r.2 })

/-- Function `local_startSending` (commScheme.c 156-170): the same for the send
buffers. -/
def local_startSending (log : List commEvent) (scheme : commScheme) :
    List commEvent × commScheme :=
  let r := scheme.buffersSend.foldl
    (fun (acc : List commEvent × List MPI_Request) (buf : commSchemeBuffer) =>
      let p := MPI_Isend acc.1 buf.buf buf.count buf.datatype buf.rank scheme.tag scheme.comm
      (p.1, acc.2 ++ [p.2]))
    (log, [])
  (r.1, { scheme with requestsSend := some r.2 })

/-- Function `commScheme_execute` (commScheme.c 92-102). -/
def commScheme_execute (log : List commEvent) (scheme : commScheme) :
    Option (List commEvent × commScheme) :=
  if ¬ (scheme.status = commSchemeStatus.PREFIRE) then none
  else
    let r1 := local_startReceiving log scheme
    let r2 := local_startSending r1.1 r1.2
    some (r2.1, { r2.2 with status := commSchemeStatus.FIRING })

/-- Function `commScheme_wait` (commScheme.c 114-137). -/
def commScheme_wait (log : List commEvent) (scheme : commScheme) :
    Option (List commEvent × commScheme) :=
  if scheme.status ≠ commSchemeStatus.FIRING then some (log, scheme)
  else
    let numSend := scheme.buffersSend.length
    match (if numSend > 0 then MPI_Waitall log numSend scheme.requestsSend else some log) with
    | none => none
    | some log1 =>
      let scheme1 : commScheme := { scheme with requestsSend := none }
      let numRecv := scheme1.buffersRecv.length
      match (if numRecv > 0 then MPI_Waitall log1 numRecv scheme1.requestsRecv
             else some log1) with
      | none => none
      | some log2 =>
        some (log2, { scheme1 with requestsRecv := none, status := commSchemeStatus.POSTFIRE })

/-- Function `commScheme_executeBlock` (commScheme.c 104-112). -/
def commScheme_executeBlock (log : List commEvent) (scheme : commScheme) :
    Option (List commEvent × commScheme) :=
  if ¬ (scheme.status = commSchemeStatus.PREFIRE) then none
  else
    match commScheme_execute log scheme with
    | none => none
    | some r => commScheme_wait r.1 r.2

/-- The two `while` loops of `commScheme_del` (commScheme.c 61-64, 66-69):
removes element 0 and deletes it until the array is empty. -/
def local_delBuffers (log : List commEvent) : List commSchemeBuffer → List commEvent
  | [] => log
  | buf :: rest => local_delBuffers (commSchemeBuffer_del log buf) rest

/-- Function `commScheme_del` (commScheme.c 53-74).  The argument is what the
caller's handle `*scheme` holds (`none` for `NULL`); the result is the log and
what the handle holds afterwards. -/
def commScheme_del (log : List commEvent) (handle : Option commScheme) :
    Option (List commEvent × Option commScheme) :=
  match handle with
  | none => none
  | some scheme =>
    match (if scheme.status = commSchemeStatus.FIRING then commScheme_wait log scheme
           else some (log, scheme)) with
    | none => none
    | some r =>
      let log1 := local_delBuffers r.1 r.2.buffersRecv
      let log2 := local_delBuffers log1 r.2.buffersSend
      some (log2, none)

/-- What the spec says `executeBlock()` is: `execute()` then `wait()`. -/
def executeThenWait (log : List commEvent) (scheme : commScheme) :
    Option (List commEvent × commScheme) :=
  (commScheme_execute log scheme).bind (fun r => commScheme_wait r.1 r.2)

/-- The request handle of the transfer posted for a registered buffer: its
own region, count, element kind and peer rank, with the scheme's tag. -/
def requestFor (isSend : Bool) (tag : Int) (b : commSchemeBuffer) : MPI_Request :=
  ⟨isSend, b.buf, b.count, b.datatype, b.rank, tag⟩

/-- The receive requests of a scheme, one per receive buffer in registration
order. -/
def recvRequests (scheme : commScheme) : List MPI_Request :=
  scheme.buffersRecv.map (requestFor false scheme.tag)

/-- The send requests of a scheme, one per send buffer in registration
order. -/
def sendRequests (scheme : commScheme) : List MPI_Request :=
  scheme.buffersSend.map (requestFor true scheme.tag)

/-- The transfers one `commScheme_execute` posts: the receives, then the
sends. -/
def postEvents (scheme : commScheme) : List commEvent :=
  (recvRequests scheme).map (commEvent.post scheme.comm)
    ++ (sendRequests scheme).map (commEvent.post scheme.comm)

/-- The completion waits of `commScheme_wait` on a firing scheme: the send
requests if there are any, then the receive requests if there are any. -/
def waitEvents (scheme : commScheme) : List commEvent :=
  (if scheme.buffersSend.length > 0 then [commEvent.waitall (sendRequests scheme)] else [])
    ++ (if scheme.buffersRecv.length > 0 then [commEvent.waitall (recvRequests scheme)] else [])

/-- The requests whose completion a list of events waits for. -/
def awaited : List commEvent → List MPI_Request
  | [] => []
  | commEvent.waitall rs :: es => rs ++ awaited es
  | _ :: es => awaited es

/-- The requests a list of events posts. -/
def posted : List commEvent → List MPI_Request
  | [] => []
  | commEvent.post _ r :: es => r :: posted es
  | _ :: es => posted es

/-- The effect of one event on the list of outstanding requests: a posted
transfer is outstanding until a completion wait covers it. -/
def outstandingStep (out : List MPI_Request) : commEvent → List MPI_Request
  | commEvent.post _ r => out ++ [r]
  | commEvent.waitall rs => out.diff rs
  | commEvent.bufferDel _ => out

/-- The requests posted and not yet waited for after a history of events. -/
def outstanding (log : List commEvent) : List MPI_Request :=
  log.foldl outstandingStep []

/-- Every buffer deletion of the history happens at a moment when no request
is outstanding. -/
def deletesOnlyWhenQuiet (log : List commEvent) : Prop :=
  ∀ k b, log[k]? = some (commEvent.bufferDel b) → outstanding (log.take k) = []

/-- The order `PREFIRE < FIRING < POSTFIRE` of the lifecycle states. -/
def statusRank : commSchemeStatus → Nat
  | commSchemeStatus.PREFIRE => 0
  | commSchemeStatus.FIRING => 1
  | commSchemeStatus.POSTFIRE => 2

/-- The calls on a live scheme. -/
inductive SchemeOp where
  | addBuffer (buffer : commSchemeBuffer) (type : Int)
  | execute
  | executeBlock
  | wait
deriving DecidableEq, Repr

/-- One call on a scheme and its history; `none` when the call aborts. -/
def SchemeOp.step (st : List commEvent × commScheme) :
    SchemeOp → Option (List commEvent × commScheme)
  | SchemeOp.addBuffer buffer type =>
    (commScheme_addBuffer st.2 buffer type).map (fun r => (st.1, r.1))
  | SchemeOp.execute => commScheme_execute st.1 st.2
  | SchemeOp.executeBlock => commScheme_executeBlock st.1 st.2
  | SchemeOp.wait => commScheme_wait st.1 st.2

/-- A sequence of calls; `none` when one of them aborts. -/
def runSchemeOps (st : List commEvent × commScheme) :
    List SchemeOp → Option (List commEvent × commScheme)
  | [] => some st
  | op :: ops =>
    match op.step st with
    | none => none
    | some st1 => runSchemeOps st1 ops

/-- What holds of a scheme and its history when the scheme was created by
`commScheme_new` and only its own calls were made since: the history has no
buffer deletion, nothing is outstanding outside `FIRING`, and in `FIRING` the
request arrays hold the handles of the posted transfers, all outstanding. -/
def schemeInv (st : List commEvent × commScheme) : Prop :=
  (∀ e ∈ st.1, ∀ b, e ≠ commEvent.bufferDel b)
  ∧ (st.2.status ≠ commSchemeStatus.FIRING → outstanding st.1 = [])
  ∧ (st.2.status = commSchemeStatus.FIRING →
      st.2.requestsSend = some (sendRequests st.2)
      ∧ st.2.requestsRecv = some (recvRequests st.2)
      ∧ outstanding st.1 = recvRequests st.2 ++ sendRequests st.2)

/-- A buffer for a receive of 8 elements from rank 1. -/
def bufferFrom1 : commSchemeBuffer := ⟨10, 8, 0, 1⟩

/-- A buffer for a receive of 4 elements from rank 2. -/
def bufferFrom2 : commSchemeBuffer := ⟨20, 4, 0, 2⟩

/-- A buffer for a send of 8 elements to rank 3. -/
def bufferTo3 : commSchemeBuffer := ⟨30, 8, 0, 3⟩

/-- The example scheme with two receive buffers and one send buffer
registered. -/
def armedScheme : commScheme :=
  { exampleScheme with buffersRecv := [bufferFrom1, bufferFrom2], buffersSend := [bufferTo3] }

/-- The scheme `commScheme_execute` leaves of `armedScheme`. -/
def firingScheme : commScheme :=
  { armedScheme with
    requestsRecv := some [⟨false, 10, 8, 0, 1, 5⟩, ⟨false, 20, 4, 0, 2, 5⟩],
    requestsSend := some [⟨true, 30, 8, 0, 3, 5⟩],
    status := commSchemeStatus.FIRING }

/-- The scheme `commScheme_wait` leaves of `firingScheme`. -/
def doneScheme : commScheme :=
  { armedScheme with status := commSchemeStatus.POSTFIRE }

/-! ## libgrid/gridPatch.c: the offsets of the 2-D transposition -/

/-- The two byte offsets `posT` and `pos` that the loop body of
`local_transposeVar_2d` (gridPatch.c 295-296) computes for the destination cell
`(k0, k1)`: `(k0 + k1 * dimsT[0]) * size` and `(k1 + k0 * dimsT[1]) * size`.
`k0`, `k1` and `size` are `int` and `dimsT` is `uint32_t`, so both products
are 32-bit unsigned and wrap before they are stored in the `size_t`. -/
def local_transposeVar_2d_pos (size : Nat) (dimsT : List Nat) (k0 k1 : Nat) : Nat × Nat :=
  (((k0 + k1 * dimsT.getD 0 0) * size) % U32, ((k1 + k0 * dimsT.getD 1 0) * size) % U32)

/-- The destination cells `(k0, k1)` in the order the two loops of
`local_transposeVar_2d` visit them: `k1` outer, `k0` inner. -/
def local_transposeVar_2d_cells (dimsT : List Nat) : List (Nat × Nat) :=
  (List.range (dimsT.getD 1 0)).flatMap
    (fun k1 => (List.range (dimsT.getD 0 0)).map (fun k0 => (k0, k1)))

/-! ## libutil/bov.c -/

/-- Modelled from the spec: the BOV structure (`bov_adt.h` is missing; the
fields are those `bov.c` sets in `bov_new`, without the floating-point ones
`time`, `brick_origin` and `brick_size`, which the functions below do not
read).  A string pointer is `none` when it is `NULL`; `data_size` is
`uint32_t[3]`, `data_bricklets` is `int[3]`; `variableName` is the field
`variable` of the source. -/
structure bov where
  bovFileName : Option String
  bovFilePath : Option String
  data_file : Option String
  data_format : Nat
  variableName : Option String
  data_size : List Nat
  data_bricklets : List Int
  byte_offset : Nat
  divide_brick : Bool
  data_components : Int
deriving DecidableEq, Repr

/-- Function `bov_new` (bov.c 398-424), on the fields of the model. -/
def bov_new : bov :=
  { bovFileName := none, bovFilePath := none, data_file := none, data_format := 0,
    variableName := none, data_size := [0, 0, 0], data_bricklets := [0, 0, 0],
    byte_offset := 0, divide_brick := false, data_components := 1 }

/-- Function `bov_isValidForWrite` (bov.c 732-756).  The argument is the
handle (`none` for `NULL`); the result is the returned flag together with the
object as the call leaves it. -/
def bov_isValidForWrite (handle : Option bov) : Bool × Option bov :=
  match handle with
  | none => (false, none)
  | some b =>
    let valid := true
    let valid := if b.data_file = none then false else valid
    let valid :=
      if b.data_size.getD 0 0 = 0 ∨ b.data_size.getD 1 0 = 0 ∨ b.data_size.getD 2 0 = 0
      then false else valid
    let valid := if b.variableName = none then false else valid
    let valid :=
      if b.divide_brick then
        if b.data_bricklets.getD 0 0 ≤ 0 ∨ b.data_bricklets.getD 1 0 ≤ 0
            ∨ b.data_bricklets.getD 2 0 ≤ 0
        then false else valid
      else valid
    (valid, some b)

/-- How a call of `bov_readWindowed` that passes its assertions ends: with
the message "Window too large for data in bov" and `diediedie`, or in the
call of `local_readWindowedActualRead` with the given arguments. -/
inductive bovWindowedOutcome where
  | windowTooLarge
  | actualRead (b : bov) (data : Nat) (dataFormat : Nat) (numComponents : Int)
      (idxLo dims : List Nat)
deriving DecidableEq, Repr

/-- Function `bov_readWindowed` (bov.c 691-715).  Pointers are `none` when
`NULL`; `none` as result is a failed assertion.  The sums `idxLo[d] + dims[d]`
are `uint32_t` sums. -/
def bov_readWindowed (handle : Option bov) (data : Option Nat) (dataFormat : Nat)
    (numComponents : Int) (idxLo dims : Option (List Nat)) : Option bovWindowedOutcome :=
  match handle, data, idxLo, dims with
  | some b, some dataPtr, some lo, some ds =>
    if ¬ (numComponents > 0) then none
    else if ¬ (ds.getD 0 0 > 0 ∧ ds.getD 1 0 > 0 ∧ ds.getD 2 0 > 0) then none
    else if (lo.getD 0 0 + ds.getD 0 0) % U32 > b.data_size.getD 0 0
        ∨ (lo.getD 1 0 + ds.getD 1 0) % U32 > b.data_size.getD 1 0
        ∨ (lo.getD 2 0 + ds.getD 2 0) % U32 > b.data_size.getD 2 0 then
      some bovWindowedOutcome.windowTooLarge
    else
      some (bovWindowedOutcome.actualRead b dataPtr dataFormat numComponents lo ds)
  | _, _, _, _ => none

/-- A BOV of 5 x 5 x 5 values that is ready to be written. -/
def exampleBov : bov :=
  { bov_new with data_file := some "rho.dat", variableName := some "rho", data_size := [5, 5, 5] }

/-- The example BOV asking for bricklets it does not define. -/
def brickBov : bov := { exampleBov with divide_brick := true }

/-! ## libcosmo/cosmoPk.c -/

/-- The operations on `double` that `cosmoPk_eval` uses, over an abstract type
of numbers: the constant `0.0`, the comparisons `isless` and `isgreater`,
multiplication, division and `pow`. -/
structure PkOps (R : Type) where
  zero : R
  isless : R → R → Bool
  isgreater : R → R → Bool
  mul : R → R → R
  div : R → R → R
  pow : R → R → R

/-- Modelled from the spec: the power spectrum structure (`cosmoPk_adt.h` is
missing; the fields are those `cosmoPk.c` uses): the tabulated points
`k[0..numPoints-1]`, `P[0..numPoints-1]`, the two slopes, and the spline, given
as the function `gsl_spline_eval(pk->spline, ·, pk->acc)` computes. -/
structure cosmoPk (R : Type) where
  numPoints : Nat
  k : List R
  P : List R
  slopeBeyondKmax : R
  slopeBeforeKmin : R
  spline : R → R

/-- Function `cosmoPk_eval` (cosmoPk.c 239-253).  The index `numPoints - 1` is
`uint32_t` arithmetic. -/
def cosmoPk_eval {R : Type} (ops : PkOps R) (pk : cosmoPk R) (k : R) : Option R :=
  if ¬ (ops.isgreater k ops.zero = true) then none
  else if ops.isless k (pk.k.getD 0 ops.zero) = true then
    some (ops.mul (pk.P.getD 0 ops.zero)
      (ops.pow (ops.div k (pk.k.getD 0 ops.zero)) pk.slopeBeforeKmin))
  else if ops.isgreater k (pk.k.getD ((pk.numPoints + U32 - 1) % U32) ops.zero) = true then
    some (ops.mul (pk.P.getD 0 ops.zero)
      (ops.pow (ops.div k (pk.k.getD ((pk.numPoints + U32 - 1) % U32) ops.zero))
        pk.slopeBeyondKmax))
  else some (pk.spline k)

/-- The power-law extrapolation anchored at the tabulated point `i`:
`P[i] * (k / k[i])^slope`. -/
def powerLawAt {R : Type} (ops : PkOps R) (pk : cosmoPk R) (i : Nat) (slope k : R) : R :=
  ops.mul (pk.P.getD i ops.zero) (ops.pow (ops.div k (pk.k.getD i ops.zero)) slope)

/-- Integers as a stand-in for `double`, with integer division and `pow` with
a natural exponent, on which examples are evaluated. -/
def intPk : PkOps Int :=
  ⟨0, fun a b => decide (a < b), fun a b => decide (a > b), fun a b => a * b,
    fun a b => a / b, fun a s => a ^ s.toNat⟩

/-- A spectrum of five points falling from `P = 100` at `k = 2` to `P = 20`
at `k = 32`. -/
def examplePk : cosmoPk Int :=
  { numPoints := 5, k := [2, 4, 8, 16, 32], P := [100, 80, 60, 40, 20],
    slopeBeyondKmax := 2, slopeBeforeKmin := 1, spline := fun _ => 50 }




/-! ## Theorems: the tile partitioner -/

theorem idxELAE_eq (n k i : Nat) (hn : 0 < n) (hk : 0 < k) (hkn : k ≤ n) (hi : i < k) :
    tile_calcIdxsELAE n k i =
      some (i * (n / k) + (i - (k - n % k)),
            i * (n / k) + (i - (k - n % k)) + tileSizeELAE n k i - 1) := by
  simp [tile_calcIdxsELAE, hn, hk, hkn, hi]

theorem idxELAB_eq (n k i : Nat) (hn : 0 < n) (hk : 0 < k) (hkn : k ≤ n) (hi : i < k) :
    tile_calcIdxsELAB n k i =
      some (i * (n / k) + min i (n % k),
            i * (n / k) + min i (n % k) + tileSizeELAB n k i - 1) := by
  simp [tile_calcIdxsELAB, hn, hk, hkn, hi]

theorem sumSizesELAE (n k : Nat) (m : Nat) :
    ((List.range m).map (tileSizeELAE n k)).sum = m * (n / k) + (m - (k - n % k)) := by
  induction m with
  | zero => simp
  | succ m ih =>
    rw [List.range_succ, List.map_append, List.sum_append, ih]
    simp only [List.map_cons, List.map_nil, List.sum_cons, List.sum_nil, tileSizeELAE]
    split_ifs with h
    · have : m + 1 - (k - n % k) = 0 := by omega
      have : m - (k - n % k) = 0 := by omega
      rw [Nat.add_mul]; omega
    · rw [Nat.add_mul]; omega

theorem sumSizesELAB (n k : Nat) (m : Nat) :
    ((List.range m).map (tileSizeELAB n k)).sum = m * (n / k) + min m (n % k) := by
  induction m with
  | zero => simp
  | succ m ih =>
    rw [List.range_succ, List.map_append, List.sum_append, ih]
    simp only [List.map_cons, List.map_nil, List.sum_cons, List.sum_nil, tileSizeELAB]
    split_ifs with h
    · rw [Nat.add_mul]; omega
    · rw [Nat.add_mul]; omega


theorem idxLoELAE_eq (n k i : Nat) (hn : 0 < n) (hk : 0 < k) (hkn : k ≤ n) (hi : i < k) :
    idxLoELAE n k i = i * (n / k) + (i - (k - n % k)) := by
  simp [idxLoELAE, idxELAE_eq n k i hn hk hkn hi]

theorem idxHiELAE_eq (n k i : Nat) (hn : 0 < n) (hk : 0 < k) (hkn : k ≤ n) (hi : i < k) :
    idxHiELAE n k i = i * (n / k) + (i - (k - n % k)) + tileSizeELAE n k i - 1 := by
  simp [idxHiELAE, idxELAE_eq n k i hn hk hkn hi]

theorem idxLoELAB_eq (n k i : Nat) (hn : 0 < n) (hk : 0 < k) (hkn : k ≤ n) (hi : i < k) :
    idxLoELAB n k i = i * (n / k) + min i (n % k) := by
  simp [idxLoELAB, idxELAB_eq n k i hn hk hkn hi]

theorem idxHiELAB_eq (n k i : Nat) (hn : 0 < n) (hk : 0 < k) (hkn : k ≤ n) (hi : i < k) :
    idxHiELAB n k i = i * (n / k) + min i (n % k) + tileSizeELAB n k i - 1 := by
  simp [idxHiELAB, idxELAB_eq n k i hn hk hkn hi]

theorem tileSizeELAE_cases (n k i : Nat) :
    tileSizeELAE n k i = n / k ∨ tileSizeELAE n k i = n / k + 1 := by
  unfold tileSizeELAE; split_ifs <;> simp

theorem tileSizeELAB_cases (n k i : Nat) :
    tileSizeELAB n k i = n / k ∨ tileSizeELAB n k i = n / k + 1 := by
  unfold tileSizeELAB; split_ifs <;> simp

theorem tilesExactlyELAE (n k : Nat) (hn : 0 < n) (hk : 0 < k) (hkn : k ≤ n) :
    TilesExactly (idxLoELAE n k) (idxHiELAE n k) n k := by
  have hq : 0 < n / k := Nat.div_pos hkn hk
  have hr : n % k < k := Nat.mod_lt _ hk
  have hdm : k * (n / k) + n % k = n := Nat.div_add_mod n k
  have hsz : ∀ i, i < k → idxHiELAE n k i - idxLoELAE n k i + 1 = tileSizeELAE n k i := by
    intro i hi
    rw [idxLoELAE_eq n k i hn hk hkn hi, idxHiELAE_eq n k i hn hk hkn hi]
    rcases tileSizeELAE_cases n k i with h | h <;> omega
  refine ⟨?_, ?_, ?_, ?_, ?_⟩
  · rw [idxLoELAE_eq n k 0 hn hk hkn hk]; simp
  · intro i hi
    rw [idxLoELAE_eq n k (i + 1) hn hk hkn hi, idxHiELAE_eq n k i hn hk hkn (by omega)]
    unfold tileSizeELAE
    rw [Nat.add_mul]
    split_ifs with h <;> omega
  · rw [idxHiELAE_eq n k (k - 1) hn hk hkn (by omega)]
    unfold tileSizeELAE
    have h1 : (k - 1) * (n / k) + n / k = k * (n / k) := by
      obtain ⟨j, rfl⟩ : ∃ j, k = j + 1 := ⟨k - 1, by omega⟩
      rw [Nat.add_sub_cancel, Nat.add_mul, Nat.one_mul]
    split_ifs with h <;> omega
  · intro i hi
    have := hsz i hi
    rw [idxLoELAE_eq n k i hn hk hkn hi, idxHiELAE_eq n k i hn hk hkn hi] at this ⊢
    rcases tileSizeELAE_cases n k i with h | h <;> omega
  · have hmap : (List.range k).map (fun i => idxHiELAE n k i - idxLoELAE n k i + 1)
        = (List.range k).map (tileSizeELAE n k) :=
      List.map_congr_left (fun i hi => hsz i (List.mem_range.mp hi))
    rw [hmap, sumSizesELAE]
    have hc := Nat.mul_comm k (n / k)
    omega

theorem tilesExactlyELAB (n k : Nat) (hn : 0 < n) (hk : 0 < k) (hkn : k ≤ n) :
    TilesExactly (idxLoELAB n k) (idxHiELAB n k) n k := by
  have hq : 0 < n / k := Nat.div_pos hkn hk
  have hr : n % k < k := Nat.mod_lt _ hk
  have hdm : k * (n / k) + n % k = n := Nat.div_add_mod n k
  have hsz : ∀ i, i < k → idxHiELAB n k i - idxLoELAB n k i + 1 = tileSizeELAB n k i := by
    intro i hi
    rw [idxLoELAB_eq n k i hn hk hkn hi, idxHiELAB_eq n k i hn hk hkn hi]
    rcases tileSizeELAB_cases n k i with h | h <;> omega
  refine ⟨?_, ?_, ?_, ?_, ?_⟩
  · rw [idxLoELAB_eq n k 0 hn hk hkn hk]; simp
  · intro i hi
    rw [idxLoELAB_eq n k (i + 1) hn hk hkn hi, idxHiELAB_eq n k i hn hk hkn (by omega)]
    unfold tileSizeELAB
    rw [Nat.add_mul]
    split_ifs with h <;> omega
  · rw [idxHiELAB_eq n k (k - 1) hn hk hkn (by omega)]
    unfold tileSizeELAB
    have h1 : (k - 1) * (n / k) + n / k = k * (n / k) := by
      obtain ⟨j, rfl⟩ : ∃ j, k = j + 1 := ⟨k - 1, by omega⟩
      rw [Nat.add_sub_cancel, Nat.add_mul, Nat.one_mul]
    split_ifs with h <;> omega
  · intro i hi
    have := hsz i hi
    rw [idxLoELAB_eq n k i hn hk hkn hi, idxHiELAB_eq n k i hn hk hkn hi] at this ⊢
    rcases tileSizeELAB_cases n k i with h | h <;> omega
  · have hmap : (List.range k).map (fun i => idxHiELAB n k i - idxLoELAB n k i + 1)
        = (List.range k).map (tileSizeELAB n k) :=
      List.map_congr_left (fun i hi => hsz i (List.mem_range.mp hi))
    rw [hmap, sumSizesELAB]
    have hc := Nat.mul_comm k (n / k)
    omega

/-- C1: for every `n > 0` and `0 < k ≤ n`, under both policies the forward
function returns a range for each tile `i < k`, and the `k` inclusive ranges
tile `[0, n)` exactly (start at 0, contiguous, end at `n - 1`, sizes
`n / k` or `n / k + 1`, sizes summing to `n`); for `n = 27`, `k = 5` the sizes
are `[5,5,5,6,6]` (large at end) and `[6,6,5,5,5]` (large at beginning). -/
theorem tile_forward_tiles_exactly (n k : Nat) (hn : 0 < n) (hk : 0 < k) (hkn : k ≤ n) :
    (∀ i, i < k → tile_calcIdxsELAE n k i = some (idxLoELAE n k i, idxHiELAE n k i))
    ∧ TilesExactly (idxLoELAE n k) (idxHiELAE n k) n k
    ∧ (∀ i, i < k → tile_calcIdxsELAB n k i = some (idxLoELAB n k i, idxHiELAB n k i))
    ∧ TilesExactly (idxLoELAB n k) (idxHiELAB n k) n k
    ∧ (List.range 5).map (fun i => idxHiELAE 27 5 i - idxLoELAE 27 5 i + 1) = [5, 5, 5, 6, 6]
    ∧ (List.range 5).map (fun i => idxHiELAB 27 5 i - idxLoELAB 27 5 i + 1) = [6, 6, 5, 5, 5] := by
  refine ⟨?_, tilesExactlyELAE n k hn hk hkn, ?_, tilesExactlyELAB n k hn hk hkn, by decide,
    by decide⟩
  · intro i hi
    rw [idxLoELAE_eq n k i hn hk hkn hi, idxHiELAE_eq n k i hn hk hkn hi]
    exact idxELAE_eq n k i hn hk hkn hi
  · intro i hi
    rw [idxLoELAB_eq n k i hn hk hkn hi, idxHiELAB_eq n k i hn hk hkn hi]
    exact idxELAB_eq n k i hn hk hkn hi

/-- Witness of C1 at `n = 27`, `k = 5`. -/
theorem tile_forward_tiles_exactly_witness :
    (0 < 27 ∧ 0 < 5 ∧ 5 ≤ 27) ∧
    TilesExactly (idxLoELAE 27 5) (idxHiELAE 27 5) 27 5 ∧
    TilesExactly (idxLoELAB 27 5) (idxHiELAB 27 5) 27 5 :=
  ⟨by decide,
   (tile_forward_tiles_exactly 27 5 (by decide) (by decide) (by decide)).2.1,
   (tile_forward_tiles_exactly 27 5 (by decide) (by decide) (by decide)).2.2.2.1⟩


theorem div_eq_of_between (a b c : Nat) (h1 : c * b ≤ a) (h2 : a < c * b + b) : a / b = c := by
  apply Nat.div_eq_of_lt_le h1
  rw [Nat.succ_mul]; exact h2

theorem div_between (a b : Nat) (hb : 0 < b) : a / b * b ≤ a ∧ a < a / b * b + b := by
  have h1 := Nat.div_add_mod a b
  have h2 := Nat.mod_lt a hb
  have h3 := Nat.mul_comm b (a / b)
  omega

theorem inverseELAE_of_mem (n k i g : Nat) (hn : 0 < n) (hk : 0 < k) (hkn : k ≤ n)
    (hi : i < k) (hlo : idxLoELAE n k i ≤ g) (hhi : g ≤ idxHiELAE n k i) :
    tile_calcTileNumberForIdxELAE n k g = some i := by
  have hq : 0 < n / k := Nat.div_pos hkn hk
  have hr : n % k < k := Nat.mod_lt _ hk
  have hdm : k * (n / k) + n % k = n := Nat.div_add_mod n k
  rw [idxLoELAE_eq n k i hn hk hkn hi] at hlo
  rw [idxHiELAE_eq n k i hn hk hkn hi] at hhi
  unfold tileSizeELAE at hhi
  have hexp : k * (n / k) = (k - n % k) * (n / k) + n % k * (n / k) := by
    rw [← Nat.add_mul, Nat.sub_add_cancel (Nat.le_of_lt hr)]
  by_cases hsm : i < k - n % k
  · rw [if_pos hsm] at hhi
    have h1 : (i + 1) * (n / k) ≤ (k - n % k) * (n / k) := Nat.mul_le_mul_right _ hsm
    rw [Nat.add_mul, Nat.one_mul] at h1
    have hg : g < n := by omega
    have hlt : g < (k - n % k) * (n / k) := by omega
    simp only [tile_calcTileNumberForIdxELAE, hn, hk, hkn, hg, hlt, gt_iff_lt, and_self,
      not_true_eq_false, if_false, if_true]
    rw [div_eq_of_between g (n / k) i (by omega) (by omega)]
  · rw [if_neg hsm] at hhi
    obtain ⟨u, hu⟩ : ∃ u, i = (k - n % k) + u := ⟨i - (k - n % k), by omega⟩
    have hur : u < n % k := by omega
    have h1 : (u + 1) * (n / k) ≤ n % k * (n / k) := Nat.mul_le_mul_right _ hur
    rw [Nat.add_mul, Nat.one_mul] at h1
    have h2 : i * (n / k) = (k - n % k) * (n / k) + u * (n / k) := by
      rw [hu, Nat.add_mul]
    have h3 : u * (n / k + 1) = u * (n / k) + u := by rw [Nat.mul_add, Nat.mul_one]
    have hg : g < n := by omega
    have hlt : ¬ g < (k - n % k) * (n / k) := by omega
    simp only [tile_calcTileNumberForIdxELAE, hn, hk, hkn, hg, hlt, gt_iff_lt, and_self,
      not_true_eq_false, if_false]
    rw [div_eq_of_between (g - (k - n % k) * (n / k)) (n / k + 1) u (by omega) (by omega), hu]

theorem inverseELAE_mem (n k g : Nat) (hn : 0 < n) (hk : 0 < k) (hkn : k ≤ n) (hg : g < n) :
    ∃ t, tile_calcTileNumberForIdxELAE n k g = some t ∧ t < k ∧
      idxLoELAE n k t ≤ g ∧ g ≤ idxHiELAE n k t := by
  have hq : 0 < n / k := Nat.div_pos hkn hk
  have hr : n % k < k := Nat.mod_lt _ hk
  have hdm : k * (n / k) + n % k = n := Nat.div_add_mod n k
  have hexp : k * (n / k) = (k - n % k) * (n / k) + n % k * (n / k) := by
    rw [← Nat.add_mul, Nat.sub_add_cancel (Nat.le_of_lt hr)]
  by_cases hlt : g < (k - n % k) * (n / k)
  · have ht : g / (n / k) < k - n % k := (Nat.div_lt_iff_lt_mul hq).mpr hlt
    have hb := div_between g (n / k) hq
    refine ⟨g / (n / k), ?_, by omega, ?_, ?_⟩
    · simp only [tile_calcTileNumberForIdxELAE, hn, hk, hkn, hg, hlt, gt_iff_lt, and_self,
        not_true_eq_false, if_false, if_true]
    · rw [idxLoELAE_eq n k _ hn hk hkn (by omega)]; omega
    · rw [idxHiELAE_eq n k _ hn hk hkn (by omega)]
      unfold tileSizeELAE
      rw [if_pos ht]; omega
  · have hb := div_between (g - (k - n % k) * (n / k)) (n / k + 1) (by omega)
    have hlt2 : g - (k - n % k) * (n / k) < n % k * (n / k + 1) := by
      rw [Nat.mul_add, Nat.mul_one]; omega
    have hu : (g - (k - n % k) * (n / k)) / (n / k + 1) < n % k :=
      (Nat.div_lt_iff_lt_mul (by omega)).mpr hlt2
    generalize hudef : (g - (k - n % k) * (n / k)) / (n / k + 1) = u at hb hu
    have h3 : u * (n / k + 1) = u * (n / k) + u := by rw [Nat.mul_add, Nat.mul_one]
    have h2 : ((k - n % k) + u) * (n / k) = (k - n % k) * (n / k) + u * (n / k) := by
      rw [Nat.add_mul]
    refine ⟨(k - n % k) + u, ?_, by omega, ?_, ?_⟩
    · simp only [tile_calcTileNumberForIdxELAE, hn, hk, hkn, hg, hlt, gt_iff_lt, and_self,
        not_true_eq_false, if_false, hudef]
    · rw [idxLoELAE_eq n k _ hn hk hkn (by omega)]; omega
    · rw [idxHiELAE_eq n k _ hn hk hkn (by omega)]
      unfold tileSizeELAE
      rw [if_neg (by omega)]; omega


theorem inverseELAB_of_mem (n k i g : Nat) (hn : 0 < n) (hk : 0 < k) (hkn : k ≤ n)
    (hi : i < k) (hlo : idxLoELAB n k i ≤ g) (hhi : g ≤ idxHiELAB n k i) :
    tile_calcTileNumberForIdxELAB n k g = some i := by
  have hq : 0 < n / k := Nat.div_pos hkn hk
  have hr : n % k < k := Nat.mod_lt _ hk
  have hdm : k * (n / k) + n % k = n := Nat.div_add_mod n k
  rw [idxLoELAB_eq n k i hn hk hkn hi] at hlo
  rw [idxHiELAB_eq n k i hn hk hkn hi] at hhi
  unfold tileSizeELAB at hhi
  have hexp : k * (n / k) = n % k * (n / k) + (k - n % k) * (n / k) := by
    rw [← Nat.add_mul, Nat.add_sub_cancel' (Nat.le_of_lt hr)]
  have hrq : n % k * (n / k + 1) = n % k * (n / k) + n % k := by rw [Nat.mul_add, Nat.mul_one]
  by_cases hsm : i < n % k
  · rw [if_pos hsm] at hhi
    have h1 : (i + 1) * (n / k + 1) ≤ n % k * (n / k + 1) := Nat.mul_le_mul_right _ hsm
    rw [Nat.add_mul, Nat.one_mul] at h1
    have h3 : i * (n / k + 1) = i * (n / k) + i := by rw [Nat.mul_add, Nat.mul_one]
    have hg : g < n := by omega
    have hlt : g < n % k * (n / k + 1) := by omega
    simp only [tile_calcTileNumberForIdxELAB, hn, hk, hkn, hg, hlt, gt_iff_lt, and_self,
      not_true_eq_false, if_false, if_true]
    rw [div_eq_of_between g (n / k + 1) i (by omega) (by omega)]
  · rw [if_neg hsm] at hhi
    obtain ⟨u, hu⟩ : ∃ u, i = n % k + u := ⟨i - n % k, by omega⟩
    have hur : u < k - n % k := by omega
    have h1 : (u + 1) * (n / k) ≤ (k - n % k) * (n / k) := Nat.mul_le_mul_right _ hur
    rw [Nat.add_mul, Nat.one_mul] at h1
    have h2 : i * (n / k) = n % k * (n / k) + u * (n / k) := by
      rw [hu, Nat.add_mul]
    have hg : g < n := by omega
    have hlt : ¬ g < n % k * (n / k + 1) := by omega
    simp only [tile_calcTileNumberForIdxELAB, hn, hk, hkn, hg, hlt, gt_iff_lt, and_self,
      not_true_eq_false, if_false]
    rw [div_eq_of_between (g - n % k * (n / k + 1)) (n / k) u (by omega) (by omega), hu]

theorem inverseELAB_mem (n k g : Nat) (hn : 0 < n) (hk : 0 < k) (hkn : k ≤ n) (hg : g < n) :
    ∃ t, tile_calcTileNumberForIdxELAB n k g = some t ∧ t < k ∧
      idxLoELAB n k t ≤ g ∧ g ≤ idxHiELAB n k t := by
  have hq : 0 < n / k := Nat.div_pos hkn hk
  have hr : n % k < k := Nat.mod_lt _ hk
  have hdm : k * (n / k) + n % k = n := Nat.div_add_mod n k
  have hexp : k * (n / k) = n % k * (n / k) + (k - n % k) * (n / k) := by
    rw [← Nat.add_mul, Nat.add_sub_cancel' (Nat.le_of_lt hr)]
  have hrq : n % k * (n / k + 1) = n % k * (n / k) + n % k := by rw [Nat.mul_add, Nat.mul_one]
  by_cases hlt : g < n % k * (n / k + 1)
  · have ht : g / (n / k + 1) < n % k := (Nat.div_lt_iff_lt_mul (by omega)).mpr hlt
    have hb := div_between g (n / k + 1) (by omega)
    generalize hudef : g / (n / k + 1) = u at hb ht
    have h3 : u * (n / k + 1) = u * (n / k) + u := by rw [Nat.mul_add, Nat.mul_one]
    refine ⟨u, ?_, by omega, ?_, ?_⟩
    · simp only [tile_calcTileNumberForIdxELAB, hn, hk, hkn, hg, hlt, gt_iff_lt, and_self,
        not_true_eq_false, if_false, if_true, hudef]
    · rw [idxLoELAB_eq n k _ hn hk hkn (by omega)]; omega
    · rw [idxHiELAB_eq n k _ hn hk hkn (by omega)]
      unfold tileSizeELAB
      rw [if_pos ht]; omega
  · have hb := div_between (g - n % k * (n / k + 1)) (n / k) hq
    have hlt2 : g - n % k * (n / k + 1) < (k - n % k) * (n / k) := by omega
    have hu : (g - n % k * (n / k + 1)) / (n / k) < k - n % k :=
      (Nat.div_lt_iff_lt_mul hq).mpr hlt2
    generalize hudef : (g - n % k * (n / k + 1)) / (n / k) = u at hb hu
    have h2 : (n % k + u) * (n / k) = n % k * (n / k) + u * (n / k) := by
      rw [Nat.add_mul]
    refine ⟨n % k + u, ?_, by omega, ?_, ?_⟩
    · simp only [tile_calcTileNumberForIdxELAB, hn, hk, hkn, hg, hlt, gt_iff_lt, and_self,
        not_true_eq_false, if_false, hudef]
    · rw [idxLoELAB_eq n k _ hn hk hkn (by omega)]; omega
    · rw [idxHiELAB_eq n k _ hn hk hkn (by omega)]
      unfold tileSizeELAB
      rw [if_neg (by omega)]; omega

theorem idxLoELAE_le_idxHi (n k i : Nat) (hn : 0 < n) (hk : 0 < k) (hkn : k ≤ n) (hi : i < k) :
    idxLoELAE n k i ≤ idxHiELAE n k i := 
  ((tilesExactlyELAE n k hn hk hkn).2.2.2.1 i hi).1

theorem idxLoELAB_le_idxHi (n k i : Nat) (hn : 0 < n) (hk : 0 < k) (hkn : k ≤ n) (hi : i < k) :
    idxLoELAB n k i ≤ idxHiELAB n k i := 
  ((tilesExactlyELAB n k hn hk hkn).2.2.2.1 i hi).1

/-- C2: for every `n > 0`, `0 < k ≤ n` and under both policies, the inverse
lookup applied to the lower and to the upper bound of tile `i < k` returns
`i`; for every global index `g < n` it returns a tile `t < k` with
`idxLo(t) ≤ g ≤ idxHi(t)`; and it returns `t` for every index within the
bounds of tile `t`. -/
theorem tile_inverse_lookup (n k : Nat) (hn : 0 < n) (hk : 0 < k) (hkn : k ≤ n) :
    (∀ i, i < k →
      tile_calcTileNumberForIdxELAE n k (idxLoELAE n k i) = some i ∧
      tile_calcTileNumberForIdxELAE n k (idxHiELAE n k i) = some i)
    ∧ (∀ g, g < n → ∃ t, tile_calcTileNumberForIdxELAE n k g = some t ∧ t < k ∧
        idxLoELAE n k t ≤ g ∧ g ≤ idxHiELAE n k t)
    ∧ (∀ g t, t < k → idxLoELAE n k t ≤ g → g ≤ idxHiELAE n k t →
        tile_calcTileNumberForIdxELAE n k g = some t)
    ∧ (∀ i, i < k →
      tile_calcTileNumberForIdxELAB n k (idxLoELAB n k i) = some i ∧
      tile_calcTileNumberForIdxELAB n k (idxHiELAB n k i) = some i)
    ∧ (∀ g, g < n → ∃ t, tile_calcTileNumberForIdxELAB n k g = some t ∧ t < k ∧
        idxLoELAB n k t ≤ g ∧ g ≤ idxHiELAB n k t)
    ∧ (∀ g t, t < k → idxLoELAB n k t ≤ g → g ≤ idxHiELAB n k t →
        tile_calcTileNumberForIdxELAB n k g = some t) := by
  refine ⟨fun i hi => ⟨?_, ?_⟩, fun g hg => inverseELAE_mem n k g hn hk hkn hg,
    fun g t ht h1 h2 => inverseELAE_of_mem n k t g hn hk hkn ht h1 h2,
    fun i hi => ⟨?_, ?_⟩, fun g hg => inverseELAB_mem n k g hn hk hkn hg,
    fun g t ht h1 h2 => inverseELAB_of_mem n k t g hn hk hkn ht h1 h2⟩
  · exact inverseELAE_of_mem n k i _ hn hk hkn hi (Nat.le_refl _)
      (idxLoELAE_le_idxHi n k i hn hk hkn hi)
  · exact inverseELAE_of_mem n k i _ hn hk hkn hi (idxLoELAE_le_idxHi n k i hn hk hkn hi)
      (Nat.le_refl _)
  · exact inverseELAB_of_mem n k i _ hn hk hkn hi (Nat.le_refl _)
      (idxLoELAB_le_idxHi n k i hn hk hkn hi)
  · exact inverseELAB_of_mem n k i _ hn hk hkn hi (idxLoELAB_le_idxHi n k i hn hk hkn hi)
      (Nat.le_refl _)

/-- Witness of C2 at `n = 27`, `k = 5`: tile 3 of both policies. -/
theorem tile_inverse_lookup_witness :
    (0 < 27 ∧ 0 < 5 ∧ 5 ≤ 27) ∧
    tile_calcTileNumberForIdxELAE 27 5 (idxLoELAE 27 5 3) = some 3 ∧
    tile_calcTileNumberForIdxELAB 27 5 (idxHiELAB 27 5 3) = some 3 :=
  ⟨by decide,
   ((tile_inverse_lookup 27 5 (by decide) (by decide) (by decide)).1 3 (by decide)).1,
   ((tile_inverse_lookup 27 5 (by decide) (by decide) (by decide)).2.2.2.1 3 (by decide)).2⟩


theorem tile_calcMinTileSizeEven_eq_none (n : Nat) : tile_calcMinTileSizeEven n n = none := by
  simp [tile_calcMinTileSizeEven]

/-- C3: with `numTiles = numGridCells = 4`, an input the documentation of both
functions admits ("less or equal"), `tile_calcMinTileSizeEven` fails its
assertion `numTiles < numGridCells`, and so does
`tile_calcMaxTileSizeEven`, which calls it; `tile_calcNumLargeTilesEven`,
whose assertion is `numTiles <= numGridCells`, returns. -/
theorem tile_minmax_abort_on_equal :
    tile_calcMinTileSizeEven 4 4 = none ∧ tile_calcMaxTileSizeEven 4 4 = none ∧
    tile_calcNumLargeTilesEven 4 4 = some 0 := by
  decide

/-! ## Theorems: gridPatch.c -/

theorem foldl_mulmod_lt (M : Nat) (l : List Nat) (a : Nat) (ha : a < M) :
    l.foldl (fun acc d => (acc * d) % M) a < M := by
  induction l generalizing a with
  | nil => simpa using ha
  | cons d l ih =>
    simp only [List.foldl_cons]
    exact ih _ (Nat.mod_lt _ (by omega))

theorem foldl_mulmod_mod (M : Nat) (l : List Nat) (a : Nat) :
    (l.foldl (fun acc d => (acc * d) % M) a) % M = (a * l.prod) % M := by
  induction l generalizing a with
  | nil => simp
  | cons d l ih =>
    simp only [List.foldl_cons, List.prod_cons]
    rw [ih, Nat.mod_mul_mod, Nat.mul_assoc]

theorem foldl_mulmod_eq (l : List Nat) :
    l.foldl (fun acc d => (acc * d) % U64) 1 = l.prod % U64 := by
  have h1 := foldl_mulmod_lt U64 l 1 (by decide)
  have h2 := foldl_mulmod_mod U64 l 1
  rw [Nat.mod_eq_of_lt h1, Nat.one_mul] at h2
  exact h2

theorem u32_sub_add_one (lo hi : Nat) (hle : lo ≤ hi) (hhi : hi < U32) :
    ((hi + U32 - lo) % U32 + 1) % U32 = (hi - lo + 1) % U32 := by
  have h : hi + U32 - lo = (hi - lo) + U32 := by omega
  have h2 : (hi - lo) % U32 = hi - lo := Nat.mod_eq_of_lt (by omega)
  rw [h, Nat.add_mod_right, h2]

/-- C4 (amended): for `uint32_t` bounds with `idxLo[d] ≤ idxHi[d]` on every
axis, `gridPatch_new` returns a patch whose `idxLo` is the argument, whose
`dims[d]` is `idxHi[d] - idxLo[d] + 1` reduced modulo `2^32` (exactly
`idxHi[d] - idxLo[d] + 1` whenever that is below `2^32`), whose `numCells` is
the product of the stored `dims` reduced modulo `2^64` (exactly the product
whenever that is below `2^64`), and whose variable and buffer sequences are
empty. -/
theorem gridPatch_new_spec (NDIM self : Nat) (idxLo idxHi : List Nat)
    (hlo : idxLo.length = NDIM)
    (hrange : ∀ d, d < NDIM → idxHi.getD d 0 < U32)
    (hle : ∀ d, d < NDIM → idxLo.getD d 0 ≤ idxHi.getD d 0) :
    ∃ p, gridPatch_new NDIM self idxLo idxHi = some p
      ∧ p.idxLo = idxLo
      ∧ p.dims.length = NDIM
      ∧ (∀ d, d < NDIM → p.dims.getD d 0 = (idxHi.getD d 0 - idxLo.getD d 0 + 1) % U32)
      ∧ (∀ d, d < NDIM → idxHi.getD d 0 - idxLo.getD d 0 + 1 < U32 →
          p.dims.getD d 0 = idxHi.getD d 0 - idxLo.getD d 0 + 1)
      ∧ p.numCells = p.dims.prod % U64
      ∧ (p.dims.prod < U64 → p.numCells = p.dims.prod)
      ∧ p.vars = [] ∧ p.varData = [] := by
  rw [gridPatch_new, if_neg (not_not.mpr hle)]
  refine ⟨_, rfl, ?_⟩
  have hdims : ∀ d, d < NDIM →
      ((List.range NDIM).map
        (fun i => ((idxHi.getD i 0 + U32 - idxLo.getD i 0) % U32 + 1) % U32)).getD d 0
        = (idxHi.getD d 0 - idxLo.getD d 0 + 1) % U32 := by
    intro d hd
    rw [List.getD_eq_getElem _ _ (by simpa using hd)]
    simp only [List.getElem_map, List.getElem_range]
    exact u32_sub_add_one _ _ (hle d hd) (hrange d hd)
  refine ⟨?_, by simp, hdims, ?_, foldl_mulmod_eq _, ?_, rfl, rfl⟩
  · apply List.ext_getElem (by simp [hlo])
    intro i h1 h2
    simp only [List.getElem_map, List.getElem_range]
    exact List.getD_eq_getElem _ _ h2
  · intro d hd hlt
    rw [hdims d hd, Nat.mod_eq_of_lt hlt]
  · intro hlt
    simp only
    rw [foldl_mulmod_eq, Nat.mod_eq_of_lt hlt]

/-- Witness of C4 (amended): the 2 x 3 x 1 patch `[0,1] x [5,7] x [4,4]`. -/
theorem gridPatch_new_spec_witness :
    ∃ p, gridPatch_new 3 0 [0, 5, 4] [1, 7, 4] = some p ∧ p.idxLo = [0, 5, 4]
      ∧ p.dims.length = 3
      ∧ (∀ d, d < 3 → p.dims.getD d 0 = ([1, 7, 4].getD d 0 - [0, 5, 4].getD d 0 + 1) % U32)
      ∧ (∀ d, d < 3 → [1, 7, 4].getD d 0 - [0, 5, 4].getD d 0 + 1 < U32 →
          p.dims.getD d 0 = [1, 7, 4].getD d 0 - [0, 5, 4].getD d 0 + 1)
      ∧ p.numCells = p.dims.prod % U64
      ∧ (p.dims.prod < U64 → p.numCells = p.dims.prod)
      ∧ p.vars = [] ∧ p.varData = [] :=
  gridPatch_new_spec 3 0 [0, 5, 4] [1, 7, 4] rfl (by decide) (by decide)

/-- C4 as stated fails: on the bounds `[0, 2^32 - 1]` of axis 0 the stored
`dims[0]` is 0, not `idxHi[0] - idxLo[0] + 1 = 2^32`; and on three axes of
`2^22` cells each the stored `dims` are exact but `numCells` is 0, not their
product `2^66`. -/
theorem gridPatch_new_wraps :
    (gridPatch_new 3 0 [0, 0, 0] [4294967295, 0, 0]).map
        (fun p => (p.dims, decide (p.dims.getD 0 0 = 4294967295 - 0 + 1)))
      = some ([0, 1, 1], false)
    ∧ (gridPatch_new 3 0 [0, 0, 0] [4194303, 4194303, 4194303]).map
        (fun p => (p.dims, p.numCells, decide (p.numCells = p.dims.prod)))
      = some ([4194304, 4194304, 4194304], 0, false) := by
  decide

/-- C5: `gridPatch_replaceVarData(patch, 0, newData)` with `newData` the very
buffer (pointer 1) already stored at position 0 frees that buffer: pointer 1
is in the freed log afterwards while position 0 still holds pointer 1. -/
theorem gridPatch_replaceVarData_frees_identical :
    gridPatch_replaceVarData exampleMem examplePatch 0 1
      = some ({ exampleMem with freed := [1] }, examplePatch) := by
  decide

/-- C6: after `gridPatch_transposeVar(patch, 0, 0, 1)` on the 2 x 3 patch
(`NDIM = 2`) the patch is unchanged: position 0 still holds pointer 1 and
buffer 1 still holds 10..15 in the old order; the transposed cells are in the
fresh buffer 2, which the patch does not reference.  With `NDIM = 3` the
fresh buffer is not even filled. -/
theorem gridPatch_transposeVar_not_installed :
    gridPatch_transposeVar 2 exampleMem examplePatch 0 0 1
      = some (⟨[[1, 2, 3, 4, 5, 6], [10, 11, 12, 13, 14, 15], [10, 12, 14, 11, 13, 15]], []⟩,
              examplePatch)
    ∧ gridPatch_transposeVar 3 exampleMem examplePatch3 0 0 1
      = some (⟨[[1, 2, 3, 4, 5, 6], [10, 11, 12, 13, 14, 15], [0, 0, 0, 0, 0, 0]], []⟩,
              examplePatch3) := by
  decide

/-! ## Theorems: gridRegular.c -/

/-- C7: on the grid with dims `(4,10,6)` after `gridRegular_transpose(g,0,1)`,
whose dims are `(10,4,6)` and whose dimsComplex is `(10,3,6)`,
`gridRegular_cloneWithoutData` returns a grid with the same dims but
dimsComplex `(6,4,6)` (and the identity permutation instead of `(1,0,2)`). -/
theorem gridRegular_clone_of_transposed :
    (exampleGrid.bind (fun g => (gridRegular_transpose 3 emptyMem g 0 1).bind (fun s =>
      (gridRegular_cloneWithoutData intDbl 3 s.2).map (fun c =>
        ((s.2.dims, s.2.dimsComplex, s.2.permute), (c.dims, c.dimsComplex, c.permute))))))
      = some (([10, 4, 6], [10, 3, 6], [1, 0, 2]), ([10, 4, 6], [6, 4, 6], [0, 1, 2])) := by
  decide

theorem runOps_invariant {R : Type} (NDIM : Nat) (ok : gridRegular R → GridOp → Bool)
    (P : gridRegular R → Prop)
    (hstep : ∀ (s s1 : Mem × gridRegular R) (op : GridOp), P s.2 → ok s.2 op = true →
      GridOp.step NDIM s op = some s1 → P s1.2) :
    ∀ (ops : List GridOp) (s s1 : Mem × gridRegular R), P s.2 →
      runOps NDIM ok s ops = some s1 → P s1.2 := by
  intro ops
  induction ops with
  | nil =>
    intro s s1 hP h
    simp only [runOps, Option.some.injEq] at h
    exact h ▸ hP
  | cons op rest ih =>
    intro s s1 hP h
    simp only [runOps] at h
    split at h
    · rename_i hok
      split at h
      · exact absurd h (by simp)
      · rename_i s2 hs2
        exact ih s2 s1 (hstep s s2 op hP hok hs2) h
    · exact absurd h (by simp)

theorem gridPatch_attachVarData_vars (NDIM : Nat) (m m1 : Mem) (p p1 : gridPatch) (var : gridVar)
    (pos : Int) (h : gridPatch_attachVarData NDIM m p var = some (m1, p1, pos)) :
    p1.vars = p.vars ++ [var] := by
  simp only [gridPatch_attachVarData, varArr_insert, gridVar_getMemory] at h
  split at h
  · exact absurd h (by simp)
  · split at h
    · exact absurd h (by simp)
    · simp only [Option.some.injEq, Prod.mk.injEq] at h
      rw [← h.2.1]

theorem gridPatch_detachVar_vars (m m1 : Mem) (p p1 : gridPatch) (idx : Int) (v : dataVar)
    (h : gridPatch_detachVar m p idx = some (m1, p1, v)) :
    p1.vars = p.vars.eraseIdx idx.toNat := by
  simp only [gridPatch_detachVar, gridPatch_detachVarData, varArr_remove] at h
  split at h
  · exact absurd h (by simp)
  · split at h
    · exact absurd h (by simp)
    · rename_i var hv p2 data hd
      split at hd
      · exact absurd hd (by simp)
      · split at hd
        · exact absurd hd (by simp)
        · rename_i vars1 tmp hvars
          split at hd
          · exact absurd hd (by simp)
          · simp only [Option.some.injEq, Prod.mk.injEq] at hd h
            rw [← h.2.1, ← hd.1]
            split at hvars
            · exact absurd hvars (by simp)
            · simp only [Option.map_eq_some', Prod.mk.injEq] at hvars
              obtain ⟨a, _, ha, _⟩ := hvars
              exact ha.symm

theorem gridPatch_replaceVarData_vars (m m1 : Mem) (p p1 : gridPatch) (idx : Int) (d : Nat)
    (h : gridPatch_replaceVarData m p idx d = some (m1, p1)) : p1.vars = p.vars := by
  simp only [gridPatch_replaceVarData] at h
  split at h
  · exact absurd h (by simp)
  · split at h
    · exact absurd h (by simp)
    · split at h
      · exact absurd h (by simp)
      · simp only [Option.some.injEq, Prod.mk.injEq] at h
        rw [← h.2]

theorem foldlM_option_invariant {α β : Type} (P : β → Prop) (f : β → α → Option β)
    (hf : ∀ b a b1, P b → f b a = some b1 → P b1) :
    ∀ (l : List α) (b b1 : β), P b → l.foldlM f b = some b1 → P b1 := by
  intro l
  induction l with
  | nil =>
    intro b b1 hP h
    simp only [List.foldlM, pure, Option.some.injEq] at h
    exact h ▸ hP
  | cons a l ih =>
    intro b b1 hP h
    simp only [List.foldlM, bind, Option.bind] at h
    split at h
    · exact absurd h (by simp)
    · rename_i b2 hb2
      exact ih b2 b1 (hf b a b2 hP hb2) h

theorem gridPatch_transpose_vars (NDIM : Nat) (m m1 : Mem) (p p1 : gridPatch) (dimA dimB : Int)
    (h : gridPatch_transpose NDIM m p dimA dimB = some (m1, p1)) : p1.vars = p.vars := by
  simp only [gridPatch_transpose] at h
  split at h
  · exact absurd h (by simp)
  · split at h
    · exact absurd h (by simp)
    · split at h
      · exact absurd h (by simp)
      · rename_i m2 p2 hfold
        simp only [Option.some.injEq, Prod.mk.injEq] at h
        rw [← h.2]
        have := foldlM_option_invariant (fun (acc : Mem × gridPatch) => acc.2.vars = p.vars)
          (transposeOneVar NDIM dimA.toNat dimB.toNat)
          (by
            intro b a b1 hb hb1
            simp only [transposeOneVar] at hb1
            split at hb1
            · rw [gridPatch_replaceVarData_vars _ _ _ _ _ _ hb1, hb]
            · exact absurd hb1 (by simp))
          _ (m, p) (m2, p2) rfl hfold
        exact this

theorem forEachPatch_rel (f : Mem → gridPatch → Option (Mem × gridPatch))
    (Q : gridPatch → gridPatch → Prop)
    (hf : ∀ m p m1 p1, f m p = some (m1, p1) → Q p p1) :
    ∀ (ps : List gridPatch) (m m1 : Mem) (ps1 : List gridPatch),
      forEachPatch f m ps = some (m1, ps1) → List.Forall₂ Q ps ps1 := by
  intro ps
  induction ps with
  | nil =>
    intro m m1 ps1 h
    simp only [forEachPatch, Option.some.injEq, Prod.mk.injEq] at h
    rw [← h.2]; exact List.Forall₂.nil
  | cons p ps ih =>
    intro m m1 ps1 h
    simp only [forEachPatch] at h
    split at h
    · exact absurd h (by simp)
    · rename_i m2 p2 hp
      split at h
      · exact absurd h (by simp)
      · rename_i m3 ps3 hps
        simp only [Option.some.injEq, Prod.mk.injEq] at h
        rw [← h.2]
        exact List.Forall₂.cons (hf _ _ _ _ hp) (ih _ _ _ hps)

theorem forall₂_vars_all (Q : gridPatch → gridPatch → Prop) (vs vs1 : List gridVar)
    (hQ : ∀ p p1, Q p p1 → p.vars = vs → p1.vars = vs1) :
    ∀ (ps ps1 : List gridPatch), List.Forall₂ Q ps ps1 → (∀ p ∈ ps, p.vars = vs) →
      ∀ p ∈ ps1, p.vars = vs1 := by
  intro ps ps1 h
  induction h with
  | nil => intro _ p hp; exact absurd hp (List.not_mem_nil _)
  | cons hab _ ih =>
    intro hall p hp
    rcases List.mem_cons.mp hp with rfl | hp
    · exact hQ _ _ hab (hall _ (List.mem_cons_self _ _))
    · exact ih (fun q hq => hall q (List.mem_cons_of_mem _ hq)) p hp

theorem addVarsToPatch_vars (NDIM : Nat) :
    ∀ (vs : List dataVar) (m m1 : Mem) (p p1 : gridPatch),
      addVarsToPatch NDIM m p vs = some (m1, p1) → p1.vars = p.vars ++ vs := by
  intro vs
  induction vs with
  | nil =>
    intro m m1 p p1 h
    simp only [addVarsToPatch, Option.some.injEq, Prod.mk.injEq] at h
    rw [← h.2]; simp
  | cons v vs ih =>
    intro m m1 p p1 h
    simp only [addVarsToPatch] at h
    split at h
    · exact absurd h (by simp)
    · rename_i m2 p2 pos hp
      rw [ih _ _ _ _ h, gridPatch_attachVarData_vars NDIM _ _ _ _ _ _ hp]
      simp

theorem patchesCarryGridVars_iff {R : Type} (g : gridRegular R) :
    patchesCarryGridVars g = true ↔ ∀ p ∈ g.patches, p.vars = g.vars := by
  simp [patchesCarryGridVars, List.all_eq_true]

theorem attachVar_keeps_aligned {R : Type} (NDIM : Nat) (m m1 : Mem) (g g1 : gridRegular R)
    (var : dataVar) (pos : Int) (hP : ∀ p ∈ g.patches, p.vars = g.vars)
    (h : gridRegular_attachVar NDIM m g var = some (m1, g1, pos)) :
    ∀ p ∈ g1.patches, p.vars = g1.vars := by
  simp only [gridRegular_attachVar, varArr_insert, local_addVarToAllPatches,
    Option.map_eq_some', Prod.mk.injEq] at h
  obtain ⟨r, ⟨r2, hr2, hr⟩, hm, hg, _⟩ := h
  subst hg; subst hr
  have hrel := forEachPatch_rel _ (fun p p1 => p1.vars = p.vars ++ [var])
    (by
      intro m p m1 p1 hp
      simp only [gridPatch_attachVar, Option.map_eq_some', Prod.mk.injEq] at hp
      obtain ⟨a, ha, _, hp1⟩ := hp
      rw [← hp1]
      exact gridPatch_attachVarData_vars NDIM _ _ _ _ _ _ ha)
    _ _ _ _ hr2
  exact forall₂_vars_all _ g.vars (g.vars ++ [var]) (fun p p1 hq hp => by rw [hq, hp]) _ _ hrel hP

theorem detachVar_keeps_aligned {R : Type} (m m1 : Mem) (g g1 : gridRegular R)
    (idx : Int) (v : dataVar) (hP : ∀ p ∈ g.patches, p.vars = g.vars)
    (h : gridRegular_detachVar m g idx = some (m1, g1, v)) :
    ∀ p ∈ g1.patches, p.vars = g1.vars := by
  simp only [gridRegular_detachVar] at h
  split at h
  · exact absurd h (by simp)
  · split at h
    · exact absurd h (by simp)
    · rename_i m2 g2 hrem
      simp only [local_removeVarFromAllPatches, Option.map_eq_some', Prod.mk.injEq] at hrem
      obtain ⟨r2, hr2, _, hg2⟩ := hrem
      subst hg2
      simp only [varArr_remove, Option.map_eq_some', Prod.mk.injEq] at h
      obtain ⟨r, hr, _, hg1, _⟩ := h
      subst hg1
      split at hr
      · exact absurd hr (by simp)
      · simp only [Option.map_eq_some'] at hr
        obtain ⟨x, _, hx⟩ := hr
        subst hx
        have hrel := forEachPatch_rel _ (fun p p1 => p1.vars = p.vars.eraseIdx idx.toNat)
          (by
            intro m p m1 p1 hp
            simp only [Option.map_eq_some', Prod.mk.injEq] at hp
            obtain ⟨a, ha, _, hp1⟩ := hp
            rw [← hp1]
            exact gridPatch_detachVar_vars _ _ _ _ _ _ ha)
          _ _ _ _ hr2
        exact forall₂_vars_all _ g.vars (g.vars.eraseIdx idx.toNat)
          (fun p p1 hq hp => by rw [hq, hp]) _ _ hrel hP

theorem attachPatch_keeps_aligned {R : Type} (NDIM : Nat) (m m1 : Mem) (g g1 : gridRegular R)
    (patch : gridPatch) (pos : Int) (hempty : patch.vars = [])
    (hP : ∀ p ∈ g.patches, p.vars = g.vars)
    (h : gridRegular_attachPatch NDIM m g patch = some (m1, g1, pos)) :
    ∀ p ∈ g1.patches, p.vars = g1.vars := by
  simp only [gridRegular_attachPatch, local_addAllVarsToPatch, varArr_insert] at h
  split at h
  · exact absurd h (by simp)
  · rename_i m2 patch1 hadd
    simp only [Option.some.injEq, Prod.mk.injEq] at h
    obtain ⟨_, hg1, _⟩ := h
    subst hg1
    intro p hp
    rcases List.mem_append.mp hp with hp | hp
    · exact hP p hp
    · rw [List.mem_singleton.mp hp, addVarsToPatch_vars NDIM _ _ _ _ _ hadd, hempty]
      simp

theorem detachPatch_keeps_aligned {R : Type} (g g1 : gridRegular R)
    (idx : Int) (old : gridPatch) (hP : ∀ p ∈ g.patches, p.vars = g.vars)
    (h : gridRegular_detachPatch g idx = some (g1, old)) :
    ∀ p ∈ g1.patches, p.vars = g1.vars := by
  simp only [gridRegular_detachPatch, varArr_remove] at h
  split at h
  · exact absurd h (by simp)
  · simp only [Option.map_eq_some', Prod.mk.injEq] at h
    obtain ⟨r, hr, hg1, _⟩ := h
    subst hg1
    obtain ⟨x, _, hx⟩ := hr
    subst hx
    intro p hp
    exact hP p (List.mem_of_mem_eraseIdx hp)

theorem replacePatch_keeps_aligned {R : Type} (m m1 : Mem) (g g1 : gridRegular R)
    (idx : Int) (newPatch : gridPatch) (hnew : newPatch.vars = g.vars)
    (hP : ∀ p ∈ g.patches, p.vars = g.vars)
    (h : gridRegular_replacePatch m g idx newPatch = some (m1, g1)) :
    ∀ p ∈ g1.patches, p.vars = g1.vars := by
  simp only [gridRegular_replacePatch, varArr_replace] at h
  split at h
  · exact absurd h (by simp)
  · split at h
    · exact absurd h (by simp)
    · rename_i patches1 oldPatch hrep
      simp only [Option.map_eq_some', Prod.mk.injEq] at hrep
      obtain ⟨x, _, hx, _⟩ := hrep
      have hg1 : g1 = { g with patches := patches1 } := by
        split at h
        · simp only [Option.map_eq_some', Prod.mk.injEq] at h
          obtain ⟨_, _, _, hg⟩ := h
          exact hg.symm
        · simp only [Option.some.injEq, Prod.mk.injEq] at h
          exact h.2.symm
      subst hg1; subst hx
      intro p hp
      rcases List.mem_or_eq_of_mem_set hp with hp | hp
      · exact hP p hp
      · rw [hp]; exact hnew

theorem transpose_keeps_aligned {R : Type} (NDIM : Nat) (m m1 : Mem) (g g1 : gridRegular R)
    (dimA dimB : Int) (hP : ∀ p ∈ g.patches, p.vars = g.vars)
    (h : gridRegular_transpose NDIM m g dimA dimB = some (m1, g1)) :
    ∀ p ∈ g1.patches, p.vars = g1.vars := by
  simp only [gridRegular_transpose] at h
  split at h
  · exact absurd h (by simp)
  · split at h
    · exact absurd h (by simp)
    · simp only [Option.map_eq_some', Prod.mk.injEq] at h
      obtain ⟨r, hr, _, hg1⟩ := h
      subst hg1
      have hrel := forEachPatch_rel _ (fun p p1 => p1.vars = p.vars)
        (fun m p m1 p1 hp => gridPatch_transpose_vars NDIM _ _ _ _ _ _ hp) _ _ _ _ hr
      exact forall₂_vars_all _ g.vars g.vars (fun p p1 hq hp => by rw [hq, hp]) _ _ hrel hP

theorem step_keeps_aligned {R : Type} (NDIM : Nat) (s s1 : Mem × gridRegular R) (op : GridOp)
    (hP : ∀ p ∈ s.2.patches, p.vars = s.2.vars) (hok : varsAligningOp s.2 op = true)
    (h : GridOp.step NDIM s op = some s1) : ∀ p ∈ s1.2.patches, p.vars = s1.2.vars := by
  cases op with
  | attachVar var =>
    simp only [GridOp.step, Option.map_eq_some'] at h
    obtain ⟨⟨m1, g1, pos⟩, hr, hs1⟩ := h
    subst hs1
    exact attachVar_keeps_aligned NDIM _ _ _ _ _ _ hP hr
  | detachVar idx =>
    simp only [GridOp.step, Option.map_eq_some'] at h
    obtain ⟨⟨m1, g1, v⟩, hr, hs1⟩ := h
    subst hs1
    exact detachVar_keeps_aligned _ _ _ _ _ _ hP hr
  | attachPatch patch =>
    simp only [GridOp.step, Option.map_eq_some'] at h
    obtain ⟨⟨m1, g1, pos⟩, hr, hs1⟩ := h
    subst hs1
    simp only [varsAligningOp, decide_eq_true_eq] at hok
    exact attachPatch_keeps_aligned NDIM _ _ _ _ _ _ hok hP hr
  | detachPatch idx =>
    simp only [GridOp.step, Option.map_eq_some'] at h
    obtain ⟨⟨g1, old⟩, hr, hs1⟩ := h
    subst hs1
    exact detachPatch_keeps_aligned _ _ _ _ hP hr
  | replacePatch idx newPatch =>
    simp only [GridOp.step] at h
    simp only [varsAligningOp, decide_eq_true_eq] at hok
    exact replacePatch_keeps_aligned _ _ _ _ _ _ hok hP h
  | transpose dimA dimB =>
    simp only [GridOp.step] at h
    exact transpose_keeps_aligned NDIM _ _ _ _ _ _ hP h

theorem gridRegular_new_fields {R : Type} (dbl : DblOps R) (NDIM : Nat) (name : String)
    (origin extent : List R) (dims : List Nat) (g : gridRegular R)
    (h : gridRegular_new dbl NDIM name origin extent dims = some g) :
    g.patches = [] ∧ g.vars = [] ∧ g.permute = (List.range NDIM).map (fun (i : Nat) => (i : Int))
      ∧ g.refCounter = 1 ∧ g.dims = dims.take NDIM := by
  simp only [gridRegular_new] at h
  split at h
  · exact absurd h (by simp)
  · simp only [Option.some.injEq] at h
    subst h
    simp [gridRegular_getRef, local_resetDelta, refCounter_ref, refCounter_init]

/-- C8 (amended): in every grid state reachable from `gridRegular_new` by
`attachVar`, `detachVar`, `detachPatch`, `transpose`, `attachPatch` of a patch
that holds no variables and `replacePatch` with a patch that already carries
the grid's variables, every owned patch carries exactly the grid's ordered
sequence of variables. -/
theorem grid_patches_carry_grid_vars {R : Type} (dbl : DblOps R) (NDIM : Nat)
    (s : Mem × gridRegular R) (h : Reachable dbl NDIM varsAligningOp s) :
    patchesCarryGridVars s.2 = true := by
  obtain ⟨m, name, origin, extent, dims, ops, hb⟩ := h
  obtain ⟨g, hnew, hrun⟩ := Option.bind_eq_some.mp hb
  rw [patchesCarryGridVars_iff]
  refine runOps_invariant NDIM varsAligningOp (fun g => ∀ p ∈ g.patches, p.vars = g.vars)
    (fun s s1 op hP hok hs => step_keeps_aligned NDIM s s1 op hP hok hs) ops (m, g) s ?_ hrun
  intro p hp
  rw [(gridRegular_new_fields dbl NDIM name origin extent dims g hnew).1] at hp
  exact absurd hp (List.not_mem_nil _)

/-- Witness of C8 (amended): the state after `attachVar` and `attachPatch`. -/
theorem grid_patches_carry_grid_vars_witness :
    Reachable intDbl 3 varsAligningOp alignedState ∧
    patchesCarryGridVars alignedState.2 = true :=
  ⟨⟨emptyMem, "grid", [0, 0, 0], [8, 8, 8], [4, 10, 6],
      [.attachVar exampleVar, .attachPatch freshPatchA], by decide⟩,
   grid_patches_carry_grid_vars intDbl 3 alignedState
    ⟨emptyMem, "grid", [0, 0, 0], [8, 8, 8], [4, 10, 6],
      [.attachVar exampleVar, .attachPatch freshPatchA], by decide⟩⟩

/-- C8 as stated fails: after `attachVar`, `attachPatch` and then
`replacePatch(0, freshPatchB)` the owned patch carries no variable while the
grid has one; and after `attachVar` followed by `attachPatch` of a patch that
already holds the variable, the owned patch carries it twice. -/
theorem grid_vars_alignment_broken :
    (exampleGrid.bind (fun g => runOps 3 anyOp (emptyMem, g)
        [.attachVar exampleVar, .attachPatch freshPatchA, .replacePatch 0 freshPatchB])).map
      (fun s => (s.2.vars.length, s.2.patches.map (fun p => p.vars.length),
        patchesCarryGridVars s.2)) = some (1, [0], false)
    ∧ ((gridPatch_attachVarData 3 emptyMem freshPatchA exampleVar).bind (fun r =>
        exampleGrid.bind (fun g => runOps 3 anyOp (r.1, g)
          [.attachVar exampleVar, .attachPatch r.2.1]))).map
      (fun s => (s.2.vars.length, s.2.patches.map (fun p => p.vars.length),
        patchesCarryGridVars s.2)) = some (1, [2], false) := by
  decide

/-! ### The permutation vector -/

theorem LOCAL_SWAP_length {α : Type} (l : List α) (a b : Nat) :
    (LOCAL_SWAP l a b).length = l.length := by
  unfold LOCAL_SWAP
  split <;> simp

theorem LOCAL_SWAP_getElem? {α : Type} (l : List α) (a b i : Nat) (ha : a < l.length)
    (hb : b < l.length) :
    (LOCAL_SWAP l a b)[i]? = if i = b then l[a]? else if i = a then l[b]? else l[i]? := by
  unfold LOCAL_SWAP
  rw [List.getElem?_eq_getElem ha, List.getElem?_eq_getElem hb]
  simp only [List.getElem?_set, List.length_set]
  by_cases h1 : i = b
  · subst h1; simp [ha, hb]
  · by_cases h2 : i = a
    · subst h2
      simp [h1, ha, hb, Ne.symm h1]
    · simp [h1, h2, Ne.symm h1, Ne.symm h2]

theorem permInv_init (NDIM : Nat) : PermInv NDIM ((List.range NDIM).map (fun (i : Nat) => (i : Int))) := by
  refine ⟨by simp, 1, fun i => ?_⟩
  simp [List.getElem?_range i.isLt]

theorem permInv_swap (NDIM : Nat) (l : List Int) (a b : Nat) (ha : a < NDIM) (hb : b < NDIM)
    (h : PermInv NDIM l) : PermInv NDIM (LOCAL_SWAP l a b) := by
  obtain ⟨hlen, σ, hσ⟩ := h
  refine ⟨by rw [LOCAL_SWAP_length, hlen], (Equiv.swap ⟨a, ha⟩ ⟨b, hb⟩).trans σ, fun i => ?_⟩
  rw [LOCAL_SWAP_getElem? l a b i.val (by omega) (by omega)]
  simp only [Equiv.trans_apply]
  by_cases h1 : i = ⟨b, hb⟩
  · subst h1
    simp only [if_true, Equiv.swap_apply_right]
    exact hσ ⟨a, ha⟩
  · have h1' : i.val ≠ b := fun h => h1 (Fin.ext h)
    by_cases h2 : i = ⟨a, ha⟩
    · subst h2
      simp only [h1', if_false, if_true, Equiv.swap_apply_left]
      exact hσ ⟨b, hb⟩
    · have h2' : i.val ≠ a := fun h => h2 (Fin.ext h)
      simp only [h1', h2', if_false, Equiv.swap_apply_of_ne_of_ne h2 h1]
      exact hσ i

theorem permInv_isBijection (NDIM : Nat) (l : List Int) (h : PermInv NDIM l) :
    IsBijection NDIM l := by
  obtain ⟨hlen, σ, hσ⟩ := h
  refine ⟨hlen, fun i hi => ⟨(σ ⟨i, hi⟩).val, (σ ⟨i, hi⟩).isLt, hσ ⟨i, hi⟩⟩, ?_, ?_⟩
  · intro i j hi hj hij
    have h1 := hσ ⟨i, hi⟩
    have h2 := hσ ⟨j, hj⟩
    simp only at h1 h2
    rw [hij, h2, Option.some.injEq, Int.ofNat_inj] at h1
    have := σ.injective (Fin.ext h1)
    exact (Fin.mk.injEq _ _ _ _ ▸ this).symm
  · intro d hd
    refine ⟨(σ.symm ⟨d, hd⟩).val, (σ.symm ⟨d, hd⟩).isLt, ?_⟩
    have := hσ (σ.symm ⟨d, hd⟩)
    simpa using this

theorem gridRegular_transpose_permute {R : Type} (NDIM : Nat) (m m1 : Mem)
    (g g1 : gridRegular R) (dimA dimB : Int)
    (h : gridRegular_transpose NDIM m g dimA dimB = some (m1, g1)) :
    (0 ≤ dimA ∧ dimA < NDIM) ∧ (0 ≤ dimB ∧ dimB < NDIM) ∧
    g1.permute = LOCAL_SWAP g.permute dimA.toNat dimB.toNat := by
  simp only [gridRegular_transpose] at h
  split at h
  · exact absurd h (by simp)
  · rename_i hA
    split at h
    · exact absurd h (by simp)
    · rename_i hB
      simp only [Option.map_eq_some', Prod.mk.injEq] at h
      obtain ⟨r, _, _, hg1⟩ := h
      subst hg1
      exact ⟨not_not.mp hA, not_not.mp hB, rfl⟩

theorem reachable_permInv {R : Type} (dbl : DblOps R) (NDIM : Nat) (s : Mem × gridRegular R)
    (h : Reachable dbl NDIM onlyTranspose s) : PermInv NDIM s.2.permute := by
  obtain ⟨m, name, origin, extent, dims, ops, hb⟩ := h
  obtain ⟨g, hnew, hrun⟩ := Option.bind_eq_some.mp hb
  refine runOps_invariant NDIM onlyTranspose (fun g => PermInv NDIM g.permute) ?_
    ops (m, g) s ?_ hrun
  · intro s s1 op hP hok hs
    cases op with
    | transpose dimA dimB =>
      simp only [GridOp.step] at hs
      obtain ⟨hA, hB, hperm⟩ := gridRegular_transpose_permute NDIM _ _ _ _ _ _ hs
      rw [hperm]
      exact permInv_swap NDIM _ _ _ (by omega) (by omega) hP
    | _ => simp [onlyTranspose] at hok
  · show PermInv NDIM g.permute
    rw [(gridRegular_new_fields dbl NDIM name origin extent dims g hnew).2.2.1]
    exact permInv_init NDIM

theorem findCurrentDim_spec (permute : List Int) (d : Int) :
    ∀ (slots : List Nat), (∃ i ∈ slots, permute[i]? = some d) →
      ∃ i ∈ slots, findCurrentDim permute d slots = (i : Int) ∧ permute[i]? = some d := by
  intro slots
  induction slots with
  | nil => intro ⟨i, hi, _⟩; exact absurd hi (List.not_mem_nil _)
  | cons j rest ih =>
    intro ⟨i, hi, hid⟩
    by_cases hj : permute[j]? = some d
    · exact ⟨j, List.mem_cons_self _ _, by simp [findCurrentDim, hj], hj⟩
    · rcases List.mem_cons.mp hi with rfl | hi
      · exact absurd hid hj
      · obtain ⟨k, hk, hfk, hkd⟩ := ih ⟨i, hi, hid⟩
        exact ⟨k, List.mem_cons_of_mem _ hk, by simp [findCurrentDim, hj, hfk], hkd⟩

theorem getCurrentDim_of_bijection {R : Type} (NDIM : Nat) (g : gridRegular R)
    (hbij : IsBijection NDIM g.permute) (d : Nat) (hd : d < NDIM) :
    ∃ i : Nat, i < NDIM ∧ gridRegular_getCurrentDim NDIM g (d : Int) = some (i : Int) ∧
      g.permute[i]? = some (d : Int) ∧
      ∀ j, j < NDIM → g.permute[j]? = some (d : Int) → j = i := by
  obtain ⟨_, _, hinj, hsurj⟩ := hbij
  obtain ⟨i0, hi0, hi0d⟩ := hsurj d hd
  obtain ⟨i, hi, hfi, hid⟩ := findCurrentDim_spec g.permute (d : Int) (List.range NDIM)
    ⟨i0, List.mem_range.mpr hi0, hi0d⟩
  have hiN : i < NDIM := List.mem_range.mp hi
  refine ⟨i, hiN, ?_, hid, fun j hj hjd => hinj j i hj hiN (hjd.trans hid.symm)⟩
  have h1 : (d : Int) ≥ 0 ∧ (d : Int) < NDIM := ⟨by omega, by omega⟩
  have h2 : (i : Int) ≠ -1 := by omega
  simp only [gridRegular_getCurrentDim, h1, and_self, not_true_eq_false, if_false, hfi, h2,
    ne_eq, not_false_eq_true]

/-- C9: for every grid reachable from `gridRegular_new` by any sequence of
`gridRegular_transpose` calls the permutation vector is a bijection on
`[0, NDIM)`, and for every `originalDim` in `[0, NDIM)`
`gridRegular_getCurrentDim` passes its assertions and returns the unique slot
`i` with `permute[i] = originalDim`. -/
theorem permute_bijection_getCurrentDim {R : Type} (dbl : DblOps R) (NDIM : Nat)
    (s : Mem × gridRegular R) (h : Reachable dbl NDIM onlyTranspose s) :
    IsBijection NDIM s.2.permute ∧
    ∀ d : Nat, d < NDIM →
      ∃ i : Nat, i < NDIM ∧ gridRegular_getCurrentDim NDIM s.2 (d : Int) = some (i : Int) ∧
        s.2.permute[i]? = some (d : Int) ∧
        ∀ j, j < NDIM → s.2.permute[j]? = some (d : Int) → j = i := by
  have hbij := permInv_isBijection NDIM _ (reachable_permInv dbl NDIM s h)
  exact ⟨hbij, fun d hd => getCurrentDim_of_bijection NDIM s.2 hbij d hd⟩

/-- Witness of C9: the grid after `transpose(0,1)` and `transpose(1,2)`. -/
theorem permute_bijection_getCurrentDim_witness :
    Reachable intDbl 3 onlyTranspose cycledState ∧
    IsBijection 3 cycledState.2.permute ∧
    gridRegular_getCurrentDim 3 cycledState.2 0 = some 2 :=
  ⟨⟨emptyMem, "grid", [0, 0, 0], [8, 8, 8], [4, 10, 6], [.transpose 0 1, .transpose 1 2],
      by decide⟩,
   (permute_bijection_getCurrentDim intDbl 3 cycledState
      ⟨emptyMem, "grid", [0, 0, 0], [8, 8, 8], [4, 10, 6], [.transpose 0 1, .transpose 1 2],
        by decide⟩).1,
   by decide⟩

theorem getPermute_eq {R : Type} (NDIM : Nat) (g : gridRegular R)
    (hlen : g.permute.length = NDIM) : gridRegular_getPermute NDIM g = g.permute := by
  unfold gridRegular_getPermute
  exact List.take_of_length_le (by omega)

/-- C10 (amended): the permutation vector maps current axis slot to original
axis index.  For every grid reachable from `gridRegular_new` by any sequence
of `gridRegular_transpose` calls and every original axis `d`, the entry of
`gridRegular_getPermute` at slot `gridRegular_getCurrentDim(d)` is `d`; and
for every slot `i`, `gridRegular_getCurrentDim` of the entry at slot `i` is
`i`. -/
theorem permute_maps_slot_to_axis {R : Type} (dbl : DblOps R) (NDIM : Nat)
    (s : Mem × gridRegular R) (h : Reachable dbl NDIM onlyTranspose s) :
    (∀ d : Nat, d < NDIM →
      ∃ i : Nat, i < NDIM ∧ gridRegular_getCurrentDim NDIM s.2 (d : Int) = some (i : Int) ∧
        (gridRegular_getPermute NDIM s.2)[i]? = some (d : Int))
    ∧ (∀ i : Nat, i < NDIM →
      ∃ d : Nat, d < NDIM ∧ (gridRegular_getPermute NDIM s.2)[i]? = some (d : Int) ∧
        gridRegular_getCurrentDim NDIM s.2 (d : Int) = some (i : Int)) := by
  have hbij := permInv_isBijection NDIM _ (reachable_permInv dbl NDIM s h)
  rw [getPermute_eq NDIM s.2 hbij.1]
  refine ⟨fun d hd => ?_, fun i hi => ?_⟩
  · obtain ⟨i, hi, hcur, hid, _⟩ := getCurrentDim_of_bijection NDIM s.2 hbij d hd
    exact ⟨i, hi, hcur, hid⟩
  · obtain ⟨d, hd, hid⟩ := hbij.2.1 i hi
    obtain ⟨i1, _, hcur, _, huniq⟩ := getCurrentDim_of_bijection NDIM s.2 hbij d hd
    rw [← huniq i hi hid] at hcur
    exact ⟨d, hd, hid, hcur⟩

/-- Witness of C10 (amended): the grid after `transpose(0,1)` and
`transpose(1,2)`, axis 0 and slot 0. -/
theorem permute_maps_slot_to_axis_witness :
    Reachable intDbl 3 onlyTranspose cycledState ∧
    (∃ i : Nat, i < 3 ∧ gridRegular_getCurrentDim 3 cycledState.2 ((0 : Nat) : Int)
        = some (i : Int) ∧
      (gridRegular_getPermute 3 cycledState.2)[i]? = some ((0 : Nat) : Int)) :=
  ⟨⟨emptyMem, "grid", [0, 0, 0], [8, 8, 8], [4, 10, 6], [.transpose 0 1, .transpose 1 2],
      by decide⟩,
   (permute_maps_slot_to_axis intDbl 3 cycledState
      ⟨emptyMem, "grid", [0, 0, 0], [8, 8, 8], [4, 10, 6], [.transpose 0 1, .transpose 1 2],
        by decide⟩).1 0 (by decide)⟩

/-- C10 as stated fails: after `transpose(0,1)` and `transpose(1,2)` the
permutation vector is `(1,2,0)`; original axis 0 sits in current slot 2
(`gridRegular_getCurrentDim(0) = 2`) while `permute[0] = 1`. -/
theorem permute_entry_is_not_current_slot :
    (exampleGrid.bind (fun g => runOps 3 onlyTranspose (emptyMem, g)
        [.transpose 0 1, .transpose 1 2])).map
      (fun s => (gridRegular_getPermute 3 s.2, (gridRegular_getPermute 3 s.2)[0]?,
        gridRegular_getCurrentDim 3 s.2 0))
      = some ([1, 2, 0], some 1, some 2) := by
  decide

/-! ## Theorems: attaching and detaching variables of a patch -/

theorem foldlM_option_some {α β : Type} (P : β → Prop) (f : β → α → Option β) :
    ∀ (l : List α), (∀ b a, P b → a ∈ l → ∃ b1, f b a = some b1 ∧ P b1) →
      ∀ b, P b → ∃ b1, l.foldlM f b = some b1 ∧ P b1 := by
  intro l
  induction l with
  | nil =>
    intro _ b hb
    exact ⟨b, rfl, hb⟩
  | cons a l ih =>
    intro hf b hb
    obtain ⟨b1, hb1, hP1⟩ := hf b a hb (List.mem_cons_self _ _)
    obtain ⟨b2, hb2, hP2⟩ := ih (fun b a hb ha => hf b a hb (List.mem_cons_of_mem _ ha)) b1 hP1
    refine ⟨b2, ?_, hP2⟩
    simp only [List.foldlM, bind, Option.bind, hb1]
    exact hb2

theorem mapM_option_some {α β : Type} (f : α → Option β) :
    ∀ (l : List α), (∀ a, a ∈ l → ∃ b, f a = some b) →
      ∃ bs, l.mapM f = some bs ∧ bs.length = l.length := by
  intro l
  induction l with
  | nil => intro _; exact ⟨[], rfl, rfl⟩
  | cons a l ih =>
    intro hf
    obtain ⟨b, hb⟩ := hf a (List.mem_cons_self _ _)
    obtain ⟨bs, hbs, hlen⟩ := ih (fun a ha => hf a (List.mem_cons_of_mem _ ha))
    refine ⟨b :: bs, ?_, by simp [hlen]⟩
    rw [List.mapM_cons, hb, hbs]
    rfl

theorem getVarHandle_some (patch : gridPatch) (i : Nat) (hi : i < patch.vars.length) :
    ∃ var, gridPatch_getVarHandle patch (i : Int) = some var ∧ patch.vars[i]? = some var := by
  have h1 : (i : Int) ≥ 0 ∧ (i : Int) < patch.vars.length := ⟨by omega, by omega⟩
  refine ⟨patch.vars[i], ?_, List.getElem?_eq_getElem hi⟩
  simp only [gridPatch_getVarHandle, varArr_getElementHandle, h1, and_self, not_true_eq_false,
    if_false, Int.toNat_ofNat]
  exact List.getElem?_eq_getElem hi

theorem getDimActual1D_some (NDIM : Nat) (patch : gridPatch) (i d : Nat)
    (hi : i < patch.vars.length) (hd : d < NDIM) :
    ∃ x, gridPatch_getDimActual1D NDIM patch (i : Int) (d : Int) = some x := by
  obtain ⟨var, hvar, _⟩ := getVarHandle_some patch i hi
  have h1 : (i : Int) ≥ 0 ∧ (i : Int) < patch.vars.length := ⟨by omega, by omega⟩
  have h2 : (d : Int) ≥ 0 ∧ (d : Int) < NDIM := ⟨by omega, by omega⟩
  simp only [gridPatch_getDimActual1D, h1, h2, and_self, not_true_eq_false, if_false, hvar]
  split <;> exact ⟨_, rfl⟩

theorem getNumCellsActual_some (NDIM : Nat) (patch : gridPatch) (i : Nat)
    (hi : i < patch.vars.length) :
    ∃ n, gridPatch_getNumCellsActual NDIM patch (i : Int) = some n := by
  have h1 : (i : Int) ≥ 0 ∧ (i : Int) < patch.vars.length := ⟨by omega, by omega⟩
  simp only [gridPatch_getNumCellsActual, h1, and_self, not_true_eq_false, if_false]
  obtain ⟨n, hn, _⟩ := foldlM_option_some (fun _ : Nat => True)
    (fun (acc : Nat) (d : Nat) => (gridPatch_getDimActual1D NDIM patch (i : Int) (d : Int)).map
        (fun x => (acc * x) % U64))
    (List.range NDIM)
    (fun b d _ hd => by
      obtain ⟨x, hx⟩ := getDimActual1D_some NDIM patch i d hi (List.mem_range.mp hd)
      exact ⟨_, by simp only [hx]; rfl, trivial⟩)
    1 trivial
  exact ⟨n, hn⟩

theorem getDimsActual_some (NDIM : Nat) (patch : gridPatch) (i : Nat)
    (hi : i < patch.vars.length) :
    ∃ ds, gridPatch_getDimsActual NDIM patch (i : Int) = some ds ∧ ds.length = NDIM := by
  have h1 : (i : Int) ≥ 0 ∧ (i : Int) < patch.vars.length := ⟨by omega, by omega⟩
  simp only [gridPatch_getDimsActual, h1, and_self, not_true_eq_false, if_false]
  obtain ⟨ds, hds, hlen⟩ := mapM_option_some
    (fun (d : Nat) => gridPatch_getDimActual1D NDIM patch (i : Int) (d : Int)) (List.range NDIM)
    (fun d hd => getDimActual1D_some NDIM patch i d hi (List.mem_range.mp hd))
  exact ⟨ds, hds, by simpa using hlen⟩

theorem getElem?_append_at_length {α : Type} (l : List α) (x : α) (r : List α) :
    (l ++ x :: r)[l.length]? = some x := by
  rw [List.getElem?_append_right (Nat.le_refl _)]
  simp

theorem getElem?_append_after_length {α : Type} (l : List α) (x y : α) (r : List α) :
    (l ++ x :: y :: r)[l.length + 1]? = some y := by
  rw [List.getElem?_append_right (by omega)]
  simp

theorem attachVarData_eq (NDIM : Nat) (m : Mem) (patch : gridPatch) (var : gridVar)
    (hwf : patch.aligned) :
    ∃ n, gridPatch_attachVarData NDIM m patch var =
      some ({ m with bufs := m.bufs ++ [List.replicate (n * gridVar_getSizePerElement var) 0] },
            { patch with vars := patch.vars ++ [var], varData := patch.varData ++ [m.bufs.length] },
            (patch.vars.length : Int)) := by
  obtain ⟨n, hn⟩ := getNumCellsActual_some NDIM { patch with vars := patch.vars ++ [var] }
    patch.vars.length (by simp)
  refine ⟨n, ?_⟩
  unfold gridPatch.aligned at hwf
  simp only [gridPatch_attachVarData, varArr_insert, hn, gridVar_getMemory, hwf, ne_eq,
    not_true_eq_false, if_false]

/-- C19: on a patch whose two sequences are index-aligned,
`gridPatch_attachVarData(patch, var)` returns the number of variables the patch
held before, appends the descriptor to the variable sequence and a freshly
allocated buffer to the buffer sequence (nothing else of the patch changes,
nothing is freed); attaching the same descriptor a second time returns the
next position and appends a second buffer distinct from the first. -/
theorem gridPatch_attachVarData_appends (NDIM : Nat) (m : Mem) (patch : gridPatch)
    (var : gridVar) (hwf : patch.aligned) :
    ∃ m1 p1 m2 p2 b1 b2,
      gridPatch_attachVarData NDIM m patch var = some (m1, p1, (patch.vars.length : Int))
      ∧ p1 = { patch with vars := patch.vars ++ [var], varData := patch.varData ++ [b1] }
      ∧ b1 = m.bufs.length ∧ m1.bufs.length = m.bufs.length + 1 ∧ m1.freed = m.freed
      ∧ gridPatch_attachVarData NDIM m1 p1 var = some (m2, p2, (patch.vars.length : Int) + 1)
      ∧ p2.vars = patch.vars ++ [var, var]
      ∧ p2.varData = patch.varData ++ [b1, b2]
      ∧ p2.varData[patch.vars.length]? = some b1
      ∧ p2.varData[patch.vars.length + 1]? = some b2
      ∧ b1 ≠ b2 := by
  obtain ⟨n1, h1⟩ := attachVarData_eq NDIM m patch var hwf
  have hwf1 : gridPatch.aligned
      { patch with vars := patch.vars ++ [var], varData := patch.varData ++ [m.bufs.length] } := by
    unfold gridPatch.aligned at hwf ⊢
    simp [hwf]
  obtain ⟨n2, h2⟩ := attachVarData_eq NDIM
    { m with bufs := m.bufs ++ [List.replicate (n1 * gridVar_getSizePerElement var) 0] }
    { patch with vars := patch.vars ++ [var], varData := patch.varData ++ [m.bufs.length] }
    var hwf1
  unfold gridPatch.aligned at hwf
  simp only [List.length_append, List.length_singleton, Nat.cast_add, Nat.cast_one] at h2
  refine ⟨{ m with bufs := m.bufs ++ [List.replicate (n1 * gridVar_getSizePerElement var) 0] },
    { patch with vars := patch.vars ++ [var], varData := patch.varData ++ [m.bufs.length] },
    { m with bufs := m.bufs ++ [List.replicate (n1 * gridVar_getSizePerElement var) 0]
                ++ [List.replicate (n2 * gridVar_getSizePerElement var) 0] },
    { patch with vars := patch.vars ++ [var] ++ [var],
                 varData := patch.varData ++ [m.bufs.length] ++ [m.bufs.length + 1] },
    m.bufs.length, m.bufs.length + 1, h1, rfl, rfl, by simp, rfl, h2, by simp, by simp,
    ?_, ?_, by omega⟩
  · rw [← hwf]
    simp only [List.append_assoc, List.singleton_append]
    exact getElem?_append_at_length _ _ _
  · rw [← hwf]
    simp only [List.append_assoc, List.singleton_append]
    exact getElem?_append_after_length _ _ _ _

/-- Witness of C19: `exampleVar` attached a second and a third time to the
2 x 3 patch that already holds it. -/
theorem gridPatch_attachVarData_appends_witness :
    examplePatch.aligned ∧
    ∃ m1 p1 m2 p2 b1 b2,
      gridPatch_attachVarData 2 exampleMem examplePatch exampleVar
        = some (m1, p1, (examplePatch.vars.length : Int))
      ∧ p1 = { examplePatch with vars := examplePatch.vars ++ [exampleVar],
                                 varData := examplePatch.varData ++ [b1] }
      ∧ b1 = exampleMem.bufs.length ∧ m1.bufs.length = exampleMem.bufs.length + 1
      ∧ m1.freed = exampleMem.freed
      ∧ gridPatch_attachVarData 2 m1 p1 exampleVar
        = some (m2, p2, (examplePatch.vars.length : Int) + 1)
      ∧ p2.vars = examplePatch.vars ++ [exampleVar, exampleVar]
      ∧ p2.varData = examplePatch.varData ++ [b1, b2]
      ∧ p2.varData[examplePatch.vars.length]? = some b1
      ∧ p2.varData[examplePatch.vars.length + 1]? = some b2
      ∧ b1 ≠ b2 :=
  ⟨rfl, gridPatch_attachVarData_appends 2 exampleMem examplePatch exampleVar rfl⟩

/-- C20: on a patch whose two sequences are index-aligned,
`gridPatch_attachVarData` followed by `gridPatch_detachVarData` at the
returned position gives back the patch exactly as it was (same variable and
buffer sequences), the detach returns the buffer the attach allocated, and
neither call frees anything. -/
theorem gridPatch_attach_detach_restores (NDIM : Nat) (m : Mem) (patch : gridPatch)
    (var : gridVar) (hwf : patch.aligned) :
    ∃ m1 p1 pos,
      gridPatch_attachVarData NDIM m patch var = some (m1, p1, pos)
      ∧ p1.varData[pos.toNat]? = some m.bufs.length
      ∧ m1.bufs.length = m.bufs.length + 1
      ∧ gridPatch_detachVarData p1 pos = some (patch, m.bufs.length)
      ∧ m1.freed = m.freed := by
  obtain ⟨n1, h1⟩ := attachVarData_eq NDIM m patch var hwf
  unfold gridPatch.aligned at hwf
  refine ⟨_, _, _, h1, ?_, by simp, ?_, rfl⟩
  · simp only [Int.toNat_ofNat]
    rw [← hwf]; exact getElem?_append_at_length _ _ _
  · have hr : (patch.vars.length : Int) ≥ 0 ∧
        (patch.vars.length : Int) < ((patch.varData ++ [m.bufs.length]).length : Int) := by
      refine ⟨by omega, ?_⟩
      simp only [List.length_append, List.length_singleton]
      omega
    have hr2 : (patch.vars.length : Int) ≥ 0 ∧
        (patch.vars.length : Int) < ((patch.vars ++ [var]).length : Int) := by
      refine ⟨by omega, ?_⟩
      simp only [List.length_append, List.length_singleton]
      omega
    have e1 : (patch.vars ++ [var])[patch.vars.length]? = some var :=
      getElem?_append_at_length _ _ _
    have e2 : (patch.varData ++ [m.bufs.length])[patch.vars.length]? = some m.bufs.length := by
      rw [← hwf]; exact getElem?_append_at_length _ _ _
    have e3 : (patch.vars ++ [var]).eraseIdx patch.vars.length = patch.vars := by
      rw [List.eraseIdx_append_of_length_le (Nat.le_refl _)]; simp
    have e4 : (patch.varData ++ [m.bufs.length]).eraseIdx patch.vars.length = patch.varData := by
      rw [← hwf, List.eraseIdx_append_of_length_le (Nat.le_refl _)]; simp
    simp only [gridPatch_detachVarData, varArr_remove, hr, hr2, and_self, not_true_eq_false,
      if_false, Int.toNat_ofNat, e1, e2, e3, e4, Option.map_some']

/-- Witness of C20: attach and detach on the 2 x 3 patch holding
`exampleVar`. -/
theorem gridPatch_attach_detach_restores_witness :
    examplePatch.aligned ∧
    ∃ m1 p1 pos,
      gridPatch_attachVarData 2 exampleMem examplePatch exampleVar = some (m1, p1, pos)
      ∧ p1.varData[pos.toNat]? = some exampleMem.bufs.length
      ∧ m1.bufs.length = exampleMem.bufs.length + 1
      ∧ gridPatch_detachVarData p1 pos = some (examplePatch, exampleMem.bufs.length)
      ∧ m1.freed = exampleMem.freed :=
  ⟨rfl, gridPatch_attach_detach_restores 2 exampleMem examplePatch exampleVar rfl⟩

/-! ## Theorems: attaching patches and detaching variables of a grid -/

theorem addVarsToPatch_eq (NDIM : Nat) :
    ∀ (vs : List dataVar) (m : Mem) (p : gridPatch), p.aligned →
      ∃ m1, addVarsToPatch NDIM m p vs =
          some (m1, { p with vars := p.vars ++ vs
                             varData := p.varData ++
                               (List.range vs.length).map (fun i => m.bufs.length + i) })
        ∧ m1.bufs.length = m.bufs.length + vs.length ∧ m1.freed = m.freed := by
  intro vs
  induction vs with
  | nil =>
    intro m p _
    exact ⟨m, by simp [addVarsToPatch], by simp, rfl⟩
  | cons v vs ih =>
    intro m p hwf
    obtain ⟨n, hn⟩ := attachVarData_eq NDIM m p v hwf
    have hwf1 : gridPatch.aligned
        { p with vars := p.vars ++ [v], varData := p.varData ++ [m.bufs.length] } := by
      unfold gridPatch.aligned at hwf ⊢
      simp [hwf]
    obtain ⟨m1, h1, hlen, hfreed⟩ := ih
      { m with bufs := m.bufs ++ [List.replicate (n * gridVar_getSizePerElement v) 0] }
      { p with vars := p.vars ++ [v], varData := p.varData ++ [m.bufs.length] } hwf1
    refine ⟨m1, ?_, ?_, ?_⟩
    · simp only [addVarsToPatch, gridPatch_attachVar, hn, h1]
      simp only [List.length_append, List.length_singleton, List.append_assoc,
        List.singleton_append, List.length_cons, List.range_succ_eq_map, List.map_cons,
        List.map_map, Nat.add_zero]
      congr 5
      apply List.map_congr_left
      intro i _
      simp only [Function.comp_apply, List.length_nil]
      omega
    · simp only [List.length_append, List.length_singleton, List.length_cons,
        List.length_nil] at hlen ⊢
      omega
    · rw [hfreed]

theorem forEachPatch_some (f : Mem → gridPatch → Option (Mem × gridPatch))
    (Q : gridPatch → gridPatch → Prop) :
    ∀ (ps : List gridPatch),
      (∀ p ∈ ps, ∀ m, ∃ m1 p1, f m p = some (m1, p1) ∧ Q p p1) →
      ∀ m, ∃ m1 ps1, forEachPatch f m ps = some (m1, ps1) ∧ List.Forall₂ Q ps ps1 := by
  intro ps
  induction ps with
  | nil => intro _ m; exact ⟨m, [], rfl, List.Forall₂.nil⟩
  | cons p ps ih =>
    intro hf m
    obtain ⟨m1, p1, hp, hQ⟩ := hf p (List.mem_cons_self _ _) m
    obtain ⟨m2, ps2, hps, hQs⟩ := ih (fun q hq => hf q (List.mem_cons_of_mem _ hq)) m1
    exact ⟨m2, p1 :: ps2, by simp only [forEachPatch, hp, hps], List.Forall₂.cons hQ hQs⟩

theorem forEachPatch_mem (f : Mem → gridPatch → Option (Mem × gridPatch)) (P : Mem → Prop)
    (hf : ∀ m p m1 p1, f m p = some (m1, p1) → P m → P m1) :
    ∀ (ps : List gridPatch) (m m1 : Mem) (ps1 : List gridPatch),
      forEachPatch f m ps = some (m1, ps1) → P m → P m1 := by
  intro ps
  induction ps with
  | nil =>
    intro m m1 ps1 h hP
    simp only [forEachPatch, Option.some.injEq, Prod.mk.injEq] at h
    exact h.1 ▸ hP
  | cons p ps ih =>
    intro m m1 ps1 h hP
    simp only [forEachPatch] at h
    split at h
    · exact absurd h (by simp)
    · rename_i m2 p2 hp
      split at h
      · exact absurd h (by simp)
      · rename_i m3 ps3 hps
        simp only [Option.some.injEq, Prod.mk.injEq] at h
        exact h.1 ▸ ih _ _ _ hps (hf _ _ _ _ hp hP)

theorem forall₂_eq_map {α β : Type} (f : α → β) :
    ∀ (l : List α) (l1 : List β), List.Forall₂ (fun a b => b = f a) l l1 → l1 = l.map f := by
  intro l l1 h
  induction h with
  | nil => rfl
  | cons hab _ ih => rw [List.map_cons, hab, ih]

theorem detachVarData_eq (p : gridPatch) (i : Nat) (hi : i < p.vars.length) (hwf : p.aligned) :
    ∃ var data, p.vars[i]? = some var ∧ p.varData[i]? = some data ∧
      gridPatch_getVarHandle p (i : Int) = some var ∧
      gridPatch_detachVarData p (i : Int) = some (patchWithoutVar i p, data) := by
  unfold gridPatch.aligned at hwf
  have hi2 : i < p.varData.length := by omega
  obtain ⟨var, hvar, hvar2⟩ := getVarHandle_some p i hi
  have h1 : (i : Int) ≥ 0 ∧ (i : Int) < p.vars.length := ⟨by omega, by omega⟩
  have h2 : (i : Int) ≥ 0 ∧ (i : Int) < p.varData.length := ⟨by omega, by omega⟩
  refine ⟨var, p.varData[i], hvar2, List.getElem?_eq_getElem hi2, hvar, ?_⟩
  simp only [gridPatch_detachVarData, varArr_remove, h1, h2, and_self, not_true_eq_false,
    if_false, Int.toNat_ofNat, hvar2, List.getElem?_eq_getElem hi2, Option.map_some',
    patchWithoutVar]

theorem detachVar_eq (m : Mem) (p : gridPatch) (i : Nat) (hi : i < p.vars.length)
    (hwf : p.aligned) :
    ∃ var data, p.vars[i]? = some var ∧ p.varData[i]? = some data ∧
      gridPatch_detachVar m p (i : Int) =
        some ({ m with freed := m.freed ++ [data] }, patchWithoutVar i p, var) := by
  obtain ⟨var, data, h1, h2, h3, h4⟩ := detachVarData_eq p i hi hwf
  exact ⟨var, data, h1, h2, by simp only [gridPatch_detachVar, h3, h4, gridVar_freeMemory]⟩

/-- C17: for every grid with variable sequence `V` and every patch holding no
variables, `gridRegular_attachPatch` returns the previous number of owned
patches as the index of the new patch and appends the patch at that index;
the appended patch carries exactly the variables of `V` in the same order,
each with a buffer of its own: the buffers are freshly allocated and pairwise
distinct, and the patches owned before are untouched. -/
theorem gridRegular_attachPatch_carries_vars {R : Type} (NDIM : Nat) (m : Mem)
    (g : gridRegular R) (patch : gridPatch) (hv : patch.vars = []) (hd : patch.varData = []) :
    ∃ m1 patch1,
      gridRegular_attachPatch NDIM m g patch
        = some (m1, { g with patches := g.patches ++ [patch1] }, (g.patches.length : Int))
      ∧ patch1.vars = g.vars
      ∧ patch1.varData.length = g.vars.length
      ∧ patch1.varData.Nodup
      ∧ (∀ b ∈ patch1.varData, m.bufs.length ≤ b ∧ b < m1.bufs.length)
      ∧ patch1 = { patch with vars := patch1.vars, varData := patch1.varData }
      ∧ m1.freed = m.freed := by
  have hwf : patch.aligned := by simp [gridPatch.aligned, hv, hd]
  obtain ⟨m1, h1, hlen, hfreed⟩ := addVarsToPatch_eq NDIM g.vars m patch hwf
  refine ⟨m1, ({ patch with vars := patch.vars ++ g.vars,
                             varData := patch.varData ++
                              (List.range g.vars.length).map (fun i => m.bufs.length + i) } :
                gridPatch),
    ?_, ?_, ?_, ?_, ?_, rfl, hfreed⟩
  · simp only [gridRegular_attachPatch, local_addAllVarsToPatch, h1, varArr_insert]
  · simp [hv]
  · simp [hd]
  · rw [hd, List.nil_append]
    refine List.Nodup.map ?_ (List.nodup_range _)
    intro a b h
    simpa using h
  · intro b hb
    rw [hd, List.nil_append, List.mem_map] at hb
    obtain ⟨i, hi, rfl⟩ := hb
    have := List.mem_range.mp hi
    omega

/-- Witness of C17: the variable-free patch `freshPatchB` attached to the
grid of `alignedState`, which has one variable and one patch. -/
theorem gridRegular_attachPatch_carries_vars_witness :
    (freshPatchB.vars = [] ∧ freshPatchB.varData = []) ∧
    ∃ m1 patch1,
      gridRegular_attachPatch 3 alignedState.1 alignedState.2 freshPatchB
        = some (m1, { alignedState.2 with patches := alignedState.2.patches ++ [patch1] },
                (alignedState.2.patches.length : Int))
      ∧ patch1.vars = alignedState.2.vars
      ∧ patch1.varData.length = alignedState.2.vars.length
      ∧ patch1.varData.Nodup
      ∧ (∀ b ∈ patch1.varData, alignedState.1.bufs.length ≤ b ∧ b < m1.bufs.length)
      ∧ patch1 = { freshPatchB with vars := patch1.vars, varData := patch1.varData }
      ∧ m1.freed = alignedState.1.freed :=
  ⟨⟨rfl, rfl⟩,
   gridRegular_attachPatch_carries_vars 3 alignedState.1 alignedState.2 freshPatchB rfl rfl⟩

/-- C18: for every grid satisfying the grid/patch variable invariant and every
valid index `i`, `gridRegular_detachVar(grid, i)` returns the descriptor at
position `i`, removes position `i` from the grid's variable sequence and from
the variable and buffer sequences of every owned patch (freeing nothing but
buffers of that position), and changes nothing else: the other variables keep
their relative order in the grid and in every patch. -/
theorem gridRegular_detachVar_removes {R : Type} (m : Mem) (g : gridRegular R) (i : Nat)
    (hinv : gridVarsInvariant g) (hi : i < g.vars.length) :
    ∃ m1 v,
      gridRegular_detachVar m g (i : Int)
        = some (m1, { g with vars := g.vars.eraseIdx i,
                             patches := g.patches.map (patchWithoutVar i) }, v)
      ∧ g.vars[i]? = some v
      ∧ (∀ p ∈ g.patches, (patchWithoutVar i p).vars = g.vars.eraseIdx i)
      ∧ (∀ p ∈ g.patches, (patchWithoutVar i p).varData.length + 1 = p.varData.length)
      ∧ m1.bufs = m.bufs := by
  have hsome := forEachPatch_some
    (fun m p => (gridPatch_detachVar m p (i : Int)).map (fun r => (r.1, r.2.1)))
    (fun p p1 => p1 = patchWithoutVar i p) g.patches
    (by
      intro p hp m0
      obtain ⟨hpv, hpa⟩ := hinv p hp
      obtain ⟨var, data, _, _, hdet⟩ := detachVar_eq m0 p i (by rw [hpv]; exact hi) hpa
      exact ⟨_, _, by simp only [hdet]; rfl, rfl⟩)
    m
  obtain ⟨m1, ps1, hfor, hrel⟩ := hsome
  have hps1 := forall₂_eq_map (patchWithoutVar i) _ _ hrel
  subst hps1
  have hmem := forEachPatch_mem _ (fun m0 => m0.bufs = m.bufs)
    (by
      intro m0 p m2 p2 hp hP
      simp only [gridPatch_detachVar, gridVar_freeMemory] at hp
      split at hp
      · exact absurd hp (by simp)
      · split at hp
        · exact absurd hp (by simp)
        · simp only [Option.map_some', Option.some.injEq, Prod.mk.injEq] at hp
          rw [← hp.1]; exact hP)
    _ _ _ _ hfor rfl
  have h1 : (i : Int) ≥ 0 ∧ (i : Int) < g.vars.length := ⟨by omega, by omega⟩
  refine ⟨m1, g.vars[i], ?_, List.getElem?_eq_getElem hi, ?_, ?_, hmem⟩
  · simp only [gridRegular_detachVar, h1, and_self, not_true_eq_false, if_false,
      local_removeVarFromAllPatches, hfor, Option.map_some', varArr_remove, Int.toNat_ofNat,
      List.getElem?_eq_getElem hi]
  · intro p hp
    simp only [patchWithoutVar, (hinv p hp).1]
  · intro p hp
    have ha := (hinv p hp).2
    unfold gridPatch.aligned at ha
    simp only [patchWithoutVar, List.length_eraseIdx]
    have : i < p.varData.length := by rw [ha, (hinv p hp).1]; exact hi
    rw [if_pos this]
    omega

/-- Witness of C18: `gridRegular_detachVar(grid, 0)` on the grid of
`alignedState`, whose single patch carries the single variable. -/
theorem gridRegular_detachVar_removes_witness :
    (gridVarsInvariant alignedState.2 ∧ 0 < alignedState.2.vars.length) ∧
    ∃ m1 v,
      gridRegular_detachVar alignedState.1 alignedState.2 ((0 : Nat) : Int)
        = some (m1, { alignedState.2 with
                        vars := alignedState.2.vars.eraseIdx 0,
                        patches := alignedState.2.patches.map (patchWithoutVar 0) }, v)
      ∧ alignedState.2.vars[0]? = some v
      ∧ (∀ p ∈ alignedState.2.patches,
          (patchWithoutVar 0 p).vars = alignedState.2.vars.eraseIdx 0)
      ∧ (∀ p ∈ alignedState.2.patches,
          (patchWithoutVar 0 p).varData.length + 1 = p.varData.length)
      ∧ m1.bufs = alignedState.1.bufs :=
  ⟨⟨by
      intro p hp
      simp only [alignedState, List.mem_singleton] at hp
      subst hp
      exact ⟨rfl, rfl⟩,
    by decide⟩,
   gridRegular_detachVar_removes alignedState.1 alignedState.2 0
    (by
      intro p hp
      simp only [alignedState, List.mem_singleton] at hp
      subst hp
      exact ⟨rfl, rfl⟩)
    (by decide)⟩

/-! ## Theorems: grid construction and transposition -/

/-- C15: for dims and extent positive on all `NDIM` axes, `gridRegular_new`
returns a grid that stores the given name, origin, extent and dims, has
`permute[i] = i` on every axis, `dimsComplex` equal to dims except
`dimsComplex[0] = dims[0] / 2 + 1`, `delta[d] = extent[d] / dims[d]`, no
patches, no variables and reference count 1. -/
theorem gridRegular_new_spec {R : Type} (dbl : DblOps R) (NDIM : Nat) (name : String)
    (origin extent : List R) (dims : List Nat)
    (horigin : origin.length = NDIM) (hextent : extent.length = NDIM)
    (hdims : dims.length = NDIM)
    (hpos : ∀ d, d < NDIM → dims.getD d 0 > 0)
    (hext : ∀ d, d < NDIM → (extent[d]?).map dbl.isPos = some true) :
    ∃ g, gridRegular_new dbl NDIM name origin extent dims = some g
      ∧ g.name = name ∧ g.origin = origin ∧ g.extent = extent ∧ g.dims = dims
      ∧ (∀ i, i < NDIM → g.permute[i]? = some (i : Int)) ∧ g.permute.length = NDIM
      ∧ g.dimsComplex.length = NDIM
      ∧ (∀ d, d < NDIM →
          g.dimsComplex[d]? = some (if d = 0 then dims.getD 0 0 / 2 + 1 else dims.getD d 0))
      ∧ g.delta.length = NDIM
      ∧ (∀ d, d < NDIM → ∃ e n, extent[d]? = some e ∧ dims[d]? = some n ∧
          g.delta[d]? = some (dbl.divByCount e n))
      ∧ g.patches = [] ∧ g.vars = [] ∧ g.refCounter = 1 := by
  have hassert : ∀ i, i < NDIM →
      dims.getD i 0 > 0 ∧ (extent[i]?).map dbl.isPos = some true :=
    fun i hi => ⟨hpos i hi, hext i hi⟩
  rw [gridRegular_new, if_neg (not_not.mpr hassert)]
  refine ⟨_, rfl, rfl, ?_, ?_, ?_, ?_, ?_, ?_, ?_, ?_, ?_, rfl, rfl, rfl⟩
  · simp only [gridRegular_getRef, local_resetDelta]
    exact List.take_of_length_le (by omega)
  · simp only [gridRegular_getRef, local_resetDelta]
    exact List.take_of_length_le (by omega)
  · simp only [gridRegular_getRef, local_resetDelta]
    exact List.take_of_length_le (by omega)
  · intro i hi
    simp only [gridRegular_getRef, local_resetDelta, List.getElem?_map,
      List.getElem?_range hi, Option.map_some']
  · simp [gridRegular_getRef, local_resetDelta]
  · simp [gridRegular_getRef, local_resetDelta, hdims]
  · intro d hd
    simp only [gridRegular_getRef, local_resetDelta]
    rw [List.take_of_length_le (by omega), List.getElem?_set]
    have hdl : d < dims.length := by omega
    by_cases h0 : d = 0
    · subst h0
      simp [hdl]
    · have h0' : ¬ (0 = d) := fun h => h0 h.symm
      simp only [h0', h0, if_false]
      rw [List.getElem?_eq_getElem hdl, List.getD_eq_getElem _ _ hdl]
  · simp [gridRegular_getRef, local_resetDelta, hdims, hextent, horigin]
  · intro d hd
    have hdl : d < dims.length := by omega
    have hel : d < extent.length := by omega
    refine ⟨extent[d], dims[d], List.getElem?_eq_getElem hel, List.getElem?_eq_getElem hdl, ?_⟩
    simp only [gridRegular_getRef, local_resetDelta]
    have e1 : extent.take NDIM = extent := List.take_of_length_le (by omega)
    have e2 : dims.take NDIM = dims := List.take_of_length_le (by omega)
    rw [e1, e2, List.take_of_length_le (by simp [hdims, hextent])]
    simp [List.getElem?_zipWith, List.getElem?_eq_getElem hel, List.getElem?_eq_getElem hdl]

/-- Witness of C15: the grid `exampleGrid` is built from. -/
theorem gridRegular_new_spec_witness :
    ∃ g, gridRegular_new intDbl 3 "grid" [0, 0, 0] [8, 8, 8] [4, 10, 6] = some g
      ∧ g.dims = [4, 10, 6] ∧ g.patches = [] ∧ g.vars = [] ∧ g.refCounter = 1 :=
  (gridRegular_new_spec intDbl 3 "grid" [0, 0, 0] [8, 8, 8] [4, 10, 6] rfl rfl rfl
    (by decide) (by decide)).imp
    (fun _ h => ⟨h.1, h.2.2.2.2.1, h.2.2.2.2.2.2.2.2.2.2.2⟩)

theorem swapIdx_lt (a b d n : Nat) (ha : a < n) (hb : b < n) (hd : d < n) :
    swapIdx a b d < n := by
  unfold swapIdx
  split_ifs <;> assumption

theorem swapIdx_swapIdx (a b d : Nat) : swapIdx a b (swapIdx a b d) = d := by
  unfold swapIdx
  split_ifs <;> omega

theorem LOCAL_SWAP_getElem?_swapIdx {α : Type} (l : List α) (a b d : Nat) (ha : a < l.length)
    (hb : b < l.length) : (LOCAL_SWAP l a b)[d]? = l[swapIdx a b d]? := by
  rw [LOCAL_SWAP_getElem? l a b d ha hb]
  unfold swapIdx
  split_ifs <;> rfl

theorem LOCAL_SWAP_of_not_lt {α : Type} (l : List α) (a b : Nat)
    (h : ¬ (a < l.length ∧ b < l.length)) : LOCAL_SWAP l a b = l := by
  unfold LOCAL_SWAP
  split
  · rename_i x y hx hy
    have h1 := (List.getElem?_eq_some.mp hx).1
    have h2 := (List.getElem?_eq_some.mp hy).1
    exact absurd ⟨h1, h2⟩ h
  · rfl

theorem LOCAL_SWAP_LOCAL_SWAP {α : Type} (l : List α) (a b : Nat) :
    LOCAL_SWAP (LOCAL_SWAP l a b) a b = l := by
  by_cases h : a < l.length ∧ b < l.length
  · apply List.ext_getElem?
    intro d
    rw [LOCAL_SWAP_getElem?_swapIdx _ a b d (by rw [LOCAL_SWAP_length]; exact h.1)
      (by rw [LOCAL_SWAP_length]; exact h.2),
      LOCAL_SWAP_getElem?_swapIdx l a b _ h.1 h.2, swapIdx_swapIdx]
  · rw [LOCAL_SWAP_of_not_lt l a b h, LOCAL_SWAP_of_not_lt l a b h]

theorem LOCAL_SWAP_self {α : Type} (l : List α) (a : Nat) : LOCAL_SWAP l a a = l := by
  by_cases h : a < l.length ∧ a < l.length
  · apply List.ext_getElem?
    intro d
    rw [LOCAL_SWAP_getElem?_swapIdx l a a d h.1 h.2]
    unfold swapIdx
    split_ifs with h1 <;> simp [h1]
  · exact LOCAL_SWAP_of_not_lt l a a h

theorem gridRegular_transpose_geometry {R : Type} (NDIM : Nat) (m m1 : Mem)
    (g g1 : gridRegular R) (dimA dimB : Int)
    (h : gridRegular_transpose NDIM m g dimA dimB = some (m1, g1)) :
    (0 ≤ dimA ∧ dimA < NDIM) ∧ (0 ≤ dimB ∧ dimB < NDIM)
    ∧ g1.origin = LOCAL_SWAP g.origin dimA.toNat dimB.toNat
    ∧ g1.extent = LOCAL_SWAP g.extent dimA.toNat dimB.toNat
    ∧ g1.delta = LOCAL_SWAP g.delta dimA.toNat dimB.toNat
    ∧ g1.dims = LOCAL_SWAP g.dims dimA.toNat dimB.toNat
    ∧ g1.dimsComplex = LOCAL_SWAP g.dimsComplex dimA.toNat dimB.toNat
    ∧ g1.permute = LOCAL_SWAP g.permute dimA.toNat dimB.toNat
    ∧ g1.name = g.name ∧ g1.vars = g.vars ∧ g1.refCounter = g.refCounter := by
  simp only [gridRegular_transpose] at h
  split at h
  · exact absurd h (by simp)
  · rename_i hA
    split at h
    · exact absurd h (by simp)
    · rename_i hB
      simp only [Option.map_eq_some', Prod.mk.injEq] at h
      obtain ⟨r, _, _, hg1⟩ := h
      subst hg1
      exact ⟨not_not.mp hA, not_not.mp hB, rfl, rfl, rfl, rfl, rfl, rfl, rfl, rfl, rfl⟩

theorem halvedAxis_step {R : Type} (NDIM : Nat) (m m1 : Mem) (g g1 : gridRegular R)
    (dimA dimB : Int)
    (hP : (g.dims.length = NDIM ∧ g.dimsComplex.length = NDIM ∧ g.permute.length = NDIM)
      ∧ halvedAxisFollows NDIM g)
    (h : gridRegular_transpose NDIM m g dimA dimB = some (m1, g1)) :
    (g1.dims.length = NDIM ∧ g1.dimsComplex.length = NDIM ∧ g1.permute.length = NDIM)
      ∧ halvedAxisFollows NDIM g1 := by
  obtain ⟨hA, hB, _, _, _, hd, hdc, hp, _, _, _⟩ :=
    gridRegular_transpose_geometry NDIM m m1 g g1 dimA dimB h
  obtain ⟨⟨l4, l5, l6⟩, hfol⟩ := hP
  have ha : dimA.toNat < NDIM := by omega
  have hb : dimB.toNat < NDIM := by omega
  refine ⟨⟨by rw [hd, LOCAL_SWAP_length, l4],
    by rw [hdc, LOCAL_SWAP_length, l5], by rw [hp, LOCAL_SWAP_length, l6]⟩, ?_⟩
  intro d hdlt
  rw [hd, hdc, hp,
    LOCAL_SWAP_getElem?_swapIdx _ _ _ d (by omega) (by omega),
    LOCAL_SWAP_getElem?_swapIdx _ _ _ d (by omega) (by omega),
    LOCAL_SWAP_getElem?_swapIdx _ _ _ d (by omega) (by omega)]
  exact hfol _ (swapIdx_lt _ _ _ _ ha hb hdlt)

theorem halvedAxis_init {R : Type} (dbl : DblOps R) (NDIM : Nat) (name : String)
    (origin extent : List R) (dims : List Nat) (g : gridRegular R)
    (h : gridRegular_new dbl NDIM name origin extent dims = some g) :
    (g.dims.length = NDIM ∧ g.dimsComplex.length = NDIM ∧ g.permute.length = NDIM)
      ∧ halvedAxisFollows NDIM g := by
  simp only [gridRegular_new] at h
  split at h
  · exact absurd h (by simp)
  · rename_i hassert
    have hassert := not_not.mp hassert
    simp only [Option.some.injEq] at h
    subst h
    have hdl : NDIM ≤ dims.length := by
      by_contra hc
      have := (hassert dims.length (by omega)).1
      simp at this
    refine ⟨⟨by simp [gridRegular_getRef, local_resetDelta, hdl],
      by simp [gridRegular_getRef, local_resetDelta, hdl],
      by simp [gridRegular_getRef, local_resetDelta]⟩, ?_⟩
    intro d hd
    have hd2 : d < dims.length := by omega
    refine ⟨dims[d], ?_, ?_⟩
    · simp only [gridRegular_getRef, local_resetDelta]
      rw [List.getElem?_take_of_lt hd, List.getElem?_eq_getElem hd2]
    · simp only [gridRegular_getRef, local_resetDelta, List.getElem?_map,
        List.getElem?_range hd, Option.map_some', Option.some.injEq]
      rw [List.getElem?_set]
      by_cases h0 : d = 0
      · subst h0
        have h00 : 0 < (List.take NDIM dims).length := by
          rw [List.length_take]; omega
        simp only [if_true, h00, Nat.cast_zero]
        rw [List.getD_eq_getElem _ _ h00, List.getElem_take]
      · have h0' : ¬ (0 = d) := fun h => h0 h.symm
        have h0'' : ¬ ((d : Int) = 0) := by omega
        simp only [h0', h0'', if_false]
        rw [List.getElem?_take_of_lt hd, List.getElem?_eq_getElem hd2]

theorem reachable_halvedAxis {R : Type} (dbl : DblOps R) (NDIM : Nat)
    (s : Mem × gridRegular R) (h : Reachable dbl NDIM onlyTranspose s) :
    (s.2.dims.length = NDIM ∧ s.2.dimsComplex.length = NDIM ∧ s.2.permute.length = NDIM)
      ∧ halvedAxisFollows NDIM s.2 := by
  obtain ⟨m, name, origin, extent, dims, ops, hb⟩ := h
  obtain ⟨g, hnew, hrun⟩ := Option.bind_eq_some.mp hb
  refine runOps_invariant NDIM onlyTranspose
    (fun g => (g.dims.length = NDIM ∧ g.dimsComplex.length = NDIM ∧ g.permute.length = NDIM)
      ∧ halvedAxisFollows NDIM g) ?_ ops (m, g) s
    (halvedAxis_init dbl NDIM name origin extent dims g hnew) hrun
  intro s s1 op hP hok hs
  cases op with
  | transpose dimA dimB =>
    simp only [GridOp.step] at hs
    exact halvedAxis_step NDIM _ _ _ _ _ _ hP hs
  | _ => simp [onlyTranspose] at hok

/-- C11 (amended): in every grid state reachable from `gridRegular_new` by any
sequence of `gridRegular_transpose` calls, `dimsComplex` equals `dims` with
the slot that holds original axis 0 halved plus one: in every slot `d`,
`dimsComplex[d] = dims[d] / 2 + 1` if `permute[d] = 0` and
`dimsComplex[d] = dims[d]` otherwise; so the claimed form (slot 0 halved) holds
exactly while `permute[0] = 0`. -/
theorem dimsComplex_halved_slot_follows_axis0 {R : Type} (dbl : DblOps R) (NDIM : Nat)
    (s : Mem × gridRegular R) (h : Reachable dbl NDIM onlyTranspose s) :
    halvedAxisFollows NDIM s.2
    ∧ (s.2.permute[0]? = some 0 → ∀ d, d < NDIM → ∃ x, s.2.dims[d]? = some x ∧
        s.2.dimsComplex[d]? = some (if d = 0 then x / 2 + 1 else x)) := by
  have hinv := reachable_halvedAxis dbl NDIM s h
  have hbij := permInv_isBijection NDIM _ (reachable_permInv dbl NDIM s h)
  refine ⟨hinv.2, fun h0 d hd => ?_⟩
  obtain ⟨x, hx, hc⟩ := hinv.2 d hd
  refine ⟨x, hx, ?_⟩
  rw [hc]
  by_cases hd0 : d = 0
  · subst hd0
    simp [h0]
  · have hne : ¬ (s.2.permute[d]? = some 0) := by
      intro hpd
      exact hd0 (hbij.2.2.1 d 0 hd (by omega) (hpd.trans h0.symm))
    simp [hne, hd0]

/-- Witness of C11 (amended): the grid after `transpose(0,1)`. -/
theorem dimsComplex_halved_slot_follows_axis0_witness :
    Reachable intDbl 3 onlyTranspose transposedState ∧
    halvedAxisFollows 3 transposedState.2 :=
  ⟨⟨emptyMem, "grid", [0, 0, 0], [8, 8, 8], [4, 10, 6], [.transpose 0 1], by decide⟩,
   (dimsComplex_halved_slot_follows_axis0 intDbl 3 transposedState
      ⟨emptyMem, "grid", [0, 0, 0], [8, 8, 8], [4, 10, 6], [.transpose 0 1], by decide⟩).1⟩

/-- C11 as stated fails: after `transpose(0,1)` on the grid with dims
`(4,10,6)` the dims are `(10,4,6)` and dimsComplex is `(10,3,6)`:
`dimsComplex[0] = 10`, not `dims[0] / 2 + 1 = 6`, and `dimsComplex[1] = 3`, not
`dims[1] = 4`. -/
theorem dimsComplex_slot0_not_halved_after_transpose :
    (exampleGrid.bind (fun g => runOps 3 onlyTranspose (emptyMem, g) [.transpose 0 1])).map
      (fun s => (s.2.dims, s.2.dimsComplex,
        decide (s.2.dimsComplex.getD 0 0 = s.2.dims.getD 0 0 / 2 + 1),
        decide (s.2.dimsComplex.getD 1 0 = s.2.dims.getD 1 0)))
      = some ([10, 4, 6], [10, 3, 6], false, false) := by
  decide

theorem transposeOneVar_spec (NDIM a b : Nat) (acc : Mem × gridPatch) (i : Nat)
    (hwf : acc.2.aligned) (hi : i < acc.2.vars.length) :
    ∃ m1, transposeOneVar NDIM a b acc i =
      some (m1, { acc.2 with varData := acc.2.varData.set i acc.1.bufs.length }) := by
  have hwf' := hwf
  unfold gridPatch.aligned at hwf'
  have hi2 : i < acc.2.varData.length := by omega
  obtain ⟨var, hvar, _⟩ := getVarHandle_some acc.2 i hi
  obtain ⟨ds, hds, _⟩ := getDimsActual_some NDIM acc.2 i hi
  have h2 : (i : Int) ≥ 0 ∧ (i : Int) < acc.2.varData.length := ⟨by omega, by omega⟩
  have hdata : gridPatch_getVarDataHandle acc.2 (i : Int) = some acc.2.varData[i] := by
    simp only [gridPatch_getVarDataHandle, varArr_getElementHandle, h2, and_self,
      not_true_eq_false, if_false, Int.toNat_ofNat]
    exact List.getElem?_eq_getElem hi2
  have hvar1 : gridPatch_getVarHandle
      { acc.2 with varData := acc.2.varData.set i acc.1.bufs.length } (i : Int) = some var := by
    simpa only [gridPatch_getVarHandle] using hvar
  refine ⟨gridVar_freeMemory
    { acc.1 with bufs := acc.1.bufs ++ [transposedBytes acc.1 acc.2.varData[i]
        (gridVar_getSizePerElement var) ds a b] } var acc.2.varData[i], ?_⟩
  simp only [transposeOneVar, hdata, hvar, hds, gridPatch_replaceVarData, h2, and_self,
    not_true_eq_false, if_false, varArr_replace, Int.toNat_ofNat,
    List.getElem?_eq_getElem hi2, Option.map_some', hvar1]

theorem gridPatch_transpose_spec (NDIM : Nat) (m : Mem) (p : gridPatch) (dimA dimB : Int)
    (hA : 0 ≤ dimA ∧ dimA < NDIM) (hB : 0 ≤ dimB ∧ dimB < NDIM) (hwf : p.aligned) :
    ∃ m1 p1, gridPatch_transpose NDIM m p dimA dimB = some (m1, p1)
      ∧ p1.dims = LOCAL_SWAP p.dims dimA.toNat dimB.toNat
      ∧ p1.idxLo = LOCAL_SWAP p.idxLo dimA.toNat dimB.toNat
      ∧ p1.vars = p.vars ∧ p1.varData.length = p.varData.length
      ∧ p1.self = p.self ∧ p1.numCells = p.numCells := by
  obtain ⟨⟨m1, p1⟩, hr, hP⟩ := foldlM_option_some
    (fun (acc : Mem × gridPatch) => acc.2.vars = p.vars ∧ acc.2.dims = p.dims
      ∧ acc.2.idxLo = p.idxLo ∧ acc.2.varData.length = p.varData.length
      ∧ acc.2.self = p.self ∧ acc.2.numCells = p.numCells)
    (transposeOneVar NDIM dimA.toNat dimB.toNat) (List.range p.vars.length)
    (by
      intro acc i hacc hi
      obtain ⟨h1, h2, h3, h4, h5, h6⟩ := hacc
      have hal : acc.2.aligned := by
        unfold gridPatch.aligned at hwf ⊢
        rw [h4, h1, hwf]
      obtain ⟨m1, hr⟩ := transposeOneVar_spec NDIM dimA.toNat dimB.toNat acc i hal
        (by rw [h1]; exact List.mem_range.mp hi)
      exact ⟨_, hr, h1, h2, h3, by simp [h4], h5, h6⟩)
    (m, p) ⟨rfl, rfl, rfl, rfl, rfl, rfl⟩
  obtain ⟨h1, h2, h3, h4, h5, h6⟩ := hP
  simp only at h1 h2 h3 h4 h5 h6
  have hA' : dimA ≥ 0 ∧ dimA < NDIM := hA
  have hB' : dimB ≥ 0 ∧ dimB < NDIM := hB
  refine ⟨m1,
    ({ p1 with idxLo := LOCAL_SWAP p1.idxLo dimA.toNat dimB.toNat,
               dims := LOCAL_SWAP p1.dims dimA.toNat dimB.toNat } : gridPatch),
    ?_, ?_, ?_, h1, h4, h5, h6⟩
  · simp only [gridPatch_transpose, hA', hB', and_self, not_true_eq_false, if_false, hr]
  · simp only [h2]
  · simp only [h3]

theorem forall₂_map_eq {α β : Type} (f : α → β) (Q : α → α → Prop)
    (hQ : ∀ a b, Q a b → f b = f a) :
    ∀ (l l1 : List α), List.Forall₂ Q l l1 → l1.map f = l.map f := by
  intro l l1 h
  induction h with
  | nil => rfl
  | cons hab _ ih => rw [List.map_cons, List.map_cons, hQ _ _ hab, ih]

theorem forall₂_trans_mem {α : Type} (Q1 Q2 Q3 : α → α → Prop)
    (hQ : ∀ a b c, Q1 a b → Q2 b c → Q3 a c) :
    ∀ (l l1 l2 : List α), List.Forall₂ Q1 l l1 → List.Forall₂ Q2 l1 l2 → List.Forall₂ Q3 l l2 := by
  intro l l1 l2 h1
  induction h1 generalizing l2 with
  | nil => intro h2; cases h2; exact List.Forall₂.nil
  | cons hab _ ih =>
    intro h2
    cases h2 with
    | cons hbc htl => exact List.Forall₂.cons (hQ _ _ _ hab hbc) (ih _ htl)

theorem forall₂_mem_right {α : Type} (Q : α → α → Prop) (P1 P2 : α → Prop)
    (hQ : ∀ a b, Q a b → P1 a → P2 b) :
    ∀ (l l1 : List α), List.Forall₂ Q l l1 → (∀ a ∈ l, P1 a) → ∀ b ∈ l1, P2 b := by
  intro l l1 h
  induction h with
  | nil => intro _ b hb; exact absurd hb (List.not_mem_nil _)
  | cons hab _ ih =>
    intro hall b hb
    rcases List.mem_cons.mp hb with rfl | hb
    · exact hQ _ _ hab (hall _ (List.mem_cons_self _ _))
    · exact ih (fun q hq => hall q (List.mem_cons_of_mem _ hq)) b hb

theorem gridRegular_transpose_spec {R : Type} (NDIM : Nat) (m : Mem) (g : gridRegular R)
    (dimA dimB : Int) (hA : 0 ≤ dimA ∧ dimA < NDIM) (hB : 0 ≤ dimB ∧ dimB < NDIM)
    (hwf : ∀ p ∈ g.patches, p.aligned) :
    ∃ m1 ps1, gridRegular_transpose NDIM m g dimA dimB =
        some (m1, { g with origin := LOCAL_SWAP g.origin dimA.toNat dimB.toNat
                           extent := LOCAL_SWAP g.extent dimA.toNat dimB.toNat
                           delta := LOCAL_SWAP g.delta dimA.toNat dimB.toNat
                           dims := LOCAL_SWAP g.dims dimA.toNat dimB.toNat
                           dimsComplex := LOCAL_SWAP g.dimsComplex dimA.toNat dimB.toNat
                           permute := LOCAL_SWAP g.permute dimA.toNat dimB.toNat
                           patches := ps1 })
      ∧ List.Forall₂ (fun p p1 => p1.dims = LOCAL_SWAP p.dims dimA.toNat dimB.toNat
          ∧ p1.vars = p.vars ∧ p1.aligned) g.patches ps1 := by
  obtain ⟨m1, ps1, hfor, hrel⟩ := forEachPatch_some
    (fun m p => gridPatch_transpose NDIM m p dimA dimB)
    (fun p p1 => p1.dims = LOCAL_SWAP p.dims dimA.toNat dimB.toNat
          ∧ p1.vars = p.vars ∧ p1.aligned) g.patches
    (by
      intro p hp m0
      obtain ⟨m1, p1, h, h1, _, h3, h4, _, _⟩ :=
        gridPatch_transpose_spec NDIM m0 p dimA dimB hA hB (hwf p hp)
      refine ⟨m1, p1, h, h1, h3, ?_⟩
      have := hwf p hp
      unfold gridPatch.aligned at this ⊢
      rw [h4, h3, this])
    m
  have hA' : dimA ≥ 0 ∧ dimA < NDIM := hA
  have hB' : dimB ≥ 0 ∧ dimB < NDIM := hB
  refine ⟨m1, ps1, ?_, hrel⟩
  simp only [gridRegular_transpose, hA', hB', and_self, not_true_eq_false, if_false, hfor,
    Option.map_some']

/-- C13: for every grid (its patches index-aligned) and all axes `a`, `b` in
`[0, NDIM)`, two successive calls `gridRegular_transpose(grid, a, b)` both
return, and afterwards origin, extent, delta, dims, dimsComplex and the
permutation vector are what they were before, the variables, the name and the
reference count too, and the owned patches have, position by position, the
same dims as before. -/
theorem gridRegular_transpose_twice {R : Type} (NDIM : Nat) (m : Mem) (g : gridRegular R)
    (dimA dimB : Int) (hA : 0 ≤ dimA ∧ dimA < NDIM) (hB : 0 ≤ dimB ∧ dimB < NDIM)
    (hwf : ∀ p ∈ g.patches, p.aligned) :
    ∃ m1 g1 m2 g2,
      gridRegular_transpose NDIM m g dimA dimB = some (m1, g1)
      ∧ gridRegular_transpose NDIM m1 g1 dimA dimB = some (m2, g2)
      ∧ g2.origin = g.origin ∧ g2.extent = g.extent ∧ g2.delta = g.delta
      ∧ g2.dims = g.dims ∧ g2.dimsComplex = g.dimsComplex ∧ g2.permute = g.permute
      ∧ g2.name = g.name ∧ g2.vars = g.vars ∧ g2.refCounter = g.refCounter
      ∧ g2.patches.map (fun p => p.dims) = g.patches.map (fun p => p.dims) := by
  obtain ⟨m1, ps1, h1, hrel1⟩ := gridRegular_transpose_spec NDIM m g dimA dimB hA hB hwf
  have hwf1 : ∀ p ∈ ps1, p.aligned :=
    forall₂_mem_right _ (fun _ => True) (fun p => p.aligned) (fun _ _ hq _ => hq.2.2) _ _ hrel1
      (fun _ _ => trivial)
  obtain ⟨m2, ps2, h2, hrel2⟩ := gridRegular_transpose_spec NDIM m1
    { g with origin := LOCAL_SWAP g.origin dimA.toNat dimB.toNat
             extent := LOCAL_SWAP g.extent dimA.toNat dimB.toNat
             delta := LOCAL_SWAP g.delta dimA.toNat dimB.toNat
             dims := LOCAL_SWAP g.dims dimA.toNat dimB.toNat
             dimsComplex := LOCAL_SWAP g.dimsComplex dimA.toNat dimB.toNat
             permute := LOCAL_SWAP g.permute dimA.toNat dimB.toNat
             patches := ps1 } dimA dimB hA hB hwf1
  have hrel := forall₂_trans_mem _ _ (fun (p p2 : gridPatch) => p2.dims = p.dims)
    (by
      intro a b c hab hbc
      rw [hbc.1, hab.1, LOCAL_SWAP_LOCAL_SWAP])
    _ _ _ hrel1 hrel2
  refine ⟨m1, _, m2, _, h1, h2, ?_, ?_, ?_, ?_, ?_, ?_, rfl, rfl, rfl, ?_⟩
  · exact LOCAL_SWAP_LOCAL_SWAP _ _ _
  · exact LOCAL_SWAP_LOCAL_SWAP _ _ _
  · exact LOCAL_SWAP_LOCAL_SWAP _ _ _
  · exact LOCAL_SWAP_LOCAL_SWAP _ _ _
  · exact LOCAL_SWAP_LOCAL_SWAP _ _ _
  · exact LOCAL_SWAP_LOCAL_SWAP _ _ _
  · exact forall₂_map_eq (fun (p : gridPatch) => p.dims)
      (fun (p p2 : gridPatch) => p2.dims = p.dims) (fun a b h => h) _ _ hrel

/-- Witness of C13: `transpose(0,1)` twice on the grid of `alignedState`,
which owns one patch carrying one variable. -/
theorem gridRegular_transpose_twice_witness :
    ∃ m1 g1 m2 g2,
      gridRegular_transpose 3 alignedState.1 alignedState.2 0 1 = some (m1, g1)
      ∧ gridRegular_transpose 3 m1 g1 0 1 = some (m2, g2)
      ∧ g2.origin = alignedState.2.origin ∧ g2.extent = alignedState.2.extent
      ∧ g2.delta = alignedState.2.delta
      ∧ g2.dims = alignedState.2.dims ∧ g2.dimsComplex = alignedState.2.dimsComplex
      ∧ g2.permute = alignedState.2.permute
      ∧ g2.name = alignedState.2.name ∧ g2.vars = alignedState.2.vars
      ∧ g2.refCounter = alignedState.2.refCounter
      ∧ g2.patches.map (fun p => p.dims) = alignedState.2.patches.map (fun p => p.dims) :=
  gridRegular_transpose_twice 3 alignedState.1 alignedState.2 0 1 (by decide) (by decide)
    (by
      intro p hp
      simp only [alignedState, List.mem_singleton] at hp
      subst hp
      rfl)

theorem entriesExchanged_LOCAL_SWAP {α : Type} (l : List α) (a b : Nat) (ha : a < l.length)
    (hb : b < l.length) : EntriesExchanged l (LOCAL_SWAP l a b) a b := by
  refine ⟨LOCAL_SWAP_length l a b, ?_, ?_, ?_⟩
  · rw [LOCAL_SWAP_getElem? l a b a ha hb]
    by_cases h : a = b
    · subst h; simp
    · simp [h]
  · rw [LOCAL_SWAP_getElem? l a b b ha hb]
    simp
  · intro d h1 h2
    rw [LOCAL_SWAP_getElem? l a b d ha hb]
    simp [h1, h2]

/-- C14: on a grid whose six per-axis vectors have `NDIM` entries (its patches
index-aligned), `gridRegular_transpose(grid, a, b)` with `a`, `b` in
`[0, NDIM)` returns and exchanges entries `a` and `b` of each of origin,
extent, delta, dims, dimsComplex and permute, keeps every other entry of those
vectors, and leaves the name, the variable sequence, the number of owned
patches and the reference count unchanged; with `a = b` the six vectors are
unchanged. -/
theorem gridRegular_transpose_frame {R : Type} (NDIM : Nat) (m : Mem) (g : gridRegular R)
    (dimA dimB : Int) (hA : 0 ≤ dimA ∧ dimA < NDIM) (hB : 0 ≤ dimB ∧ dimB < NDIM)
    (hgeo : geometryHasNDIM NDIM g) (hwf : ∀ p ∈ g.patches, p.aligned) :
    ∃ m1 g1,
      gridRegular_transpose NDIM m g dimA dimB = some (m1, g1)
      ∧ EntriesExchanged g.origin g1.origin dimA.toNat dimB.toNat
      ∧ EntriesExchanged g.extent g1.extent dimA.toNat dimB.toNat
      ∧ EntriesExchanged g.delta g1.delta dimA.toNat dimB.toNat
      ∧ EntriesExchanged g.dims g1.dims dimA.toNat dimB.toNat
      ∧ EntriesExchanged g.dimsComplex g1.dimsComplex dimA.toNat dimB.toNat
      ∧ EntriesExchanged g.permute g1.permute dimA.toNat dimB.toNat
      ∧ g1.name = g.name ∧ g1.vars = g.vars ∧ g1.patches.length = g.patches.length
      ∧ g1.refCounter = g.refCounter
      ∧ (dimA = dimB → g1.origin = g.origin ∧ g1.extent = g.extent ∧ g1.delta = g.delta
          ∧ g1.dims = g.dims ∧ g1.dimsComplex = g.dimsComplex ∧ g1.permute = g.permute) := by
  obtain ⟨m1, ps1, h1, hrel⟩ := gridRegular_transpose_spec NDIM m g dimA dimB hA hB hwf
  obtain ⟨l1, l2, l3, l4, l5, l6⟩ := hgeo
  have ha : dimA.toNat < NDIM := by omega
  have hb : dimB.toNat < NDIM := by omega
  refine ⟨m1, _, h1,
    entriesExchanged_LOCAL_SWAP _ _ _ (by omega) (by omega),
    entriesExchanged_LOCAL_SWAP _ _ _ (by omega) (by omega),
    entriesExchanged_LOCAL_SWAP _ _ _ (by omega) (by omega),
    entriesExchanged_LOCAL_SWAP _ _ _ (by omega) (by omega),
    entriesExchanged_LOCAL_SWAP _ _ _ (by omega) (by omega),
    entriesExchanged_LOCAL_SWAP _ _ _ (by omega) (by omega),
    rfl, rfl, hrel.length_eq.symm, rfl, ?_⟩
  intro hab
  subst hab
  exact ⟨LOCAL_SWAP_self _ _, LOCAL_SWAP_self _ _, LOCAL_SWAP_self _ _, LOCAL_SWAP_self _ _,
    LOCAL_SWAP_self _ _, LOCAL_SWAP_self _ _⟩

/-- Witness of C14: `transpose(0,1)` on the grid of `alignedState`. -/
theorem gridRegular_transpose_frame_witness :
    (geometryHasNDIM 3 alignedState.2) ∧
    ∃ m1 g1,
      gridRegular_transpose 3 alignedState.1 alignedState.2 0 1 = some (m1, g1)
      ∧ EntriesExchanged alignedState.2.dims g1.dims 0 1
      ∧ EntriesExchanged alignedState.2.permute g1.permute 0 1
      ∧ g1.patches.length = alignedState.2.patches.length :=
  ⟨⟨rfl, rfl, rfl, rfl, rfl, rfl⟩,
   (gridRegular_transpose_frame 3 alignedState.1 alignedState.2 0 1 (by decide) (by decide)
      ⟨rfl, rfl, rfl, rfl, rfl, rfl⟩
      (by
        intro p hp
        simp only [alignedState, List.mem_singleton] at hp
        subst hp
        rfl)).imp
    (fun _ h1 => h1.imp (fun _ h => ⟨h.1, h.2.2.2.2.1, h.2.2.2.2.2.2.1, h.2.2.2.2.2.2.2.2.2.1⟩))⟩

/-! ## Theorems: reference counting of the grid -/

theorem gridPatch_del_loop (self : Nat) (idxLo dims : List Nat) (numCells : Nat) (l : List Nat) :
    ∀ (m : Mem) (vars : List gridVar) (varData : List Nat),
      varData.length = l.length → vars.length = l.length →
      l.foldlM
        (fun (acc : Mem × gridPatch) (_ : Nat) =>
          match varArr_remove acc.2.vars 0, varArr_remove acc.2.varData 0 with
          | some (vars1, var), some (varData1, data) =>
            some (gridVar_freeMemory acc.1 var data,
                  { acc.2 with vars := vars1, varData := varData1 })
          | _, _ => none)
        (m, ⟨self, idxLo, dims, numCells, vars, varData⟩)
      = some ({ m with freed := m.freed ++ varData }, ⟨self, idxLo, dims, numCells, [], []⟩) := by
  induction l with
  | nil =>
    intro m vars varData h1 h2
    have e1 : varData = [] := List.length_eq_zero.mp h1
    have e2 : vars = [] := List.length_eq_zero.mp h2
    subst e1; subst e2
    simp
  | cons a l ih =>
    intro m vars varData h1 h2
    cases varData with
    | nil => simp at h1
    | cons d ds =>
      cases vars with
      | nil => simp at h2
      | cons v vs =>
        have hl1 : ds.length = l.length := by simpa using h1
        have hl2 : vs.length = l.length := by simpa using h2
        have hstep := ih (gridVar_freeMemory m v d) vs ds hl1 hl2
        have r1 : varArr_remove (v :: vs) 0 = some (vs, v) := by
          simp [varArr_remove]
        have r2 : varArr_remove (d :: ds) 0 = some (ds, d) := by
          simp [varArr_remove]
        simp only [List.foldlM_cons, r1, r2, bind, Option.bind]
        rw [hstep]
        simp [gridVar_freeMemory]

theorem gridPatch_del_eq (m : Mem) (p : gridPatch) (hwf : p.aligned) :
    gridPatch_del m p = some { m with freed := m.freed ++ p.varData } := by
  unfold gridPatch.aligned at hwf
  unfold gridPatch_del
  obtain ⟨self, idxLo, dims, numCells, vars, varData⟩ := p
  rw [gridPatch_del_loop self idxLo dims numCells (List.range varData.length) m vars varData
    (by simp) (by simpa using hwf.symm)]
  rfl

theorem local_freePatches_eq :
    ∀ (ps : List gridPatch) (m : Mem), (∀ p ∈ ps, p.aligned) →
      local_freePatches m ps
        = some { m with freed := m.freed ++ (ps.map (fun p => p.varData)).flatten } := by
  intro ps
  induction ps with
  | nil => intro m _; simp [local_freePatches]
  | cons p ps ih =>
    intro m hwf
    simp only [local_freePatches, gridPatch_del_eq m p (hwf p (List.mem_cons_self _ _))]
    rw [ih _ (fun q hq => hwf q (List.mem_cons_of_mem _ hq))]
    simp

theorem gridRegular_del_shared {R : Type} (m : Mem) (g : gridRegular R)
    (hc : 2 ≤ g.refCounter) :
    gridRegular_del m (some g) = some (m, some { g with refCounter := g.refCounter - 1 }) := by
  have h : ¬ (g.refCounter - 1 = 0) := by omega
  simp [gridRegular_del, refCounter_deref, h]

theorem gridRegular_del_last {R : Type} (m : Mem) (g : gridRegular R)
    (hc : g.refCounter = 1) (hwf : ∀ p ∈ g.patches, p.aligned) :
    gridRegular_del m (some g)
      = some ({ m with freed := m.freed ++ (g.patches.map (fun p => p.varData)).flatten },
              none) := by
  simp [gridRegular_del, refCounter_deref, hc, local_freePatches_eq g.patches m hwf,
    local_freeVars]

theorem runRefOps_alive {R : Type} (m : Mem) :
    ∀ (ops : List RefOp) (g : gridRegular R),
      (∀ k, k ≤ ops.length →
        (ops.take k).count RefOp.del + 1 ≤ (ops.take k).count RefOp.getRef + g.refCounter) →
      runRefOps (m, some g) ops
        = some (m, some { g with refCounter :=
            g.refCounter + ops.count RefOp.getRef - ops.count RefOp.del })
      ∧ ops.count RefOp.del + 1 ≤ ops.count RefOp.getRef + g.refCounter := by
  intro ops
  induction ops with
  | nil =>
    intro g h
    have := h 0 (Nat.le_refl _)
    simp at this
    exact ⟨by simp [runRefOps], by simpa using this⟩
  | cons op rest ih =>
    intro g h
    cases op with
    | getRef =>
      have hrest : ∀ k, k ≤ rest.length →
          (rest.take k).count RefOp.del + 1
            ≤ (rest.take k).count RefOp.getRef + (gridRegular_getRef g).refCounter := by
        intro k hk
        have := h (k + 1) (by simp; omega)
        simp only [List.take_succ_cons, List.count_cons, beq_iff_eq, if_true,
          gridRegular_getRef, refCounter_ref] at this ⊢
        simp at this
        omega
      obtain ⟨hrun, hcnt⟩ := ih (gridRegular_getRef g) hrest
      simp only [gridRegular_getRef, refCounter_ref] at hrun hcnt
      refine ⟨?_, ?_⟩
      · simp only [runRefOps, RefOp.step, gridRegular_getRef, refCounter_ref, hrun]
        simp only [List.count_cons, beq_iff_eq, if_true]
        simp
        congr 1
        omega
      · simp only [List.count_cons, beq_iff_eq, if_true]
        simp
        omega
    | del =>
      have h1 := h 1 (by simp)
      simp at h1
      have hc : 2 ≤ g.refCounter := by omega
      have hrest : ∀ k, k ≤ rest.length →
          (rest.take k).count RefOp.del + 1
            ≤ (rest.take k).count RefOp.getRef + (g.refCounter - 1) := by
        intro k hk
        have := h (k + 1) (by simp; omega)
        simp only [List.take_succ_cons, List.count_cons, beq_iff_eq, if_true] at this
        simp at this
        omega
      obtain ⟨hrun, hcnt⟩ := ih { g with refCounter := g.refCounter - 1 } hrest
      simp only at hrun hcnt
      refine ⟨?_, ?_⟩
      · simp only [runRefOps, RefOp.step, gridRegular_del_shared m g hc, hrun]
        simp only [List.count_cons, beq_iff_eq, if_true]
        simp
        omega
      · simp only [List.count_cons, beq_iff_eq, if_true]
        simp
        omega

/-- C16 (amended): after `gridRegular_new`, along every interleaving of `N`
`gridRegular_getRef` and `M` `gridRegular_del` calls in which every prefix has
at most as many `del` as `getRef` calls, no call aborts, the grid is not
released (the handle is not `NULL`, nothing is freed), its count is
`1 + N - M` and every other field, name, patches and variables included, is
unchanged.  A `del` on a count of 2 or more only decrements the count and
leaves the handle; the `del` on count 1 frees the buffers of every owned patch
and sets the handle to `NULL`. -/
theorem gridRegular_refcount_discipline {R : Type} (dbl : DblOps R) (NDIM : Nat)
    (name : String) (origin extent : List R) (dims : List Nat) (g : gridRegular R) (m : Mem)
    (ops : List RefOp)
    (hnew : gridRegular_new dbl NDIM name origin extent dims = some g)
    (hpre : delsNeverAhead ops) :
    (runRefOps (m, some g) ops
        = some (m, some { g with refCounter :=
            (1 + ops.count RefOp.getRef - ops.count RefOp.del) })
      ∧ ops.count RefOp.del ≤ ops.count RefOp.getRef)
    ∧ (∀ (m1 : Mem) (g1 : gridRegular R), 2 ≤ g1.refCounter →
        gridRegular_del m1 (some g1)
          = some (m1, some { g1 with refCounter := g1.refCounter - 1 }))
    ∧ (∀ (m1 : Mem) (g1 : gridRegular R), g1.refCounter = 1 →
        (∀ p ∈ g1.patches, p.aligned) →
        gridRegular_del m1 (some g1)
          = some ({ m1 with freed := m1.freed ++ (g1.patches.map (fun p => p.varData)).flatten },
                  none)) := by
  have hc : g.refCounter = 1 :=
    (gridRegular_new_fields dbl NDIM name origin extent dims g hnew).2.2.2.1
  obtain ⟨hrun, hcnt⟩ := runRefOps_alive m ops g (by
    intro k hk
    have := hpre k hk
    omega)
  rw [hc] at hrun hcnt
  exact ⟨⟨hrun, by omega⟩, fun m1 g1 h => gridRegular_del_shared m1 g1 h,
    fun m1 g1 h hwf => gridRegular_del_last m1 g1 h hwf⟩

/-- C16 as stated fails: in the interleaving `del, getRef` (`N = M = 1`, so
`M <= N`) the first call already brings the count of the new grid to zero and
releases it (the handle becomes `NULL`), and the following `getRef` aborts on
its assertion. -/
theorem gridRegular_del_before_getRef_releases :
    (exampleGrid.bind (fun g => RefOp.step (emptyMem, some g) RefOp.del))
      = some (emptyMem, none)
    ∧ (exampleGrid.bind (fun g => runRefOps (emptyMem, some g) [RefOp.del, RefOp.getRef]))
      = none
    ∧ [RefOp.del, RefOp.getRef].count RefOp.del ≤ [RefOp.del, RefOp.getRef].count RefOp.getRef := by
  decide

/-- Witness of C16 (amended): the interleaving `getRef, del, getRef` on the
new grid `exampleGridValue`. -/
theorem gridRegular_refcount_discipline_witness :
    delsNeverAhead [RefOp.getRef, RefOp.del, RefOp.getRef] ∧
    runRefOps (emptyMem, some exampleGridValue) [RefOp.getRef, RefOp.del, RefOp.getRef]
      = some (emptyMem, some { exampleGridValue with refCounter :=
          (1 + [RefOp.getRef, RefOp.del, RefOp.getRef].count RefOp.getRef
            - [RefOp.getRef, RefOp.del, RefOp.getRef].count RefOp.del) }) :=
  ⟨by unfold delsNeverAhead; decide,
   (gridRegular_refcount_discipline intDbl 3 "grid" [0, 0, 0] [8, 8, 8] [4, 10, 6]
      exampleGridValue emptyMem [RefOp.getRef, RefOp.del, RefOp.getRef] (by decide)
      (by unfold delsNeverAhead; decide)).1.1⟩

/-! ## Theorems: the communication scheme -/

/-- C12 (amended): `commScheme_addBuffer` does not look at the peer rank of the
buffer.  For every scheme in `PREFIRE` and every buffer, whatever its rank,
also below 0 or at or above the scheme's size, `addBuffer` with direction
`SEND` appends the buffer to the send sequence and returns its position, and
with direction `RECV` appends it to the receive sequence and returns its
position; it does not abort. -/
theorem commScheme_addBuffer_ignores_rank (scheme : commScheme) (buffer : commSchemeBuffer)
    (hpre : scheme.status = commSchemeStatus.PREFIRE) :
    commScheme_addBuffer scheme buffer COMMSCHEME_TYPE_SEND
      = some ({ scheme with buffersSend := scheme.buffersSend ++ [buffer] },
              (scheme.buffersSend.length : Int))
    ∧ commScheme_addBuffer scheme buffer COMMSCHEME_TYPE_RECV
      = some ({ scheme with buffersRecv := scheme.buffersRecv ++ [buffer] },
              (scheme.buffersRecv.length : Int)) := by
  constructor
  · simp [commScheme_addBuffer, hpre, varArr_insert]
  · have h : ¬ (COMMSCHEME_TYPE_RECV = COMMSCHEME_TYPE_SEND) := by decide
    simp [commScheme_addBuffer, hpre, varArr_insert, h]

/-- Witness of C12 (amended): the send buffer with peer rank 7 on the new
scheme of a 4-process communicator. -/
theorem commScheme_addBuffer_ignores_rank_witness :
    exampleScheme.status = commSchemeStatus.PREFIRE ∧
    commScheme_new exampleComm 5 = some exampleScheme ∧
    commScheme_addBuffer exampleScheme bufferRank7 COMMSCHEME_TYPE_SEND
      = some ({ exampleScheme with buffersSend := exampleScheme.buffersSend ++ [bufferRank7] },
              (exampleScheme.buffersSend.length : Int)) :=
  ⟨rfl, by decide, (commScheme_addBuffer_ignores_rank exampleScheme bufferRank7 rfl).1⟩

/-- C12 as stated fails: on a new scheme of a 4-process communicator,
`addBuffer` of a send buffer with peer rank 7 returns position 0 with the
buffer registered, and `addBuffer` of a receive buffer with peer rank -1
likewise. -/
theorem commScheme_addBuffer_registers_bad_rank :
    ((commScheme_new exampleComm 5).bind
        (fun s => commScheme_addBuffer s bufferRank7 COMMSCHEME_TYPE_SEND)).map
      (fun r => (r.1.size, r.1.buffersSend, r.2)) = some (4, [bufferRank7], 0)
    ∧ ((commScheme_new exampleComm 5).bind
        (fun s => commScheme_addBuffer s bufferRankNeg COMMSCHEME_TYPE_RECV)).map
      (fun r => (r.1.size, r.1.buffersRecv, r.2)) = some (4, [bufferRankNeg], 0) := by
  decide

/-! ## Theorems: detaching a buffer, actual extents -/

theorem getDimActual1D_eq (NDIM : Nat) (patch : gridPatch) (v d : Nat) (var : gridVar)
    (hvar : patch.vars[v]? = some var) (hd : d < NDIM) :
    gridPatch_getDimActual1D NDIM patch (v : Int) (d : Int)
      = some (if gridVar_isFFTWPadded var ∧ d = 0 then
                (2 * ((patch.dims.getD 0 0 / 2 + 1) % U32)) % U32
              else patch.dims.getD d 0) := by
  have hv : v < patch.vars.length := by
    rcases Nat.lt_or_ge v patch.vars.length with h | h
    · exact h
    · rw [List.getElem?_eq_none h] at hvar; cases hvar
  obtain ⟨var1, hh, hh2⟩ := getVarHandle_some patch v hv
  rw [hvar] at hh2
  cases hh2
  have h1 : (v : Int) ≥ 0 ∧ (v : Int) < patch.vars.length := ⟨by omega, by omega⟩
  have h2 : (d : Int) ≥ 0 ∧ (d : Int) < NDIM := ⟨by omega, by omega⟩
  simp only [gridPatch_getDimActual1D, h1, h2, and_self, not_true_eq_false, if_false, hh,
    Int.toNat_ofNat]
  by_cases hc : gridVar_isFFTWPadded var ∧ d = 0
  · have hd0 : d = 0 := hc.2
    subst hd0
    simp [hc]
  · have hc2 : ¬ (gridVar_isFFTWPadded var ∧ (d : Int) = 0) := by
      intro h; exact hc ⟨h.1, by exact_mod_cast h.2⟩
    simp only [hc, hc2, if_false]

theorem range_map_getD_eq (l : List Nat) :
    (List.range l.length).map (fun d => l.getD d 0) = l := by
  apply List.ext_getElem?
  intro i
  rcases Nat.lt_or_ge i l.length with h | h
  · rw [List.getElem?_map, List.getElem?_range h]
    simp [List.getD_eq_getElem?_getD, List.getElem?_eq_getElem h]
  · rw [List.getElem?_eq_none (by simpa using h), List.getElem?_eq_none h]

theorem getDimActual1D_actualDim (NDIM : Nat) (patch : gridPatch) (v d : Nat) (var : gridVar)
    (hvar : patch.vars[v]? = some var) (hd : d < NDIM) :
    gridPatch_getDimActual1D NDIM patch (v : Int) (d : Int) = some (actualDim patch var d) := by
  rw [getDimActual1D_eq NDIM patch v d var hvar hd]
  unfold actualDim paddedDim
  by_cases hc : gridVar_isFFTWPadded var ∧ d = 0
  · simp only [hc, and_self, if_true]
    rw [Nat.mul_mod 2 ((patch.dims.getD 0 0 / 2 + 1) % U32), Nat.mod_mod, ← Nat.mul_mod]
  · simp only [hc, if_false]

theorem mapM_option_eq_map {α β : Type} (f : α → Option β) (g : α → β) :
    ∀ (l : List α), (∀ a, a ∈ l → f a = some (g a)) → l.mapM f = some (l.map g) := by
  intro l
  induction l with
  | nil => intro _; rfl
  | cons a l ih =>
    intro hf
    rw [List.mapM_cons, hf a (List.mem_cons_self _ _),
      ih (fun a ha => hf a (List.mem_cons_of_mem _ ha))]
    rfl

theorem foldlM_option_eq_foldl {α β : Type} (f : β → α → Option β) (g : β → α → β) :
    ∀ (l : List α), (∀ b a, a ∈ l → f b a = some (g b a)) →
      ∀ b, l.foldlM f b = some (l.foldl g b) := by
  intro l
  induction l with
  | nil => intro _ b; rfl
  | cons a l ih =>
    intro hf b
    simp only [List.foldlM_cons, List.foldl_cons, hf b a (List.mem_cons_self _ _)]
    exact ih (fun b a ha => hf b a (List.mem_cons_of_mem _ ha)) _

/-- C21: on a patch whose two sequences are index-aligned, for every position
`p` below the number of buffers `gridPatch_detachVarData(patch, p)` returns the
buffer stored at `p` and leaves the patch with position `p` removed from both
sequences: the entries before `p` stay, the entries after `p` move down by one
in order, both sequences are one shorter and again of equal length, and the
geometry is untouched.  A position outside `[0, number of buffers)`, negative
ones included, is rejected. -/
theorem gridPatch_detachVarData_spec (patch : gridPatch) (hwf : patch.aligned) :
    (∀ p : Nat, p < patch.varData.length →
      ∃ data patch1, patch.varData[p]? = some data
        ∧ gridPatch_detachVarData patch (p : Int) = some (patch1, data)
        ∧ patch1.vars = patch.vars.eraseIdx p
        ∧ patch1.varData = patch.varData.eraseIdx p
        ∧ (∀ j, j < p → patch1.vars[j]? = patch.vars[j]?
              ∧ patch1.varData[j]? = patch.varData[j]?)
        ∧ (∀ j, p ≤ j → patch1.vars[j]? = patch.vars[j + 1]?
              ∧ patch1.varData[j]? = patch.varData[j + 1]?)
        ∧ patch1.varData.length + 1 = patch.varData.length
        ∧ patch1.vars.length + 1 = patch.vars.length
        ∧ patch1.aligned
        ∧ patch1.self = patch.self ∧ patch1.idxLo = patch.idxLo
        ∧ patch1.dims = patch.dims ∧ patch1.numCells = patch.numCells)
    ∧ (∀ idx : Int, ¬ (0 ≤ idx ∧ idx < patch.varData.length) →
        gridPatch_detachVarData patch idx = none) := by
  constructor
  · intro p hp
    have hal : patch.varData.length = patch.vars.length := hwf
    have hp2 : p < patch.vars.length := by omega
    obtain ⟨var, data, _, hdata, _, hdet⟩ := detachVarData_eq patch p hp2 hwf
    refine ⟨data, patchWithoutVar p patch, hdata, hdet, rfl, rfl, ?_, ?_, ?_, ?_, ?_,
      rfl, rfl, rfl, rfl⟩
    · intro j hj
      exact ⟨List.getElem?_eraseIdx_of_lt _ _ _ hj, List.getElem?_eraseIdx_of_lt _ _ _ hj⟩
    · intro j hj
      exact ⟨List.getElem?_eraseIdx_of_ge _ _ _ hj, List.getElem?_eraseIdx_of_ge _ _ _ hj⟩
    · simp only [patchWithoutVar, List.length_eraseIdx_of_lt hp]
      omega
    · simp only [patchWithoutVar, List.length_eraseIdx_of_lt hp2]
      omega
    · simp only [gridPatch.aligned, patchWithoutVar, List.length_eraseIdx_of_lt hp,
        List.length_eraseIdx_of_lt hp2, hal]
  · intro idx hidx
    have h : ¬ (idx ≥ 0 ∧ idx < patch.varData.length) := fun h => hidx ⟨h.1, h.2⟩
    simp only [gridPatch_detachVarData, h, not_false_eq_true, if_true]

/-- Witness of C21: detaching the middle one of three buffers returns it and
keeps the outer two in order; positions 3 and -1 are rejected. -/
theorem gridPatch_detachVarData_spec_witness :
    threeVarPatch.aligned
    ∧ (∀ idx : Int, ¬ (0 ≤ idx ∧ idx < threeVarPatch.varData.length) →
        gridPatch_detachVarData threeVarPatch idx = none)
    ∧ (gridPatch_detachVarData threeVarPatch 1).map (fun r => (r.1.vars, r.1.varData, r.2))
        = some ([exampleVar, ⟨"vel", 4, 3, false, false⟩], [1, 3], 2)
    ∧ gridPatch_detachVarData threeVarPatch 3 = none
    ∧ gridPatch_detachVarData threeVarPatch (-1) = none :=
  ⟨rfl, (gridPatch_detachVarData_spec threeVarPatch rfl).2, by decide, by decide, by decide⟩

/-- C22 as stated fails: on the patch of extent `2^32 - 1` along axis 0 the
padded variable gets the axis-0 extent 0, not `2*(dims[0]/2 + 1) = 2^32`; and on
the patch of `2^22` cells per axis the per-axis values are the stored extents
but `gridPatch_getNumCellsActual` returns 0, not their product `2^66`. -/
theorem gridPatch_actual_dims_wrap :
    (gridPatch_new 3 100 [0, 0, 0] [4294967294, 0, 0]).map
        (fun p => ({ p with vars := [paddedVar], varData := [0] } : gridPatch)) = some widePatch
    ∧ gridPatch_getDimActual1D 3 widePatch 0 0 = some 0
    ∧ 2 * (widePatch.dims.getD 0 0 / 2 + 1) = 4294967296
    ∧ (gridPatch_new 3 100 [0, 0, 0] [4194303, 4194303, 4194303]).map
        (fun p => ({ p with vars := [exampleVar], varData := [0] } : gridPatch)) = some cubePatch
    ∧ gridPatch_getDimsActual 3 cubePatch 0 = some [4194304, 4194304, 4194304]
    ∧ gridPatch_getNumCellsActual 3 cubePatch 0 = some 0
    ∧ (4194304 * 4194304 * 4194304 : Nat) ≠ 0 := by
  decide

/-- C22 (amended): for a patch, an attached variable `v` and an axis `d` below
`NDIM`, `gridPatch_getDimActual1D` returns `2*(dims[0]/2 + 1)` reduced modulo
`2^32` (exactly `2*(dims[0]/2 + 1)` whenever that is below `2^32`) when the
descriptor requires the padded layout and `d = 0`, and `dims[d]` in every other
case; `gridPatch_getDimsActual` returns these values per axis and
`gridPatch_getNumCellsActual` their product reduced modulo `2^64` (exactly the
product whenever that is below `2^64`); for a non-padded variable of a patch
with `NDIM` extents whose `numCells` is the product of the extents modulo
`2^64`, as `gridPatch_new` stores it, that value is `numCells`. -/
theorem gridPatch_actual_dims_spec (NDIM : Nat) (patch : gridPatch) (v : Nat) (var : gridVar)
    (hvar : patch.vars[v]? = some var) :
    (∀ d, d < NDIM →
      gridPatch_getDimActual1D NDIM patch (v : Int) (d : Int)
        = some (if gridVar_isFFTWPadded var ∧ d = 0 then
                  (2 * (patch.dims.getD 0 0 / 2 + 1)) % U32
                else patch.dims.getD d 0))
    ∧ (2 * (patch.dims.getD 0 0 / 2 + 1) < U32 → ∀ d, d < NDIM →
        gridPatch_getDimActual1D NDIM patch (v : Int) (d : Int)
          = some (if gridVar_isFFTWPadded var ∧ d = 0 then 2 * (patch.dims.getD 0 0 / 2 + 1)
                  else patch.dims.getD d 0))
    ∧ gridPatch_getDimsActual NDIM patch (v : Int)
        = some ((List.range NDIM).map (actualDim patch var))
    ∧ gridPatch_getNumCellsActual NDIM patch (v : Int)
        = some (((List.range NDIM).map (actualDim patch var)).prod % U64)
    ∧ (((List.range NDIM).map (actualDim patch var)).prod < U64 →
        gridPatch_getNumCellsActual NDIM patch (v : Int)
          = some ((List.range NDIM).map (actualDim patch var)).prod)
    ∧ (gridVar_isFFTWPadded var = false → patch.dims.length = NDIM →
        patch.numCells = patch.dims.prod % U64 →
        gridPatch_getNumCellsActual NDIM patch (v : Int) = some patch.numCells) := by
  have hv : v < patch.vars.length := by
    rcases Nat.lt_or_ge v patch.vars.length with h | h
    · exact h
    · rw [List.getElem?_eq_none h] at hvar; cases hvar
  have h1 : (v : Int) ≥ 0 ∧ (v : Int) < patch.vars.length := ⟨by omega, by omega⟩
  have hone : ∀ d, d < NDIM →
      gridPatch_getDimActual1D NDIM patch (v : Int) (d : Int)
        = some (if gridVar_isFFTWPadded var ∧ d = 0 then
                  (2 * (patch.dims.getD 0 0 / 2 + 1)) % U32
                else patch.dims.getD d 0) := by
    intro d hd
    have h := getDimActual1D_actualDim NDIM patch v d var hvar hd
    simpa only [actualDim, paddedDim] using h
  have hnum : gridPatch_getNumCellsActual NDIM patch (v : Int)
      = some (((List.range NDIM).map (actualDim patch var)).prod % U64) := by
    simp only [gridPatch_getNumCellsActual, h1, and_self, not_true_eq_false, if_false]
    rw [foldlM_option_eq_foldl _
      (fun (acc : Nat) (d : Nat) => (acc * actualDim patch var d) % U64) (List.range NDIM)
      (fun b d hd => by
        rw [getDimActual1D_actualDim NDIM patch v d var hvar (List.mem_range.mp hd)]
        rfl)]
    have hf := foldl_mulmod_eq ((List.range NDIM).map (actualDim patch var))
    rw [List.foldl_map] at hf
    rw [hf]
  refine ⟨hone, ?_, ?_, hnum, ?_, ?_⟩
  · intro hlt d hd
    rw [hone d hd, Nat.mod_eq_of_lt hlt]
  · simp only [gridPatch_getDimsActual, h1, and_self, not_true_eq_false, if_false]
    exact mapM_option_eq_map _ (actualDim patch var) (List.range NDIM)
      (fun d hd => getDimActual1D_actualDim NDIM patch v d var hvar (List.mem_range.mp hd))
  · intro hlt
    rw [hnum, Nat.mod_eq_of_lt hlt]
  · intro hpad hlen hcells
    rw [hnum, hcells]
    have hmap : (List.range NDIM).map (actualDim patch var) = patch.dims := by
      rw [← hlen]
      have hfun : actualDim patch var = fun d => patch.dims.getD d 0 := by
        funext d
        simp [actualDim, hpad]
      rw [hfun]
      exact range_map_getD_eq patch.dims
    rw [hmap]

/-- Witness of C22: the 5 x 3 patch with a non-padded variable at index 0 and
a padded one at index 1. -/
theorem gridPatch_actual_dims_spec_witness :
    paddedPatch.vars[1]? = some paddedVar
    ∧ gridPatch_getDimsActual 2 paddedPatch ((1 : Nat) : Int)
        = some ((List.range 2).map (actualDim paddedPatch paddedVar))
    ∧ gridPatch_getDimsActual 2 paddedPatch 1 = some [6, 3]
    ∧ gridPatch_getNumCellsActual 2 paddedPatch 1 = some 18
    ∧ gridPatch_getNumCellsActual 2 paddedPatch 0 = some paddedPatch.numCells :=
  ⟨rfl, (gridPatch_actual_dims_spec 2 paddedPatch 1 paddedVar rfl).2.2.1,
    by decide, by decide, by decide⟩

/-! ## Theorems: the communication scheme -/

theorem startReceiving_fold (tag : Int) (comm : MPI_Comm) (bufs : List commSchemeBuffer) :
    ∀ (log : List commEvent) (rs : List MPI_Request),
      bufs.foldl
        (fun (acc : List commEvent × List MPI_Request) (buf : commSchemeBuffer) =>
          let p := MPI_Irecv acc.1 buf.buf buf.count buf.datatype buf.rank tag comm
          (p.1, acc.2 ++ [p.2]))
        (log, rs)
      = (log ++ (bufs.map (requestFor false tag)).map (commEvent.post comm),
         rs ++ bufs.map (requestFor false tag)) := by
  induction bufs with
  | nil => intro log rs; simp
  | cons b bufs ih =>
    intro log rs
    rw [List.foldl_cons]
    refine Eq.trans (ih (log ++ [commEvent.post comm (requestFor false tag b)])
      (rs ++ [requestFor false tag b])) ?_
    simp only [List.map_cons, List.append_assoc, List.singleton_append]

theorem startSending_fold (tag : Int) (comm : MPI_Comm) (bufs : List commSchemeBuffer) :
    ∀ (log : List commEvent) (rs : List MPI_Request),
      bufs.foldl
        (fun (acc : List commEvent × List MPI_Request) (buf : commSchemeBuffer) =>
          let p := MPI_Isend acc.1 buf.buf buf.count buf.datatype buf.rank tag comm
          (p.1, acc.2 ++ [p.2]))
        (log, rs)
      = (log ++ (bufs.map (requestFor true tag)).map (commEvent.post comm),
         rs ++ bufs.map (requestFor true tag)) := by
  induction bufs with
  | nil => intro log rs; simp
  | cons b bufs ih =>
    intro log rs
    rw [List.foldl_cons]
    refine Eq.trans (ih (log ++ [commEvent.post comm (requestFor true tag b)])
      (rs ++ [requestFor true tag b])) ?_
    simp only [List.map_cons, List.append_assoc, List.singleton_append]

theorem commScheme_execute_eq (log : List commEvent) (scheme : commScheme)
    (hpre : scheme.status = commSchemeStatus.PREFIRE) :
    commScheme_execute log scheme
      = some (log ++ postEvents scheme,
          { scheme with requestsRecv := some (recvRequests scheme),
                        requestsSend := some (sendRequests scheme),
                        status := commSchemeStatus.FIRING }) := by
  simp only [commScheme_execute, hpre, not_true_eq_false, if_false, local_startReceiving,
    local_startSending, startReceiving_fold, startSending_fold, List.nil_append, postEvents,
    recvRequests, sendRequests, List.append_assoc]

theorem commScheme_execute_none (log : List commEvent) (scheme : commScheme)
    (hpre : scheme.status ≠ commSchemeStatus.PREFIRE) :
    commScheme_execute log scheme = none := by
  simp only [commScheme_execute, hpre, not_false_eq_true, if_true]

theorem commScheme_wait_noop (log : List commEvent) (scheme : commScheme)
    (h : scheme.status ≠ commSchemeStatus.FIRING) :
    commScheme_wait log scheme = some (log, scheme) := by
  simp only [commScheme_wait, h, ne_eq, not_false_eq_true, if_true]

theorem commScheme_wait_eq (log : List commEvent) (scheme : commScheme)
    (hfire : scheme.status = commSchemeStatus.FIRING)
    (hs : scheme.requestsSend = some (sendRequests scheme))
    (hr : scheme.requestsRecv = some (recvRequests scheme)) :
    commScheme_wait log scheme
      = some (log ++ waitEvents scheme,
          { scheme with requestsSend := none, requestsRecv := none,
                        status := commSchemeStatus.POSTFIRE }) := by
  have hls : (sendRequests scheme).length = scheme.buffersSend.length := by
    simp [sendRequests]
  have hlr : (recvRequests scheme).length = scheme.buffersRecv.length := by
    simp [recvRequests]
  have hts : (sendRequests scheme).take scheme.buffersSend.length = sendRequests scheme := by
    rw [← hls, List.take_length]
  have htr : (recvRequests scheme).take scheme.buffersRecv.length = recvRequests scheme := by
    rw [← hlr, List.take_length]
  simp only [commScheme_wait, hfire, ne_eq, not_true_eq_false, if_false, hs, hr, MPI_Waitall,
    hls, hlr, le_refl, if_true, hts, htr, waitEvents]
  by_cases h1 : scheme.buffersSend.length > 0 <;> by_cases h2 : scheme.buffersRecv.length > 0 <;>
    simp [h1, h2]

theorem commScheme_executeBlock_eq (log : List commEvent) (scheme : commScheme)
    (hpre : scheme.status = commSchemeStatus.PREFIRE) :
    commScheme_executeBlock log scheme
      = some (log ++ postEvents scheme ++ waitEvents scheme,
          { scheme with requestsSend := none, requestsRecv := none,
                        status := commSchemeStatus.POSTFIRE }) := by
  simp only [commScheme_executeBlock, hpre, not_true_eq_false, if_false,
    commScheme_execute_eq log scheme hpre]
  exact commScheme_wait_eq (log ++ postEvents scheme)
    { scheme with requestsRecv := some (recvRequests scheme),
                  requestsSend := some (sendRequests scheme),
                  status := commSchemeStatus.FIRING } rfl rfl rfl

theorem commScheme_addBuffer_some (scheme : commScheme) (buffer : commSchemeBuffer) (type : Int)
    (r : commScheme × Int) (h : commScheme_addBuffer scheme buffer type = some r) :
    scheme.status = commSchemeStatus.PREFIRE
    ∧ (r.1 = { scheme with buffersSend := scheme.buffersSend ++ [buffer] }
        ∨ r.1 = { scheme with buffersRecv := scheme.buffersRecv ++ [buffer] }) := by
  unfold commScheme_addBuffer at h
  split at h
  · cases h
  · split at h
    · cases h
    · rename_i _ hst
      have hpre : scheme.status = commSchemeStatus.PREFIRE := not_not.mp hst
      split at h
      · cases h
        exact ⟨hpre, Or.inl rfl⟩
      · cases h
        exact ⟨hpre, Or.inr rfl⟩

theorem awaited_waitEvents (scheme : commScheme) :
    awaited (waitEvents scheme) = sendRequests scheme ++ recvRequests scheme := by
  have hs : ¬ scheme.buffersSend.length > 0 → sendRequests scheme = [] := by
    intro h
    have h0 : scheme.buffersSend = [] := List.length_eq_zero.mp (by omega)
    simp [sendRequests, h0]
  have hr : ¬ scheme.buffersRecv.length > 0 → recvRequests scheme = [] := by
    intro h
    have h0 : scheme.buffersRecv = [] := List.length_eq_zero.mp (by omega)
    simp [recvRequests, h0]
  unfold waitEvents
  by_cases h1 : scheme.buffersSend.length > 0 <;> by_cases h2 : scheme.buffersRecv.length > 0
  · simp [h1, h2, awaited]
  · simp [h1, h2, awaited, hr h2]
  · simp [h1, h2, awaited, hs h1]
  · simp [h1, h2, awaited, hs h1, hr h2]

theorem posted_map_post (comm : MPI_Comm) (rs : List MPI_Request) (es : List commEvent) :
    posted (rs.map (commEvent.post comm) ++ es) = rs ++ posted es := by
  induction rs with
  | nil => rfl
  | cons r rs ih =>
    show r :: posted (rs.map (commEvent.post comm) ++ es) = r :: (rs ++ posted es)
    rw [ih]

theorem posted_postEvents (scheme : commScheme) :
    posted (postEvents scheme) = recvRequests scheme ++ sendRequests scheme := by
  unfold postEvents
  rw [posted_map_post]
  have h := posted_map_post scheme.comm (sendRequests scheme) []
  rw [List.append_nil] at h
  rw [h]
  simp [posted]

theorem step_status (st st1 : List commEvent × commScheme) (op : SchemeOp)
    (h : op.step st = some st1) :
    statusRank st.2.status ≤ statusRank st1.2.status
    ∧ (st.2.status = commSchemeStatus.POSTFIRE → st1 = st) := by
  cases op with
  | addBuffer buffer type =>
    simp only [SchemeOp.step, Option.map_eq_some'] at h
    obtain ⟨r, hr, hst⟩ := h
    obtain ⟨hpre, hcase⟩ := commScheme_addBuffer_some st.2 buffer type r hr
    subst hst
    constructor
    · rcases hcase with hc | hc <;> simp [hc]
    · intro hpost
      rw [hpre] at hpost
      cases hpost
  | execute =>
    simp only [SchemeOp.step] at h
    by_cases hpre : st.2.status = commSchemeStatus.PREFIRE
    · rw [commScheme_execute_eq st.1 st.2 hpre] at h
      cases h
      constructor
      · simp [hpre, statusRank]
      · intro hpost
        rw [hpre] at hpost
        cases hpost
    · rw [commScheme_execute_none st.1 st.2 hpre] at h
      cases h
  | executeBlock =>
    simp only [SchemeOp.step] at h
    by_cases hpre : st.2.status = commSchemeStatus.PREFIRE
    · rw [commScheme_executeBlock_eq st.1 st.2 hpre] at h
      cases h
      constructor
      · simp [hpre, statusRank]
      · intro hpost
        rw [hpre] at hpost
        cases hpost
    · simp only [commScheme_executeBlock, hpre, not_false_eq_true, if_true] at h
      cases h
  | wait =>
    simp only [SchemeOp.step] at h
    by_cases hfire : st.2.status = commSchemeStatus.FIRING
    · constructor
      · unfold commScheme_wait at h
        simp only [hfire, ne_eq, not_true_eq_false, if_false] at h
        split at h
        · cases h
        · split at h
          · cases h
          · cases h
            simp [statusRank, hfire]
      · intro hpost
        rw [hfire] at hpost
        cases hpost
    · rw [commScheme_wait_noop st.1 st.2 hfire] at h
      cases h
      exact ⟨Nat.le_refl _, fun _ => rfl⟩

theorem runSchemeOps_append (ops1 ops2 : List SchemeOp) :
    ∀ st, runSchemeOps st (ops1 ++ ops2)
      = (runSchemeOps st ops1).bind (fun st1 => runSchemeOps st1 ops2) := by
  induction ops1 with
  | nil => intro st; rfl
  | cons op ops1 ih =>
    intro st
    simp only [List.cons_append, runSchemeOps]
    cases hstep : op.step st with
    | none => rfl
    | some st1 => exact ih st1

theorem run_status (ops : List SchemeOp) :
    ∀ st st1, runSchemeOps st ops = some st1 →
      statusRank st.2.status ≤ statusRank st1.2.status
      ∧ (st.2.status = commSchemeStatus.POSTFIRE → st1 = st) := by
  induction ops with
  | nil =>
    intro st st1 h
    simp only [runSchemeOps, Option.some.injEq] at h
    subst h
    exact ⟨Nat.le_refl _, fun _ => rfl⟩
  | cons op ops ih =>
    intro st st1 h
    simp only [runSchemeOps] at h
    cases hstep : op.step st with
    | none => rw [hstep] at h; cases h
    | some st2 =>
      rw [hstep] at h
      obtain ⟨h1, h2⟩ := step_status st st2 op hstep
      obtain ⟨h3, h4⟩ := ih st2 st1 h
      refine ⟨Nat.le_trans h1 h3, ?_⟩
      intro hpost
      have e := h2 hpost
      subst e
      exact h4 hpost

/-- C23: `commScheme_execute` on a scheme in `PREFIRE` returns with the
status `FIRING`, the two buffer sequences and the communicator, rank, size and
tag as before, and no later `commScheme_execute` succeeds, neither at once nor
after any further calls; on a scheme in `FIRING` or `POSTFIRE` it is rejected
by its assertion. -/
theorem commScheme_execute_lifecycle (log : List commEvent) (scheme : commScheme) :
    (scheme.status = commSchemeStatus.PREFIRE →
      ∃ log1 scheme1, commScheme_execute log scheme = some (log1, scheme1)
        ∧ scheme1.status = commSchemeStatus.FIRING
        ∧ scheme1.buffersRecv = scheme.buffersRecv
        ∧ scheme1.buffersSend = scheme.buffersSend
        ∧ scheme1.comm = scheme.comm ∧ scheme1.rank = scheme.rank
        ∧ scheme1.size = scheme.size ∧ scheme1.tag = scheme.tag
        ∧ commScheme_execute log1 scheme1 = none
        ∧ ∀ ops st, runSchemeOps (log1, scheme1) ops = some st →
            commScheme_execute st.1 st.2 = none)
    ∧ (scheme.status = commSchemeStatus.FIRING ∨ scheme.status = commSchemeStatus.POSTFIRE →
        commScheme_execute log scheme = none) := by
  constructor
  · intro hpre
    refine ⟨_, _, commScheme_execute_eq log scheme hpre, rfl, rfl, rfl, rfl, rfl, rfl, rfl, ?_, ?_⟩
    · exact commScheme_execute_none _ _ (by simp)
    · intro ops st hrun
      have h := (run_status ops _ st hrun).1
      apply commScheme_execute_none
      intro hst
      rw [hst] at h
      simp [statusRank] at h
  · intro h
    apply commScheme_execute_none
    rcases h with h | h <;> simp [h]

/-- Witness of C23: the armed example scheme fires once; the firing and the
completed scheme reject `commScheme_execute`. -/
theorem commScheme_execute_lifecycle_witness :
    armedScheme.status = commSchemeStatus.PREFIRE
    ∧ (commScheme_execute [] armedScheme).map (fun r => r.2) = some firingScheme
    ∧ commScheme_execute [] firingScheme = none
    ∧ commScheme_execute [] doneScheme = none :=
  ⟨rfl, by decide,
    (commScheme_execute_lifecycle [] firingScheme).2 (Or.inl rfl),
    (commScheme_execute_lifecycle [] doneScheme).2 (Or.inr rfl)⟩

/-- C24: on a scheme in `PREFIRE`, `commScheme_addBuffer(scheme, buffer, SEND)`
returns the previous length of the send sequence and leaves the scheme with the
buffer appended at that position of the send sequence and everything else as
before, the receive sequence and the status included; symmetrically for
`RECV`; on a scheme in `FIRING` or `POSTFIRE` the call is rejected whatever the
direction, so no sequence changes. -/
theorem commScheme_addBuffer_lifecycle (scheme : commScheme) (buffer : commSchemeBuffer) :
    (scheme.status = commSchemeStatus.PREFIRE →
      (∃ scheme1, commScheme_addBuffer scheme buffer COMMSCHEME_TYPE_SEND
            = some (scheme1, (scheme.buffersSend.length : Int))
          ∧ scheme1.buffersSend = scheme.buffersSend ++ [buffer]
          ∧ scheme1.buffersSend[scheme.buffersSend.length]? = some buffer
          ∧ scheme1.buffersRecv = scheme.buffersRecv
          ∧ scheme1.status = scheme.status
          ∧ scheme1 = { scheme with buffersSend := scheme.buffersSend ++ [buffer] })
      ∧ (∃ scheme1, commScheme_addBuffer scheme buffer COMMSCHEME_TYPE_RECV
            = some (scheme1, (scheme.buffersRecv.length : Int))
          ∧ scheme1.buffersRecv = scheme.buffersRecv ++ [buffer]
          ∧ scheme1.buffersRecv[scheme.buffersRecv.length]? = some buffer
          ∧ scheme1.buffersSend = scheme.buffersSend
          ∧ scheme1.status = scheme.status
          ∧ scheme1 = { scheme with buffersRecv := scheme.buffersRecv ++ [buffer] }))
    ∧ (scheme.status = commSchemeStatus.FIRING ∨ scheme.status = commSchemeStatus.POSTFIRE →
        ∀ type, commScheme_addBuffer scheme buffer type = none) := by
  constructor
  · intro hpre
    constructor
    · refine ⟨{ scheme with buffersSend := scheme.buffersSend ++ [buffer] }, ?_, rfl, ?_, rfl,
        rfl, rfl⟩
      · simp [commScheme_addBuffer, hpre, varArr_insert]
      · exact getElem?_append_at_length scheme.buffersSend buffer []
    · refine ⟨{ scheme with buffersRecv := scheme.buffersRecv ++ [buffer] }, ?_, rfl, ?_, rfl,
        rfl, rfl⟩
      · have h : COMMSCHEME_TYPE_RECV ≠ COMMSCHEME_TYPE_SEND := by decide
        simp [commScheme_addBuffer, hpre, varArr_insert, h]
      · exact getElem?_append_at_length scheme.buffersRecv buffer []
  · intro h type
    have hne : ¬ (scheme.status = commSchemeStatus.PREFIRE) := by
      rcases h with h | h <;> simp [h]
    unfold commScheme_addBuffer
    split
    · rfl
    · simp only [hne, not_false_eq_true, if_true]

/-- Witness of C24: registering a third buffer on the armed scheme in either
direction; the firing and the completed scheme reject the call. -/
theorem commScheme_addBuffer_lifecycle_witness :
    armedScheme.status = commSchemeStatus.PREFIRE
    ∧ (commScheme_addBuffer armedScheme bufferRank7 COMMSCHEME_TYPE_SEND).map
        (fun r => (r.1.buffersSend, r.1.buffersRecv, r.1.status, r.2))
      = some ([bufferTo3, bufferRank7], [bufferFrom1, bufferFrom2],
          commSchemeStatus.PREFIRE, 1)
    ∧ (commScheme_addBuffer armedScheme bufferRank7 COMMSCHEME_TYPE_RECV).map
        (fun r => (r.1.buffersSend, r.1.buffersRecv, r.1.status, r.2))
      = some ([bufferTo3], [bufferFrom1, bufferFrom2, bufferRank7],
          commSchemeStatus.PREFIRE, 2)
    ∧ (∀ type, commScheme_addBuffer firingScheme bufferRank7 type = none)
    ∧ (∀ type, commScheme_addBuffer doneScheme bufferRank7 type = none) :=
  ⟨rfl, by decide, by decide,
    (commScheme_addBuffer_lifecycle firingScheme bufferRank7).2 (Or.inl rfl),
    (commScheme_addBuffer_lifecycle doneScheme bufferRank7).2 (Or.inr rfl)⟩

/-- C25: one `commScheme_execute` on a scheme in `PREFIRE` with `R` receive
and `S` send buffers appends to the history exactly `R + S` posted transfers:
first one receive per receive buffer, then one send per send buffer, each
direction in registration order, each transfer with the region, count, element
kind and peer rank of its buffer, the tag and the communicator of the scheme;
an empty direction posts nothing.  The request arrays hold the handles in the
same order. -/
theorem commScheme_execute_posts (log : List commEvent) (scheme : commScheme)
    (hpre : scheme.status = commSchemeStatus.PREFIRE) :
    ∃ scheme1, commScheme_execute log scheme = some (log ++ postEvents scheme, scheme1)
      ∧ postEvents scheme
          = scheme.buffersRecv.map (fun b => commEvent.post scheme.comm
                ⟨false, b.buf, b.count, b.datatype, b.rank, scheme.tag⟩)
            ++ scheme.buffersSend.map (fun b => commEvent.post scheme.comm
                ⟨true, b.buf, b.count, b.datatype, b.rank, scheme.tag⟩)
      ∧ (postEvents scheme).length = scheme.buffersRecv.length + scheme.buffersSend.length
      ∧ (∀ i, i < scheme.buffersRecv.length →
          (postEvents scheme)[i]? = scheme.buffersRecv[i]?.map (fun b =>
            commEvent.post scheme.comm ⟨false, b.buf, b.count, b.datatype, b.rank, scheme.tag⟩))
      ∧ (∀ j, j < scheme.buffersSend.length →
          (postEvents scheme)[scheme.buffersRecv.length + j]?
            = scheme.buffersSend[j]?.map (fun b =>
                commEvent.post scheme.comm ⟨true, b.buf, b.count, b.datatype, b.rank, scheme.tag⟩))
      ∧ (scheme.buffersRecv = [] → ∀ e ∈ postEvents scheme, ∃ r, e = commEvent.post scheme.comm r
            ∧ r.isSend = true)
      ∧ (scheme.buffersSend = [] → ∀ e ∈ postEvents scheme, ∃ r, e = commEvent.post scheme.comm r
            ∧ r.isSend = false)
      ∧ scheme1.requestsRecv = some (posted ((postEvents scheme).take scheme.buffersRecv.length))
      ∧ scheme1.requestsSend = some (posted ((postEvents scheme).drop scheme.buffersRecv.length))
      := by
  have hshape : postEvents scheme
      = scheme.buffersRecv.map (fun b => commEvent.post scheme.comm
            ⟨false, b.buf, b.count, b.datatype, b.rank, scheme.tag⟩)
        ++ scheme.buffersSend.map (fun b => commEvent.post scheme.comm
            ⟨true, b.buf, b.count, b.datatype, b.rank, scheme.tag⟩) := by
    simp only [postEvents, recvRequests, sendRequests, List.map_map]
    rfl
  have hlenR : ((recvRequests scheme).map (commEvent.post scheme.comm)).length
      = scheme.buffersRecv.length := by simp [recvRequests]
  have hpostR : posted ((recvRequests scheme).map (commEvent.post scheme.comm))
      = recvRequests scheme := by
    have h := posted_map_post scheme.comm (recvRequests scheme) []
    simpa [posted] using h
  have hpostS : posted ((sendRequests scheme).map (commEvent.post scheme.comm))
      = sendRequests scheme := by
    have h := posted_map_post scheme.comm (sendRequests scheme) []
    simpa [posted] using h
  refine ⟨_, commScheme_execute_eq log scheme hpre, hshape, ?_, ?_, ?_, ?_, ?_, ?_, ?_⟩
  · simp [hshape]
  · intro i hi
    rw [hshape, List.getElem?_append_left (by simpa using hi), List.getElem?_map]
  · intro j hj
    rw [hshape, List.getElem?_append_right (by simp), List.getElem?_map]
    simp
  · intro hR e he
    rw [hshape, hR] at he
    simp only [List.map_nil, List.nil_append, List.mem_map] at he
    obtain ⟨b, _, hb⟩ := he
    exact ⟨_, hb.symm, rfl⟩
  · intro hS e he
    rw [hshape, hS] at he
    simp only [List.map_nil, List.append_nil, List.mem_map] at he
    obtain ⟨b, _, hb⟩ := he
    exact ⟨_, hb.symm, rfl⟩
  · show some (recvRequests scheme) = _
    unfold postEvents
    rw [← hlenR, List.take_left, hpostR]
  · show some (sendRequests scheme) = _
    unfold postEvents
    rw [← hlenR, List.drop_left, hpostS]

/-- Witness of C25: the armed example scheme posts its two receives, then its
send. -/
theorem commScheme_execute_posts_witness :
    armedScheme.status = commSchemeStatus.PREFIRE
    ∧ (∃ scheme1, commScheme_execute [] armedScheme = some ([] ++ postEvents armedScheme, scheme1))
    ∧ commScheme_execute [] armedScheme
        = some ([commEvent.post exampleComm ⟨false, 10, 8, 0, 1, 5⟩,
                 commEvent.post exampleComm ⟨false, 20, 4, 0, 2, 5⟩,
                 commEvent.post exampleComm ⟨true, 30, 8, 0, 3, 5⟩], firingScheme)
    ∧ (commScheme_execute [] exampleScheme).map (fun r => r.1) = some [] :=
  ⟨rfl,
    (commScheme_execute_posts [] armedScheme rfl).imp (fun _ h => h.1),
    by decide, by decide⟩

/-- C26: `commScheme_wait` on a scheme in `PREFIRE` or `POSTFIRE` returns with
the scheme exactly as before (status, both buffer sequences, both request
handles and every other field) and asks nothing of the library. -/
theorem commScheme_wait_not_firing (log : List commEvent) (scheme : commScheme)
    (h : scheme.status = commSchemeStatus.PREFIRE ∨ scheme.status = commSchemeStatus.POSTFIRE) :
    commScheme_wait log scheme = some (log, scheme) := by
  apply commScheme_wait_noop
  rcases h with h | h <;> simp [h]

/-- Witness of C26: waiting on the armed scheme before `commScheme_execute`. -/
theorem commScheme_wait_not_firing_witness :
    (armedScheme.status = commSchemeStatus.PREFIRE
      ∨ armedScheme.status = commSchemeStatus.POSTFIRE)
    ∧ commScheme_wait [] armedScheme = some ([], armedScheme) :=
  ⟨Or.inl rfl, commScheme_wait_not_firing [] armedScheme (Or.inl rfl)⟩

/-- C27: on a scheme in `FIRING` whose request arrays hold the handles that
`commScheme_execute` stored (one per buffer, in registration order),
`commScheme_wait` waits for the send requests in one `MPI_Waitall` if there is
at least one send buffer, then for the receive requests in one `MPI_Waitall`
if there is at least one receive buffer; together the awaited requests are
exactly the `S` send and `R` receive requests, `R + S` in all.  It returns with
both request handles `NULL`, the status `POSTFIRE` and everything else as
before. -/
theorem commScheme_wait_completes (log : List commEvent) (scheme : commScheme)
    (hfire : scheme.status = commSchemeStatus.FIRING)
    (hs : scheme.requestsSend = some (sendRequests scheme))
    (hr : scheme.requestsRecv = some (recvRequests scheme)) :
    ∃ scheme1, commScheme_wait log scheme = some (log ++ waitEvents scheme, scheme1)
      ∧ awaited (waitEvents scheme) = sendRequests scheme ++ recvRequests scheme
      ∧ (awaited (waitEvents scheme)).length
          = scheme.buffersRecv.length + scheme.buffersSend.length
      ∧ (scheme.buffersSend.length > 0 →
          commEvent.waitall (sendRequests scheme) ∈ waitEvents scheme)
      ∧ (scheme.buffersRecv.length > 0 →
          commEvent.waitall (recvRequests scheme) ∈ waitEvents scheme)
      ∧ scheme1.requestsSend = none ∧ scheme1.requestsRecv = none
      ∧ scheme1.status = commSchemeStatus.POSTFIRE
      ∧ scheme1.buffersRecv = scheme.buffersRecv ∧ scheme1.buffersSend = scheme.buffersSend
      ∧ scheme1 = { scheme with requestsSend := none, requestsRecv := none,
                                status := commSchemeStatus.POSTFIRE } := by
  refine ⟨_, commScheme_wait_eq log scheme hfire hs hr, awaited_waitEvents scheme, ?_, ?_, ?_,
    rfl, rfl, rfl, rfl, rfl, rfl⟩
  · rw [awaited_waitEvents]
    simp [sendRequests, recvRequests]
    omega
  · intro h
    simp [waitEvents, h]
  · intro h
    simp [waitEvents, h]

/-- Witness of C27: the firing example scheme, as `commScheme_execute` left
it, awaits its send and then its two receives. -/
theorem commScheme_wait_completes_witness :
    firingScheme.status = commSchemeStatus.FIRING
    ∧ commScheme_execute [] armedScheme = some (postEvents armedScheme, firingScheme)
    ∧ (∃ scheme1, commScheme_wait (postEvents armedScheme) firingScheme
        = some (postEvents armedScheme ++ waitEvents firingScheme, scheme1))
    ∧ commScheme_wait [] firingScheme
        = some ([commEvent.waitall [⟨true, 30, 8, 0, 3, 5⟩],
                 commEvent.waitall [⟨false, 10, 8, 0, 1, 5⟩, ⟨false, 20, 4, 0, 2, 5⟩]],
                doneScheme) :=
  ⟨rfl, by decide,
    (commScheme_wait_completes (postEvents armedScheme) firingScheme rfl rfl rfl).imp
      (fun _ h => h.1),
    by decide⟩

/-- C28: `commScheme_new` yields the status `PREFIRE`; a call of
`commScheme_addBuffer`, `commScheme_execute`, `commScheme_executeBlock` or
`commScheme_wait` that returns never lowers the status in the order
`PREFIRE < FIRING < POSTFIRE`, so along a sequence of returning calls the
status at any earlier point is at most the status at any later point; and from
`POSTFIRE` every sequence of returning calls leaves the scheme (status, buffer
sequences and all other fields) and its history unchanged. -/
theorem commScheme_lifecycle_forward (st : List commEvent × commScheme) :
    (∀ comm tag scheme, commScheme_new comm tag = some scheme →
        scheme.status = commSchemeStatus.PREFIRE)
    ∧ (∀ op st1, SchemeOp.step st op = some st1 →
        statusRank st.2.status ≤ statusRank st1.2.status)
    ∧ (∀ ops1 ops2 st2, runSchemeOps st (ops1 ++ ops2) = some st2 →
        ∃ st1, runSchemeOps st ops1 = some st1 ∧ runSchemeOps st1 ops2 = some st2
          ∧ statusRank st.2.status ≤ statusRank st1.2.status
          ∧ statusRank st1.2.status ≤ statusRank st2.2.status)
    ∧ (st.2.status = commSchemeStatus.POSTFIRE →
        (∀ op st1, SchemeOp.step st op = some st1 → st1 = st)
        ∧ (∀ ops st1, runSchemeOps st ops = some st1 → st1 = st)
        ∧ SchemeOp.step st SchemeOp.execute = none
        ∧ SchemeOp.step st SchemeOp.executeBlock = none
        ∧ (∀ buffer type, SchemeOp.step st (SchemeOp.addBuffer buffer type) = none)
        ∧ SchemeOp.step st SchemeOp.wait = some st) := by
  refine ⟨?_, ?_, ?_, ?_⟩
  · intro comm tag scheme h
    unfold commScheme_new at h
    split at h
    · cases h
    · split at h
      · cases h
      · cases h
        rfl
  · intro op st1 h
    exact (step_status st st1 op h).1
  · intro ops1 ops2 st2 h
    rw [runSchemeOps_append] at h
    cases h1 : runSchemeOps st ops1 with
    | none => rw [h1] at h; cases h
    | some st1 =>
      rw [h1] at h
      exact ⟨st1, rfl, h, (run_status ops1 st st1 h1).1, (run_status ops2 st1 st2 h).1⟩
  · intro hpost
    have hne : st.2.status ≠ commSchemeStatus.PREFIRE := by simp [hpost]
    refine ⟨fun op st1 h => (step_status st st1 op h).2 hpost,
      fun ops st1 h => (run_status ops st st1 h).2 hpost, ?_, ?_, ?_, ?_⟩
    · exact commScheme_execute_none _ _ hne
    · simp only [SchemeOp.step, commScheme_executeBlock, hne, not_false_eq_true, if_true]
    · intro buffer type
      simp only [SchemeOp.step, Option.map_eq_none']
      unfold commScheme_addBuffer
      split
      · rfl
      · simp only [hne, not_false_eq_true, if_true]
    · exact commScheme_wait_noop _ _ (by simp [hpost])

/-- Witness of C28: the full life of the example scheme, from creation over
three registrations, `commScheme_execute` and `commScheme_wait` to `POSTFIRE`,
where a further `commScheme_wait` changes nothing. -/
theorem commScheme_lifecycle_forward_witness :
    runSchemeOps ([], exampleScheme)
        ([SchemeOp.addBuffer bufferFrom1 COMMSCHEME_TYPE_RECV,
          SchemeOp.addBuffer bufferFrom2 COMMSCHEME_TYPE_RECV,
          SchemeOp.addBuffer bufferTo3 COMMSCHEME_TYPE_SEND, SchemeOp.execute]
          ++ [SchemeOp.wait, SchemeOp.wait])
      = some (postEvents armedScheme ++ waitEvents armedScheme, doneScheme)
    ∧ (∃ st1, runSchemeOps ([], exampleScheme)
          [SchemeOp.addBuffer bufferFrom1 COMMSCHEME_TYPE_RECV,
           SchemeOp.addBuffer bufferFrom2 COMMSCHEME_TYPE_RECV,
           SchemeOp.addBuffer bufferTo3 COMMSCHEME_TYPE_SEND, SchemeOp.execute] = some st1
        ∧ runSchemeOps st1 [SchemeOp.wait, SchemeOp.wait]
            = some (postEvents armedScheme ++ waitEvents armedScheme, doneScheme)
        ∧ statusRank exampleScheme.status ≤ statusRank st1.2.status
        ∧ statusRank st1.2.status ≤ statusRank doneScheme.status)
    ∧ SchemeOp.step ([], doneScheme) SchemeOp.execute = none :=
  ⟨by decide,
    (commScheme_lifecycle_forward ([], exampleScheme)).2.2.1 _ _ _ (by decide),
    ((commScheme_lifecycle_forward ([], doneScheme)).2.2.2 rfl).2.2.1⟩

/-- C30: `commScheme_executeBlock` returns exactly what `commScheme_execute`
followed by `commScheme_wait` returns, history of posted and awaited transfers
included; on a scheme in `PREFIRE` that is the history extended by the posted
transfers and the completion waits, and the scheme with the status `POSTFIRE`,
both request handles `NULL` and the buffer sequences as before, the awaited
requests being the posted ones; on a scheme not in `PREFIRE` it is rejected. -/
theorem commScheme_executeBlock_refines (log : List commEvent) (scheme : commScheme) :
    commScheme_executeBlock log scheme = executeThenWait log scheme
    ∧ (scheme.status = commSchemeStatus.PREFIRE →
        commScheme_executeBlock log scheme
          = some (log ++ postEvents scheme ++ waitEvents scheme,
              { scheme with requestsSend := none, requestsRecv := none,
                            status := commSchemeStatus.POSTFIRE })
        ∧ List.Perm (awaited (waitEvents scheme)) (posted (postEvents scheme)))
    ∧ (scheme.status ≠ commSchemeStatus.PREFIRE →
        commScheme_executeBlock log scheme = none
        ∧ commScheme_execute log scheme = none) := by
  refine ⟨?_, ?_, ?_⟩
  · by_cases hpre : scheme.status = commSchemeStatus.PREFIRE
    · simp only [commScheme_executeBlock, executeThenWait, hpre, not_true_eq_false, if_false]
      cases commScheme_execute log scheme <;> rfl
    · simp only [commScheme_executeBlock, executeThenWait, hpre, not_false_eq_true, if_true,
        commScheme_execute_none log scheme hpre, Option.none_bind]
  · intro hpre
    refine ⟨commScheme_executeBlock_eq log scheme hpre, ?_⟩
    rw [awaited_waitEvents, posted_postEvents]
    exact List.perm_append_comm
  · intro hne
    refine ⟨?_, commScheme_execute_none log scheme hne⟩
    simp only [commScheme_executeBlock, hne, not_false_eq_true, if_true]

/-- Witness of C30: on the armed example scheme both routes end in the
completed scheme with the same history; the firing scheme is rejected. -/
theorem commScheme_executeBlock_refines_witness :
    commScheme_executeBlock [] armedScheme = executeThenWait [] armedScheme
    ∧ commScheme_executeBlock [] armedScheme
        = some ([commEvent.post exampleComm ⟨false, 10, 8, 0, 1, 5⟩,
                 commEvent.post exampleComm ⟨false, 20, 4, 0, 2, 5⟩,
                 commEvent.post exampleComm ⟨true, 30, 8, 0, 3, 5⟩,
                 commEvent.waitall [⟨true, 30, 8, 0, 3, 5⟩],
                 commEvent.waitall [⟨false, 10, 8, 0, 1, 5⟩, ⟨false, 20, 4, 0, 2, 5⟩]],
                doneScheme)
    ∧ commScheme_executeBlock [] firingScheme = none :=
  ⟨(commScheme_executeBlock_refines [] armedScheme).1, by decide,
    ((commScheme_executeBlock_refines [] firingScheme).2.2 (by decide)).1⟩

theorem outstanding_append (a b : List commEvent) :
    outstanding (a ++ b) = b.foldl outstandingStep (outstanding a) := by
  simp only [outstanding, List.foldl_append]

theorem foldl_outstanding_posts (comm : MPI_Comm) (rs : List MPI_Request) :
    ∀ out, (rs.map (commEvent.post comm)).foldl outstandingStep out = out ++ rs := by
  induction rs with
  | nil => intro out; simp
  | cons r rs ih =>
    intro out
    simp only [List.map_cons, List.foldl_cons, outstandingStep, ih, List.append_assoc,
      List.singleton_append]

theorem foldl_outstanding_dels (bufs : List commSchemeBuffer) :
    ∀ out, (bufs.map commEvent.bufferDel).foldl outstandingStep out = out := by
  induction bufs with
  | nil => intro out; rfl
  | cons b bufs ih =>
    intro out
    simp only [List.map_cons, List.foldl_cons, outstandingStep, ih]

theorem append_diff_right (S : List MPI_Request) :
    ∀ R : List MPI_Request, (∀ s ∈ S, s ∉ R) → (R ++ S).diff S = R := by
  induction S with
  | nil => intro R _; simp
  | cons a S ih =>
    intro R h
    rw [List.diff_cons, List.erase_append_right _ (h a (List.mem_cons_self _ _)),
      List.erase_cons_head]
    exact ih R (fun s hs => h s (List.mem_cons_of_mem _ hs))

theorem diff_self_nil (R : List MPI_Request) : R.diff R = [] := by
  have h := append_diff_right R [] (fun _ _ => List.not_mem_nil _)
  simpa using h

theorem foldl_outstanding_waits (scheme : commScheme) (out : List MPI_Request) :
    (waitEvents scheme).foldl outstandingStep out
      = (out.diff (sendRequests scheme)).diff (recvRequests scheme) := by
  have hs : ¬ scheme.buffersSend.length > 0 → sendRequests scheme = [] := by
    intro h
    have h0 : scheme.buffersSend = [] := List.length_eq_zero.mp (by omega)
    simp [sendRequests, h0]
  have hr : ¬ scheme.buffersRecv.length > 0 → recvRequests scheme = [] := by
    intro h
    have h0 : scheme.buffersRecv = [] := List.length_eq_zero.mp (by omega)
    simp [recvRequests, h0]
  unfold waitEvents
  by_cases h1 : scheme.buffersSend.length > 0 <;> by_cases h2 : scheme.buffersRecv.length > 0
  · simp [h1, h2, outstandingStep]
  · simp [h1, h2, outstandingStep, hr h2]
  · simp [h1, h2, outstandingStep, hs h1]
  · simp [h1, h2, outstandingStep, hs h1, hr h2]

theorem outstanding_after_waits (scheme : commScheme) :
    (waitEvents scheme).foldl outstandingStep (recvRequests scheme ++ sendRequests scheme)
      = [] := by
  rw [foldl_outstanding_waits, append_diff_right, diff_self_nil]
  intro s hs hmem
  simp only [sendRequests, recvRequests, List.mem_map, requestFor] at hs hmem
  obtain ⟨b, _, hb⟩ := hs
  obtain ⟨c, _, hc⟩ := hmem
  rw [← hb] at hc
  cases hc

theorem local_delBuffers_eq (bufs : List commSchemeBuffer) :
    ∀ log, local_delBuffers log bufs = log ++ bufs.map commEvent.bufferDel := by
  induction bufs with
  | nil => intro log; simp [local_delBuffers]
  | cons b bufs ih =>
    intro log
    simp only [local_delBuffers, commSchemeBuffer_del, ih, List.map_cons, List.append_assoc,
      List.singleton_append]

theorem schemeInv_new (comm : MPI_Comm) (tag : Int) (scheme : commScheme)
    (h : commScheme_new comm tag = some scheme) : schemeInv ([], scheme) := by
  have hst : scheme.status = commSchemeStatus.PREFIRE := by
    unfold commScheme_new at h
    split at h
    · cases h
    · split at h
      · cases h
      · cases h
        rfl
  refine ⟨fun e he => absurd he (List.not_mem_nil _), fun _ => rfl, ?_⟩
  intro hf
  rw [hst] at hf
  cases hf

theorem schemeInv_step (st st1 : List commEvent × commScheme) (op : SchemeOp)
    (hinv : schemeInv st) (h : op.step st = some st1) : schemeInv st1 := by
  obtain ⟨hnodel, hquiet, hfiring⟩ := hinv
  have hpostNoDel : ∀ e ∈ postEvents st.2, ∀ b, e ≠ commEvent.bufferDel b := by
    intro e he b hb
    subst hb
    simp [postEvents] at he
  have hwaitNoDel : ∀ e ∈ waitEvents st.2, ∀ b, e ≠ commEvent.bufferDel b := by
    intro e he b hb
    subst hb
    unfold waitEvents at he
    rcases List.mem_append.mp he with he | he
    · split at he <;> simp at he
    · split at he <;> simp at he
  have hfired : outstanding (st.1 ++ postEvents st.2 ++ waitEvents st.2) = []
      ∨ st.2.status ≠ commSchemeStatus.PREFIRE := by
    by_cases hpre : st.2.status = commSchemeStatus.PREFIRE
    · left
      rw [outstanding_append, outstanding_append, hquiet (by simp [hpre])]
      unfold postEvents
      rw [List.foldl_append, foldl_outstanding_posts, foldl_outstanding_posts, List.nil_append]
      exact outstanding_after_waits st.2
    · exact Or.inr hpre
  cases op with
  | addBuffer buffer type =>
    simp only [SchemeOp.step, Option.map_eq_some'] at h
    obtain ⟨r, hr, hst⟩ := h
    obtain ⟨hpre, hcase⟩ := commScheme_addBuffer_some st.2 buffer type r hr
    subst hst
    have hstat : r.1.status = commSchemeStatus.PREFIRE := by
      rcases hcase with hc | hc <;> simp [hc, hpre]
    refine ⟨hnodel, fun _ => hquiet (by simp [hpre]), ?_⟩
    intro hf
    rw [hstat] at hf
    cases hf
  | execute =>
    simp only [SchemeOp.step] at h
    by_cases hpre : st.2.status = commSchemeStatus.PREFIRE
    · rw [commScheme_execute_eq st.1 st.2 hpre] at h
      cases h
      refine ⟨?_, fun hne => absurd rfl hne, fun _ => ⟨rfl, rfl, ?_⟩⟩
      · intro e he
        rcases List.mem_append.mp he with he | he
        · exact hnodel e he
        · exact hpostNoDel e he
      · show outstanding (st.1 ++ postEvents st.2) = recvRequests st.2 ++ sendRequests st.2
        rw [outstanding_append, hquiet (by simp [hpre])]
        unfold postEvents
        rw [List.foldl_append, foldl_outstanding_posts, foldl_outstanding_posts,
          List.nil_append]
    · rw [commScheme_execute_none st.1 st.2 hpre] at h
      cases h
  | executeBlock =>
    simp only [SchemeOp.step] at h
    by_cases hpre : st.2.status = commSchemeStatus.PREFIRE
    · rw [commScheme_executeBlock_eq st.1 st.2 hpre] at h
      cases h
      refine ⟨?_, fun _ => ?_, fun hf => ?_⟩
      · intro e he
        rcases List.mem_append.mp he with he | he
        · rcases List.mem_append.mp he with he | he
          · exact hnodel e he
          · exact hpostNoDel e he
        · exact hwaitNoDel e he
      · rcases hfired with hq | hq
        · exact hq
        · exact absurd hpre hq
      · cases hf
    · simp only [commScheme_executeBlock, hpre, not_false_eq_true, if_true] at h
      cases h
  | wait =>
    simp only [SchemeOp.step] at h
    by_cases hfire : st.2.status = commSchemeStatus.FIRING
    · obtain ⟨hs, hr, hout⟩ := hfiring hfire
      rw [commScheme_wait_eq st.1 st.2 hfire hs hr] at h
      cases h
      refine ⟨?_, fun _ => ?_, fun hf => ?_⟩
      · intro e he
        rcases List.mem_append.mp he with he | he
        · exact hnodel e he
        · exact hwaitNoDel e he
      · show outstanding (st.1 ++ waitEvents st.2) = []
        rw [outstanding_append, hout]
        exact outstanding_after_waits st.2
      · cases hf
    · rw [commScheme_wait_noop st.1 st.2 hfire] at h
      cases h
      exact ⟨hnodel, hquiet, hfiring⟩

theorem schemeInv_run (ops : List SchemeOp) :
    ∀ st st1, schemeInv st → runSchemeOps st ops = some st1 → schemeInv st1 := by
  induction ops with
  | nil =>
    intro st st1 hinv h
    simp only [runSchemeOps, Option.some.injEq] at h
    subst h
    exact hinv
  | cons op ops ih =>
    intro st st1 hinv h
    simp only [runSchemeOps] at h
    cases hstep : op.step st with
    | none => rw [hstep] at h; cases h
    | some st2 =>
      rw [hstep] at h
      exact ih st2 st1 (schemeInv_step st st2 op hinv hstep) h

theorem deletesOnlyWhenQuiet_append (mid : List commEvent) (bufs : List commSchemeBuffer)
    (hnodel : ∀ e ∈ mid, ∀ b, e ≠ commEvent.bufferDel b) (hquiet : outstanding mid = []) :
    deletesOnlyWhenQuiet (mid ++ bufs.map commEvent.bufferDel) := by
  intro k b hk
  rcases Nat.lt_or_ge k mid.length with hlt | hge
  · rw [List.getElem?_append_left hlt] at hk
    exact absurd rfl (hnodel _ (List.getElem?_mem hk) b)
  · rw [List.take_append_eq_append_take, List.take_of_length_le hge, outstanding_append, hquiet,
      ← List.map_take]
    exact foldl_outstanding_dels _ []

/-- C29: for a scheme created by `commScheme_new` and driven by any returning
sequence of its calls, `commScheme_del` returns with the caller's handle
`NULL`; its history is the one at an intermediate moment followed by the
deletions of the receive and then the send buffers.  In `FIRING` that moment
is the one `commScheme_wait` returns at, after the completion waits for all
posted sends and receives; otherwise it is the moment of the call.  At that
moment no request is outstanding, and so every buffer deletion happens while
nothing is outstanding.  A `NULL` handle is rejected. -/
theorem commScheme_del_waits_first (comm : MPI_Comm) (tag : Int) (scheme : commScheme)
    (ops : List SchemeOp) (st : List commEvent × commScheme)
    (hnew : commScheme_new comm tag = some scheme)
    (hrun : runSchemeOps ([], scheme) ops = some st) :
    ∃ mid, commScheme_del st.1 (some st.2)
        = some (mid ++ (st.2.buffersRecv ++ st.2.buffersSend).map commEvent.bufferDel, none)
      ∧ (st.2.status = commSchemeStatus.FIRING →
          (commScheme_wait st.1 st.2).map (fun r => r.1) = some mid
          ∧ mid = st.1 ++ waitEvents st.2
          ∧ awaited (waitEvents st.2) = sendRequests st.2 ++ recvRequests st.2
          ∧ outstanding st.1 = recvRequests st.2 ++ sendRequests st.2)
      ∧ (st.2.status ≠ commSchemeStatus.FIRING → mid = st.1)
      ∧ (∀ e ∈ mid, ∀ b, e ≠ commEvent.bufferDel b)
      ∧ outstanding mid = []
      ∧ deletesOnlyWhenQuiet
          (mid ++ (st.2.buffersRecv ++ st.2.buffersSend).map commEvent.bufferDel)
      ∧ commScheme_del st.1 none = none := by
  have hinv : schemeInv st := schemeInv_run ops _ st (schemeInv_new comm tag scheme hnew) hrun
  obtain ⟨hnodel, hquiet, hfiring⟩ := hinv
  by_cases hfire : st.2.status = commSchemeStatus.FIRING
  · obtain ⟨hs, hr, hout⟩ := hfiring hfire
    have hw := commScheme_wait_eq st.1 st.2 hfire hs hr
    have hnodel2 : ∀ e ∈ st.1 ++ waitEvents st.2, ∀ b, e ≠ commEvent.bufferDel b := by
      intro e he b hb
      subst hb
      rcases List.mem_append.mp he with he | he
      · exact hnodel _ he b rfl
      · unfold waitEvents at he
        rcases List.mem_append.mp he with he | he
        · split at he <;> simp at he
        · split at he <;> simp at he
    have hq2 : outstanding (st.1 ++ waitEvents st.2) = [] := by
      rw [outstanding_append, hout]
      exact outstanding_after_waits st.2
    refine ⟨st.1 ++ waitEvents st.2, ?_, fun _ => ⟨?_, rfl, awaited_waitEvents st.2, hout⟩,
      fun hne => absurd hfire hne, hnodel2, hq2,
      deletesOnlyWhenQuiet_append _ _ hnodel2 hq2, rfl⟩
    · simp only [commScheme_del, hfire, if_true, hw, local_delBuffers_eq, List.map_append,
        List.append_assoc]
    · rw [hw]
      rfl
  · refine ⟨st.1, ?_, fun h => absurd h hfire, fun _ => rfl, hnodel, hquiet hfire,
      deletesOnlyWhenQuiet_append _ _ hnodel (hquiet hfire), rfl⟩
    simp only [commScheme_del, hfire, if_false, local_delBuffers_eq, List.map_append,
      List.append_assoc]

/-- Witness of C29: deleting the example scheme while it is firing: the two
completion waits come before the three buffer deletions. -/
theorem commScheme_del_waits_first_witness :
    commScheme_new exampleComm 5 = some exampleScheme
    ∧ runSchemeOps ([], exampleScheme)
        [SchemeOp.addBuffer bufferFrom1 COMMSCHEME_TYPE_RECV,
         SchemeOp.addBuffer bufferFrom2 COMMSCHEME_TYPE_RECV,
         SchemeOp.addBuffer bufferTo3 COMMSCHEME_TYPE_SEND, SchemeOp.execute]
        = some (postEvents armedScheme, firingScheme)
    ∧ (∃ mid, commScheme_del (postEvents armedScheme) (some firingScheme)
        = some (mid ++ (firingScheme.buffersRecv ++ firingScheme.buffersSend).map
            commEvent.bufferDel, none))
    ∧ commScheme_del (postEvents armedScheme) (some firingScheme)
        = some ([commEvent.post exampleComm ⟨false, 10, 8, 0, 1, 5⟩,
                 commEvent.post exampleComm ⟨false, 20, 4, 0, 2, 5⟩,
                 commEvent.post exampleComm ⟨true, 30, 8, 0, 3, 5⟩,
                 commEvent.waitall [⟨true, 30, 8, 0, 3, 5⟩],
                 commEvent.waitall [⟨false, 10, 8, 0, 1, 5⟩, ⟨false, 20, 4, 0, 2, 5⟩],
                 commEvent.bufferDel bufferFrom1, commEvent.bufferDel bufferFrom2,
                 commEvent.bufferDel bufferTo3], none) :=
  ⟨by decide, by decide,
    (commScheme_del_waits_first exampleComm 5 exampleScheme
      [SchemeOp.addBuffer bufferFrom1 COMMSCHEME_TYPE_RECV,
       SchemeOp.addBuffer bufferFrom2 COMMSCHEME_TYPE_RECV,
       SchemeOp.addBuffer bufferTo3 COMMSCHEME_TYPE_SEND, SchemeOp.execute]
      (postEvents armedScheme, firingScheme) (by decide) (by decide)).imp (fun _ h => h.1),
    by decide⟩

/-! ## Theorems: the tile helper functions -/

/-- C34: for `uint32_t` arguments with `0 < k < n` the four tile helper
functions return, and their results describe a partition of `n` cells into `k`
tiles: the numbers of small and large tiles add up to `k`, the number of large
tiles is `n mod k`, the two tile sizes differ by at most 1, and
`NumSmall * MinTileSize + NumLarge * MaxTileSize = n`. -/
theorem tile_helpers_partition (n k : Nat) (hk : 0 < k) (hkn : k < n) (hn : n < U32) :
    ∃ numSmall numLarge minSize maxSize,
      tile_calcNumSmallTilesEven n k = some numSmall
      ∧ tile_calcNumLargeTilesEven n k = some numLarge
      ∧ tile_calcMinTileSizeEven n k = some minSize
      ∧ tile_calcMaxTileSizeEven n k = some maxSize
      ∧ numSmall + numLarge = k
      ∧ numLarge = n % k
      ∧ minSize ≤ maxSize ∧ maxSize - minSize ≤ 1
      ∧ numSmall * minSize + numLarge * maxSize = n := by
  have hU : U32 = 4294967296 := by decide
  have hn0 : n > 0 := by omega
  have hkle : k > 0 ∧ k ≤ n := ⟨hk, by omega⟩
  have hklt : k > 0 ∧ k < n := ⟨hk, hkn⟩
  have hmod : n % k < k := Nat.mod_lt n hk
  have hL : tile_calcNumLargeTilesEven n k = some (n % k) := by
    simp only [tile_calcNumLargeTilesEven, hn0, hkle, and_self, not_true_eq_false, if_false]
  have hM : tile_calcMinTileSizeEven n k = some (n / k) := by
    simp only [tile_calcMinTileSizeEven, hn0, hklt, and_self, not_true_eq_false, if_false]
  have hS : tile_calcNumSmallTilesEven n k = some (k - n % k) := by
    simp only [tile_calcNumSmallTilesEven, hL]
    have h1 : k + U32 - n % k = (k - n % k) + U32 := by omega
    rw [h1, Nat.add_mod_right, Nat.mod_eq_of_lt (by omega)]
  have hdiv : n / k ≤ n := Nat.div_le_self n k
  have hdm := Nat.div_add_mod n k
  by_cases hr : n % k = 0
  · have hX : tile_calcMaxTileSizeEven n k = some (n / k) := by
      simp only [tile_calcMaxTileSizeEven, hL, hr, ne_eq, not_true_eq_false, if_false, hM]
    refine ⟨k - n % k, n % k, n / k, n / k, hS, hL, hM, hX, by omega, rfl, Nat.le_refl _,
      by omega, ?_⟩
    rw [← Nat.add_mul, Nat.sub_add_cancel (Nat.le_of_lt hmod)]
    rw [hr] at hdm
    omega
  · have hk2 : 2 ≤ k := by
      rcases Nat.lt_or_ge k 2 with h | h
      · have hk1 : k = 1 := by omega
        rw [hk1, Nat.mod_one] at hr
        exact absurd rfl hr
      · exact h
    have hhalf : n / k ≤ n / 2 := Nat.div_le_div_left hk2 (by decide)
    have hX : tile_calcMaxTileSizeEven n k = some (n / k + 1) := by
      simp only [tile_calcMaxTileSizeEven, hL, hr, ne_eq, not_false_eq_true, if_true, hM]
      rw [Nat.mod_eq_of_lt (by omega)]
    refine ⟨k - n % k, n % k, n / k, n / k + 1, hS, hL, hM, hX, by omega, rfl, by omega,
      by omega, ?_⟩
    have e : (k - n % k) * (n / k) + n % k * (n / k + 1)
        = ((k - n % k) + n % k) * (n / k) + n % k := by ring
    rw [e, Nat.sub_add_cancel (Nat.le_of_lt hmod)]
    omega

/-- Witness of C34: 27 cells in 5 tiles: 3 small tiles of 5 cells and 2
large tiles of 6 cells. -/
theorem tile_helpers_partition_witness :
    (∃ numSmall numLarge minSize maxSize,
      tile_calcNumSmallTilesEven 27 5 = some numSmall
      ∧ tile_calcNumLargeTilesEven 27 5 = some numLarge
      ∧ tile_calcMinTileSizeEven 27 5 = some minSize
      ∧ tile_calcMaxTileSizeEven 27 5 = some maxSize
      ∧ numSmall + numLarge = 5
      ∧ numLarge = 27 % 5
      ∧ minSize ≤ maxSize ∧ maxSize - minSize ≤ 1
      ∧ numSmall * minSize + numLarge * maxSize = 27)
    ∧ tile_calcNumSmallTilesEven 27 5 = some 3 ∧ tile_calcNumLargeTilesEven 27 5 = some 2
    ∧ tile_calcMinTileSizeEven 27 5 = some 5 ∧ tile_calcMaxTileSizeEven 27 5 = some 6 :=
  ⟨tile_helpers_partition 27 5 (by decide) (by decide) (by decide),
    by decide, by decide, by decide, by decide⟩

/-! ## Theorems: the 2-D transposition of a buffer -/

theorem foldl_flatMap_eq {α β γ : Type} (f : α → List β) (g : γ → β → γ) :
    ∀ (l : List α) (init : γ),
      (l.flatMap f).foldl g init = l.foldl (fun acc a => (f a).foldl g acc) init := by
  intro l
  induction l with
  | nil => intro init; rfl
  | cons a l ih =>
    intro init
    rw [List.flatMap_cons, List.foldl_append, ih, List.foldl_cons]

theorem local_transposeVar_2d_eq (m : Mem) (data dataT size : Nat) (dimsT : List Nat) :
    local_transposeVar_2d m data dataT size dimsT
      = (local_transposeVar_2d_cells dimsT).foldl
          (fun acc c =>
            acc.memcpy dataT (local_transposeVar_2d_pos size dimsT c.1 c.2).1
              data (local_transposeVar_2d_pos size dimsT c.1 c.2).2 size)
          m := by
  unfold local_transposeVar_2d local_transposeVar_2d_cells
  rw [foldl_flatMap_eq]
  simp only [List.foldl_map, local_transposeVar_2d_pos]

theorem mem_local_transposeVar_2d_cells (dimsT : List Nat) (k0 k1 : Nat) :
    (k0, k1) ∈ local_transposeVar_2d_cells dimsT
      ↔ k0 < dimsT.getD 0 0 ∧ k1 < dimsT.getD 1 0 := by
  simp only [local_transposeVar_2d_cells, List.mem_flatMap, List.mem_range, List.mem_map,
    Prod.mk.injEq]
  constructor
  · rintro ⟨a, ha, b, hb, rfl, rfl⟩
    exact ⟨hb, ha⟩
  · rintro ⟨h0, h1⟩
    exact ⟨k1, h1, k0, h0, rfl, rfl⟩

/-- C32: on a buffer of 65536 x 65536 elements of 8 bytes the destination cell
`(k0, k1) = (0, 8192)` is a cell the loops visit, its flat element index is
`0 + 8192 * 65536 = 2^29`, and the byte offset it is written at is 0, the
place of element 0, not `2^29 * 8 = 2^32`: the product is formed in 32-bit
unsigned arithmetic.  The source offset of that cell, `8192 * 8`, is exact. -/
theorem local_transposeVar_2d_offset_wraps :
    (0, 8192) ∈ local_transposeVar_2d_cells [65536, 65536]
    ∧ local_transposeVar_2d_pos 8 [65536, 65536] 0 8192 = (0, 65536)
    ∧ (0 + 8192 * 65536) * 8 = 4294967296
    ∧ (8192 + 0 * 65536) * 8 = 65536 :=
  ⟨(mem_local_transposeVar_2d_cells [65536, 65536] 0 8192).mpr ⟨by decide, by decide⟩,
    by decide, by decide, by decide⟩

/-- C33: on a buffer of 65536 x 131072 elements of 1 byte the two distinct
destination cells `(0, 0)` and `(0, 65536)`, both visited by the loops, are
written at the same place 0, from the two different source places 0 and
65536: the destination index `k0 + k1 * dimsT[0]` of the second cell is `2^32`
and wraps to 0 in 32-bit unsigned arithmetic.  Destination element 0 has two
writers and destination element `2^32` has none, since every write offset is
below `2^32`. -/
theorem local_transposeVar_2d_cells_collide :
    (0, 0) ∈ local_transposeVar_2d_cells [65536, 131072]
    ∧ (0, 65536) ∈ local_transposeVar_2d_cells [65536, 131072]
    ∧ local_transposeVar_2d_pos 1 [65536, 131072] 0 0 = (0, 0)
    ∧ local_transposeVar_2d_pos 1 [65536, 131072] 0 65536 = (0, 65536)
    ∧ 0 + 65536 * 65536 = 4294967296
    ∧ 4294967296 < 65536 * 131072
    ∧ ∀ k0 k1, (local_transposeVar_2d_pos 1 [65536, 131072] k0 k1).1 ≠ 4294967296 := by
  refine ⟨(mem_local_transposeVar_2d_cells _ 0 0).mpr ⟨by decide, by decide⟩,
    (mem_local_transposeVar_2d_cells _ 0 65536).mpr ⟨by decide, by decide⟩,
    by decide, by decide, by decide, by decide, ?_⟩
  intro k0 k1
  have h : (local_transposeVar_2d_pos 1 [65536, 131072] k0 k1).1 < U32 :=
    Nat.mod_lt _ (by decide)
  have hU : U32 = 4294967296 := by decide
  omega

/-- C35: for `d0 = 131072`, `d1 = 32768` and elements of 8 bytes (a buffer of
`2^35` bytes) both passes, the one with `dimsT = (d1, d0)` and the one with
`dimsT = (d0, d1)`, write and read only at byte offsets below `2^32`: cell
`(0, 16384)` of the first pass and cell `(0, 4096)` of the second are written
at offset 0 instead of `2^32`, and no byte of the result from `2^32` on is
ever written. -/
theorem local_transposeVar_2d_twice_wraps :
    local_transposeVar_2d_pos 8 [32768, 131072] 0 16384 = (0, 131072)
    ∧ (0 + 16384 * 32768) * 8 = 4294967296
    ∧ local_transposeVar_2d_pos 8 [131072, 32768] 0 4096 = (0, 32768)
    ∧ (0 + 4096 * 131072) * 8 = 4294967296
    ∧ (∀ k0 k1, (local_transposeVar_2d_pos 8 [32768, 131072] k0 k1).1 < 4294967296
        ∧ (local_transposeVar_2d_pos 8 [131072, 32768] k0 k1).1 < 4294967296)
    ∧ 4294967296 < 131072 * 32768 * 8 := by
  refine ⟨by decide, by decide, by decide, by decide, ?_, by decide⟩
  intro k0 k1
  have hU : U32 = 4294967296 := by decide
  have h1 : (local_transposeVar_2d_pos 8 [32768, 131072] k0 k1).1 < U32 :=
    Nat.mod_lt _ (by decide)
  have h2 : (local_transposeVar_2d_pos 8 [131072, 32768] k0 k1).1 < U32 :=
    Nat.mod_lt _ (by decide)
  omega

/-! ## Theorems: the halved axis of a transposed grid -/

/-- C36: in every grid state reachable from `gridRegular_new` by any sequence
of `gridRegular_transpose` calls (`NDIM > 0`),
`gridRegular_getCurrentDim(grid, 0)` returns a slot `c`, and
`dimsComplex[c] = dims[c] / 2 + 1` while `dimsComplex[d] = dims[d]` in every
other slot `d`. -/
theorem halved_axis_is_current_dim_of_axis0 {R : Type} (dbl : DblOps R) (NDIM : Nat)
    (hN : 0 < NDIM) (s : Mem × gridRegular R) (h : Reachable dbl NDIM onlyTranspose s) :
    ∃ c : Nat, c < NDIM ∧ gridRegular_getCurrentDim NDIM s.2 0 = some (c : Int)
      ∧ (∃ x, s.2.dims[c]? = some x ∧ s.2.dimsComplex[c]? = some (x / 2 + 1))
      ∧ ∀ d, d < NDIM → d ≠ c →
          ∃ x, s.2.dims[d]? = some x ∧ s.2.dimsComplex[d]? = some x := by
  have hinv := (reachable_halvedAxis dbl NDIM s h).2
  have hbij := permInv_isBijection NDIM _ (reachable_permInv dbl NDIM s h)
  obtain ⟨c, hc, hget, hperm, huniq⟩ := getCurrentDim_of_bijection NDIM s.2 hbij 0 hN
  simp only [Nat.cast_zero] at hget hperm huniq
  refine ⟨c, hc, hget, ?_, ?_⟩
  · obtain ⟨x, hx, hcx⟩ := hinv c hc
    refine ⟨x, hx, ?_⟩
    rw [hcx, if_pos hperm]
  · intro d hd hdc
    obtain ⟨x, hx, hcx⟩ := hinv d hd
    refine ⟨x, hx, ?_⟩
    rw [hcx, if_neg (fun hp => hdc (huniq d hd hp))]

/-- Witness of C36: after `transpose(0,1)` and `transpose(1,2)` on the grid
with dims `(4,10,6)` the original axis 0 is in slot 2, and `dimsComplex` is
`(10,6,3)` against dims `(10,6,4)`. -/
theorem halved_axis_is_current_dim_of_axis0_witness :
    Reachable intDbl 3 onlyTranspose cycledState
    ∧ gridRegular_getCurrentDim 3 cycledState.2 0 = some 2
    ∧ ∃ c : Nat, c < 3 ∧ gridRegular_getCurrentDim 3 cycledState.2 0 = some (c : Int)
      ∧ (∃ x, cycledState.2.dims[c]? = some x ∧ cycledState.2.dimsComplex[c]? = some (x / 2 + 1))
      ∧ ∀ d, d < 3 → d ≠ c →
          ∃ x, cycledState.2.dims[d]? = some x ∧ cycledState.2.dimsComplex[d]? = some x :=
  ⟨⟨emptyMem, "grid", [0, 0, 0], [8, 8, 8], [4, 10, 6], [.transpose 0 1, .transpose 1 2],
      by decide⟩,
    by decide,
    halved_axis_is_current_dim_of_axis0 intDbl 3 (by decide) cycledState
      ⟨emptyMem, "grid", [0, 0, 0], [8, 8, 8], [4, 10, 6], [.transpose 0 1, .transpose 1 2],
        by decide⟩⟩

/-! ## Theorems: the extents of a new patch -/

theorem gridPatch_new_dims (NDIM self : Nat) (idxLo idxHi : List Nat)
    (hrange : ∀ d, d < NDIM → idxHi.getD d 0 < U32)
    (hle : ∀ d, d < NDIM → idxLo.getD d 0 ≤ idxHi.getD d 0) :
    ∃ p, gridPatch_new NDIM self idxLo idxHi = some p
      ∧ (∀ d, d < NDIM → p.dims.getD d 0 = (idxHi.getD d 0 - idxLo.getD d 0 + 1) % U32)
      ∧ p.numCells = p.dims.prod % U64 := by
  rw [gridPatch_new, if_neg (not_not.mpr hle)]
  refine ⟨_, rfl, ?_, foldl_mulmod_eq _⟩
  intro d hd
  rw [List.getD_eq_getElem _ _ (by simpa using hd)]
  simp only [List.getElem_map, List.getElem_range]
  exact u32_sub_add_one _ _ (hle d hd) (hrange d hd)

/-- C37 as stated fails: for the bounds `[0, 2^32 - 1] x [7, 7]` (`NDIM = 2`)
`gridPatch_new` stores `dims = (0, 1)` and `numCells = 0`; for the bounds
`[0, 2^31 - 1] x [0, 2^31 - 1] x [0, 3]` every extent is at least 1 but
`numCells`, their product `2^64` reduced modulo `2^64`, is 0. -/
theorem gridPatch_new_zero_extent :
    (gridPatch_new 2 0 [0, 7] [4294967295, 7]).map (fun p => (p.dims, p.numCells))
      = some ([0, 1], 0)
    ∧ (gridPatch_new 3 0 [0, 0, 0] [2147483647, 2147483647, 3]).map
        (fun p => (p.dims, p.numCells)) = some ([2147483648, 2147483648, 4], 0) := by
  decide

/-- C37 (amended): for 32-bit unsigned bounds with `idxLo[d] <= idxHi[d]` on
every axis, `gridPatch_new` returns a patch in which `dims[d]` is at least 1
on every axis except those with `idxLo[d] = 0` and `idxHi[d] = 2^32 - 1`,
where it is 0, and in which `numCells`, the product of the stored extents
modulo `2^64`, is at least 1 exactly when that product is not a multiple of
`2^64`; in particular when every extent is at least 1 and the product is below
`2^64`. -/
theorem gridPatch_new_extents_positive (NDIM self : Nat) (idxLo idxHi : List Nat)
    (hrange : ∀ d, d < NDIM → idxHi.getD d 0 < U32)
    (hle : ∀ d, d < NDIM → idxLo.getD d 0 ≤ idxHi.getD d 0) :
    ∃ p, gridPatch_new NDIM self idxLo idxHi = some p
      ∧ (∀ d, d < NDIM →
          (p.dims.getD d 0 = 0 ↔ (idxLo.getD d 0 = 0 ∧ idxHi.getD d 0 = U32 - 1))
          ∧ (¬ (idxLo.getD d 0 = 0 ∧ idxHi.getD d 0 = U32 - 1) → p.dims.getD d 0 ≥ 1))
      ∧ (p.numCells ≥ 1 ↔ ¬ (U64 ∣ p.dims.prod))
      ∧ (0 < p.dims.prod → p.dims.prod < U64 → p.numCells ≥ 1) := by
  obtain ⟨p, hp, hdims, hcells⟩ := gridPatch_new_dims NDIM self idxLo idxHi hrange hle
  have hU : U32 = 4294967296 := by decide
  have hzero : ∀ d, d < NDIM →
      (p.dims.getD d 0 = 0 ↔ (idxLo.getD d 0 = 0 ∧ idxHi.getD d 0 = U32 - 1)) := by
    intro d hd
    rw [hdims d hd]
    have h1 := hrange d hd
    have h2 := hle d hd
    constructor
    · intro h0
      rcases Nat.lt_or_ge (idxHi.getD d 0 - idxLo.getD d 0 + 1) U32 with hlt | hge
      · rw [Nat.mod_eq_of_lt hlt] at h0
        omega
      · omega
    · rintro ⟨hl, hh⟩
      rw [hl, hh, hU]
  refine ⟨p, hp, fun d hd => ⟨hzero d hd, fun hne => ?_⟩, ?_, ?_⟩
  · have := (hzero d hd).not.mpr hne
    omega
  · rw [hcells, Nat.dvd_iff_mod_eq_zero]
    omega
  · intro hpos hlt
    rw [hcells, Nat.mod_eq_of_lt hlt]
    exact hpos

/-- Witness of C37 (amended): the 2 x 3 x 1 patch `[0,1] x [5,7] x [4,4]`. -/
theorem gridPatch_new_extents_positive_witness :
    (gridPatch_new 3 0 [0, 5, 4] [1, 7, 4]).map (fun p => (p.dims, p.numCells))
      = some ([2, 3, 1], 6)
    ∧ ∃ p, gridPatch_new 3 0 [0, 5, 4] [1, 7, 4] = some p
      ∧ (∀ d, d < 3 →
          (p.dims.getD d 0 = 0 ↔ ([0, 5, 4].getD d 0 = 0 ∧ [1, 7, 4].getD d 0 = U32 - 1))
          ∧ (¬ ([0, 5, 4].getD d 0 = 0 ∧ [1, 7, 4].getD d 0 = U32 - 1) → p.dims.getD d 0 ≥ 1))
      ∧ (p.numCells ≥ 1 ↔ ¬ (U64 ∣ p.dims.prod))
      ∧ (0 < p.dims.prod → p.dims.prod < U64 → p.numCells ≥ 1) :=
  ⟨by decide, gridPatch_new_extents_positive 3 0 [0, 5, 4] [1, 7, 4] (by decide) (by decide)⟩

/-! ## Theorems: bov.c -/

/-- C38: `bov_isValidForWrite` returns true exactly when the handle is not
`NULL`, `data_file` is set, the variable name is set, the three `data_size`
entries are non-zero and, if `divide_brick` is set, the three `data_bricklets`
entries are greater than 0; the object is left as it was. -/
theorem bov_isValidForWrite_spec (handle : Option bov) :
    ((bov_isValidForWrite handle).1 = true ↔
      ∃ b, handle = some b ∧ b.data_file ≠ none ∧ b.variableName ≠ none
        ∧ (b.data_size.getD 0 0 ≠ 0 ∧ b.data_size.getD 1 0 ≠ 0 ∧ b.data_size.getD 2 0 ≠ 0)
        ∧ (b.divide_brick = true →
            b.data_bricklets.getD 0 0 > 0 ∧ b.data_bricklets.getD 1 0 > 0
              ∧ b.data_bricklets.getD 2 0 > 0))
    ∧ (bov_isValidForWrite handle).2 = handle := by
  cases handle with
  | none => simp [bov_isValidForWrite]
  | some b =>
    refine ⟨?_, rfl⟩
    simp only [bov_isValidForWrite, Option.some.injEq, exists_eq_left']
    by_cases h1 : b.data_file = none <;> by_cases h2 : b.variableName = none <;>
      by_cases h3 : b.data_size.getD 0 0 = 0 ∨ b.data_size.getD 1 0 = 0
        ∨ b.data_size.getD 2 0 = 0 <;>
      by_cases h4 : b.divide_brick = true <;>
      by_cases h5 : b.data_bricklets.getD 0 0 ≤ 0 ∨ b.data_bricklets.getD 1 0 ≤ 0
        ∨ b.data_bricklets.getD 2 0 ≤ 0 <;>
      simp only [h1, h2, h3, h4, h5, if_true, if_false, ne_eq, not_true_eq_false,
        not_false_eq_true, true_and, false_and, and_false, and_true, Bool.false_eq_true,
        false_iff, true_iff, not_and, not_or, not_le, forall_const, false_implies,
        Bool.not_eq_true] <;>
      omega

/-- Witness of C38: a fresh BOV is not valid, the example BOV is, and it stops
being valid when bricklets are asked for but are all 0. -/
theorem bov_isValidForWrite_spec_witness :
    (bov_isValidForWrite (some exampleBov)).2 = some exampleBov
    ∧ bov_isValidForWrite (some exampleBov) = (true, some exampleBov)
    ∧ bov_isValidForWrite (some bov_new) = (false, some bov_new)
    ∧ bov_isValidForWrite (some brickBov) = (false, some brickBov)
    ∧ bov_isValidForWrite none = (false, none) :=
  ⟨(bov_isValidForWrite_spec (some exampleBov)).2, by decide, by decide, by decide, by decide⟩

theorem bov_readWindowed_rejects_without_wrap (b : bov) (dataPtr dataFormat : Nat)
    (numComponents : Int) (lo ds : List Nat) (hn : numComponents > 0)
    (hds : ds.getD 0 0 > 0 ∧ ds.getD 1 0 > 0 ∧ ds.getD 2 0 > 0)
    (hfit : ∀ d, d < 3 → lo.getD d 0 + ds.getD d 0 < U32)
    (hbig : ∃ d, d < 3 ∧ lo.getD d 0 + ds.getD d 0 > b.data_size.getD d 0) :
    bov_readWindowed (some b) (some dataPtr) dataFormat numComponents (some lo) (some ds)
      = some bovWindowedOutcome.windowTooLarge := by
  have h0 := Nat.mod_eq_of_lt (hfit 0 (by decide))
  have h1 := Nat.mod_eq_of_lt (hfit 1 (by decide))
  have h2 := Nat.mod_eq_of_lt (hfit 2 (by decide))
  have hcond : (lo.getD 0 0 + ds.getD 0 0) % U32 > b.data_size.getD 0 0
      ∨ (lo.getD 1 0 + ds.getD 1 0) % U32 > b.data_size.getD 1 0
      ∨ (lo.getD 2 0 + ds.getD 2 0) % U32 > b.data_size.getD 2 0 := by
    rw [h0, h1, h2]
    obtain ⟨d, hd, hgt⟩ := hbig
    have hcases : d = 0 ∨ d = 1 ∨ d = 2 := by omega
    rcases hcases with rfl | rfl | rfl
    · exact Or.inl hgt
    · exact Or.inr (Or.inl hgt)
    · exact Or.inr (Or.inr hgt)
  simp only [bov_readWindowed, hn, hds, and_self, not_true_eq_false, if_false, hcond, if_true]

/-- C39: on a BOV of 5 x 5 x 5 values the window with `idxLo = (2^32 - 1, 0, 0)`
and `dims = (1, 1, 1)`, whose upper end `2^32` on axis 0 exceeds `data_size[0]
= 5`, is not rejected: the 32-bit sum `idxLo[0] + dims[0]` is 0, and
`local_readWindowedActualRead` is called with that window.  The window with
`idxLo = (5, 0, 0)`, whose sum does not wrap, is rejected. -/
theorem bov_readWindowed_wrapped_window_is_read :
    bov_readWindowed (some exampleBov) (some 0) 0 1 (some [4294967295, 0, 0]) (some [1, 1, 1])
      = some (bovWindowedOutcome.actualRead exampleBov 0 0 1 [4294967295, 0, 0] [1, 1, 1])
    ∧ 4294967295 + 1 > exampleBov.data_size.getD 0 0
    ∧ bov_readWindowed (some exampleBov) (some 0) 0 1 (some [5, 0, 0]) (some [1, 1, 1])
      = some bovWindowedOutcome.windowTooLarge := by
  decide

/-! ## Theorems: cosmoPk.c -/

theorem cosmoPk_eval_beyond_kmax {R : Type} (ops : PkOps R) (pk : cosmoPk R) (k : R)
    (hpos : ops.isgreater k ops.zero = true)
    (hmin : ops.isless k (pk.k.getD 0 ops.zero) = false)
    (hn : 0 < pk.numPoints) (hnU : pk.numPoints < U32)
    (hmax : ops.isgreater k (pk.k.getD (pk.numPoints - 1) ops.zero) = true) :
    cosmoPk_eval ops pk k
      = some (ops.mul (pk.P.getD 0 ops.zero)
          (ops.pow (ops.div k (pk.k.getD (pk.numPoints - 1) ops.zero)) pk.slopeBeyondKmax)) := by
  have hidx : (pk.numPoints + U32 - 1) % U32 = pk.numPoints - 1 := by
    have e : pk.numPoints + U32 - 1 = (pk.numPoints - 1) + U32 := by omega
    rw [e, Nat.add_mod_right, Nat.mod_eq_of_lt (by omega)]
  simp only [cosmoPk_eval, hpos, not_true_eq_false, if_false, hmin, Bool.false_eq_true, hidx,
    hmax, if_true]

theorem cosmoPk_eval_before_kmin {R : Type} (ops : PkOps R) (pk : cosmoPk R) (k : R)
    (hpos : ops.isgreater k ops.zero = true)
    (hmin : ops.isless k (pk.k.getD 0 ops.zero) = true) :
    cosmoPk_eval ops pk k = some (powerLawAt ops pk 0 pk.slopeBeforeKmin k) := by
  simp only [cosmoPk_eval, hpos, not_true_eq_false, if_false, hmin, if_true, powerLawAt]

/-- C40: on the spectrum with `k = (2, 4, 8, 16, 32)`, `P = (100, 80, 60, 40,
20)` and slope 2 beyond `kmax`, `cosmoPk_eval` at `k = 64 > k[4]` returns
`P[0] * (64 / 32)^2 = 400`, anchored at the first tabulated value, while the
power law anchored at the last tabulated point is `P[4] * (64 / 32)^2 = 80`;
at `k = 1 < k[0]` it returns the power law anchored at the first point. -/
theorem cosmoPk_eval_beyond_kmax_uses_first_point :
    cosmoPk_eval intPk examplePk 64 = some 400
    ∧ powerLawAt intPk examplePk 4 examplePk.slopeBeyondKmax 64 = 80
    ∧ cosmoPk_eval intPk examplePk 64
        = some (intPk.mul (examplePk.P.getD 0 0)
            (intPk.pow (intPk.div 64 (examplePk.k.getD 4 0)) examplePk.slopeBeyondKmax))
    ∧ cosmoPk_eval intPk examplePk 1
        = some (powerLawAt intPk examplePk 0 examplePk.slopeBeforeKmin 1) := by
  decide

/-! ## Theorems: the 2-D transposition within 32-bit offsets -/

theorem getD_set_eq {α : Type} (l : List α) (i j : Nat) (v dflt : α) :
    (l.set i v).getD j dflt = if j = i ∧ i < l.length then v else l.getD j dflt := by
  simp only [List.getD_eq_getElem?_getD, List.getElem?_set]
  by_cases hij : i = j
  · subst hij
    by_cases hi : i < l.length
    · simp [hi]
    · simp [hi, List.getElem?_eq_none (Nat.le_of_not_lt hi)]
  · have hji : ¬ j = i := fun h => hij h.symm
    simp [hij, hji]

theorem Mem.write_bufs_length (m : Mem) (p off v : Nat) :
    (m.write p off v).bufs.length = m.bufs.length := by
  simp [Mem.write]

theorem Mem.write_buf_length (m : Mem) (p off v q : Nat) :
    ((m.write p off v).bufs.getD q []).length = (m.bufs.getD q []).length := by
  simp only [Mem.write, getD_set_eq]
  split
  · rename_i h
    rw [h.1, List.length_set]
  · rfl

theorem Mem.write_read (m : Mem) (p off v q o : Nat) :
    (m.write p off v).read q o
      = if q = p ∧ o = off ∧ p < m.bufs.length ∧ off < (m.bufs.getD p []).length then v
        else m.read q o := by
  simp only [Mem.write, Mem.read, getD_set_eq]
  by_cases hqp : q = p
  · subst hqp
    by_cases hp : q < m.bufs.length
    · simp only [hp, and_self, if_true, getD_set_eq, true_and]
    · simp [hp]
  · simp [hqp]

theorem memcpy_upto (m : Mem) (dst dOff src sOff : Nat) (n : Nat) :
    ((List.range n).foldl
        (fun acc b => acc.write dst (dOff + b) (m.read src (sOff + b))) m).bufs.length
      = m.bufs.length
    ∧ (∀ q, (((List.range n).foldl
        (fun acc b => acc.write dst (dOff + b) (m.read src (sOff + b))) m).bufs.getD q []).length
      = (m.bufs.getD q []).length)
    ∧ ∀ q o, ((List.range n).foldl
        (fun acc b => acc.write dst (dOff + b) (m.read src (sOff + b))) m).read q o
      = if q = dst ∧ dOff ≤ o ∧ o < dOff + n ∧ dst < m.bufs.length
            ∧ o < (m.bufs.getD dst []).length
        then m.read src (sOff + (o - dOff)) else m.read q o := by
  induction n with
  | zero =>
    refine ⟨rfl, fun _ => rfl, fun q o => ?_⟩
    have h : ¬ (dOff ≤ o ∧ o < dOff + 0) := by omega
    simp only [List.range_zero, List.foldl_nil]
    rw [if_neg]
    intro hc
    exact h ⟨hc.2.1, hc.2.2.1⟩
  | succ n ih =>
    obtain ⟨ih1, ih2, ih3⟩ := ih
    rw [List.range_succ, List.foldl_append]
    simp only [List.foldl_cons, List.foldl_nil]
    refine ⟨?_, fun q => ?_, fun q o => ?_⟩
    · rw [Mem.write_bufs_length, ih1]
    · rw [Mem.write_buf_length, ih2]
    · rw [Mem.write_read, ih3, ih1, ih2]
      by_cases hq : q = dst
      · subst hq
        by_cases hlast : o = dOff + n
        · subst hlast
          by_cases hr : q < m.bufs.length ∧ dOff + n < (m.bufs.getD q []).length
          · have e : dOff + n - dOff = n := by omega
            simp [hr.1, hr.2, e]
          · have hr2 : ¬ (q < m.bufs.length ∧ dOff + n < (m.bufs.getD q []).length) := hr
            rw [if_neg (fun h => hr ⟨h.2.2.1, h.2.2.2⟩), if_neg (fun h => by omega),
              if_neg (fun h => hr ⟨h.2.2.2.1, h.2.2.2.2⟩)]
        · rw [if_neg (fun h => hlast h.2.1)]
          by_cases hc : dOff ≤ o ∧ o < dOff + n ∧ q < m.bufs.length
              ∧ o < (m.bufs.getD q []).length
          · rw [if_pos ⟨rfl, hc⟩, if_pos ⟨rfl, hc.1, by omega, hc.2.2⟩]
          · rw [if_neg (fun h => hc h.2), if_neg (fun h => hc ⟨h.2.1, by omega, h.2.2.2⟩)]
      · rw [if_neg (fun h => hq h.1), if_neg (fun h => hq h.1), if_neg (fun h => hq h.1)]

theorem Mem.memcpy_spec (m : Mem) (dst dOff src sOff size : Nat) :
    (m.memcpy dst dOff src sOff size).bufs.length = m.bufs.length
    ∧ (∀ q, ((m.memcpy dst dOff src sOff size).bufs.getD q []).length
        = (m.bufs.getD q []).length)
    ∧ ∀ q o, (m.memcpy dst dOff src sOff size).read q o
      = if q = dst ∧ dOff ≤ o ∧ o < dOff + size ∧ dst < m.bufs.length
            ∧ o < (m.bufs.getD dst []).length
        then m.read src (sOff + (o - dOff)) else m.read q o :=
  memcpy_upto m dst dOff src sOff size

theorem copy_fold {α : Type} (P Q : α → Nat) (data dataT size : Nat) (hne : data ≠ dataT)
    (m : Mem) (hdT : dataT < m.bufs.length) :
    ∀ (cs : List α) (M : Mem),
      (∀ c ∈ cs, ∀ c' ∈ cs, c ≠ c' → ∀ b b', b < size → b' < size → P c + b ≠ P c' + b') →
      (∀ c ∈ cs, P c + size ≤ (m.bufs.getD dataT []).length) →
      (M.bufs.length = m.bufs.length ∧ (∀ q, (M.bufs.getD q []).length = (m.bufs.getD q []).length)
        ∧ ∀ o, M.read data o = m.read data o) →
      ((cs.foldl (fun acc c => acc.memcpy dataT (P c) data (Q c) size) M).bufs.length
          = m.bufs.length
        ∧ (∀ q, ((cs.foldl (fun acc c => acc.memcpy dataT (P c) data (Q c) size) M).bufs.getD q
            []).length = (m.bufs.getD q []).length))
      ∧ (∀ q o, q ≠ dataT →
          (cs.foldl (fun acc c => acc.memcpy dataT (P c) data (Q c) size) M).read q o
            = M.read q o)
      ∧ (∀ o, (∀ c ∈ cs, ¬ (P c ≤ o ∧ o < P c + size)) →
          (cs.foldl (fun acc c => acc.memcpy dataT (P c) data (Q c) size) M).read dataT o
            = M.read dataT o)
      ∧ (∀ c ∈ cs, ∀ b, b < size →
          (cs.foldl (fun acc c => acc.memcpy dataT (P c) data (Q c) size) M).read dataT
            (P c + b) = m.read data (Q c + b)) := by
  intro cs
  induction cs with
  | nil =>
    intro M _ _ hframe
    exact ⟨⟨hframe.1, hframe.2.1⟩, fun _ _ _ => rfl, fun _ _ => rfl,
      fun c hc => absurd hc (List.not_mem_nil _)⟩
  | cons c cs ih =>
    intro M hdis hrange hframe
    obtain ⟨hM1, hM2, hM3⟩ := hframe
    obtain ⟨hc1, hc2, hc3⟩ := Mem.memcpy_spec M dataT (P c) data (Q c) size
    have hframe1 : (M.memcpy dataT (P c) data (Q c) size).bufs.length = m.bufs.length
        ∧ (∀ q, ((M.memcpy dataT (P c) data (Q c) size).bufs.getD q []).length
            = (m.bufs.getD q []).length)
        ∧ ∀ o, (M.memcpy dataT (P c) data (Q c) size).read data o = m.read data o := by
      refine ⟨by rw [hc1, hM1], fun q => by rw [hc2, hM2], fun o => ?_⟩
      rw [hc3, if_neg (fun h => hne h.1), hM3]
    obtain ⟨hR1, hR2, hR3, hR4⟩ := ih (M.memcpy dataT (P c) data (Q c) size)
      (fun a ha a' ha' => hdis a (List.mem_cons_of_mem _ ha) a' (List.mem_cons_of_mem _ ha'))
      (fun a ha => hrange a (List.mem_cons_of_mem _ ha)) hframe1
    simp only [List.foldl_cons]
    refine ⟨hR1, fun q o hq => ?_, fun o ho => ?_, fun c0 hc0 b hb => ?_⟩
    · rw [hR2 q o hq, hc3, if_neg (fun h => hq h.1)]
    · rw [hR3 o (fun a ha => ho a (List.mem_cons_of_mem _ ha)), hc3,
        if_neg (fun h => ho c (List.mem_cons_self _ _) ⟨h.2.1, h.2.2.1⟩)]
    · by_cases hmem : c0 ∈ cs
      · exact hR4 c0 hmem b hb
      · have hc0c : c0 = c := by
          rcases List.mem_cons.mp hc0 with h | h
          · exact h
          · exact absurd h hmem
        subst hc0c
        have hfree : ∀ a ∈ cs, ¬ (P a ≤ P c0 + b ∧ P c0 + b < P a + size) := by
          intro a ha hin
          have hca : c0 ≠ a := fun h => hmem (h ▸ ha)
          have := hdis c0 (List.mem_cons_self _ _) a (List.mem_cons_of_mem _ ha) hca b
            (P c0 + b - P a) hb (by omega)
          omega
        have hlen := hrange c0 (List.mem_cons_self _ _)
        rw [hR3 (P c0 + b) hfree, hc3, hM1, hM2,
          if_pos ⟨rfl, by omega, by omega, hdT, by omega⟩, hM3]
        congr 2
        omega

theorem cell_index_lt (d0 d1 k0 k1 : Nat) (h0 : k0 < d0) (h1 : k1 < d1) :
    k0 + k1 * d0 < d0 * d1 := by
  have h : (k1 + 1) * d0 ≤ d1 * d0 := Nat.mul_le_mul_right d0 h1
  have e : (k1 + 1) * d0 = k1 * d0 + d0 := Nat.succ_mul k1 d0
  have c := Nat.mul_comm d0 d1
  omega

theorem cell_index_inj (d0 k0 k1 k0' k1' : Nat) (h0 : k0 < d0) (h0' : k0' < d0)
    (h : k0 + k1 * d0 = k0' + k1' * d0) : k0 = k0' ∧ k1 = k1' := by
  have hd : 0 < d0 := by omega
  have hm := congrArg (fun x => x % d0) h
  have hq := congrArg (fun x => x / d0) h
  simp only [Nat.add_mul_mod_self_right, Nat.mod_eq_of_lt h0, Nat.mod_eq_of_lt h0',
    Nat.add_mul_div_right _ _ hd, Nat.div_eq_of_lt h0, Nat.div_eq_of_lt h0', Nat.zero_add]
    at hm hq
  exact ⟨hm, hq⟩

theorem offset_exact (n size i : Nat) (hi : i < n) (hfit : n * size ≤ U32) :
    (i * size) % U32 = i * size ∧ i * size + size ≤ n * size := by
  have h : (i + 1) * size ≤ n * size := Nat.mul_le_mul_right size hi
  have e : (i + 1) * size = i * size + size := Nat.succ_mul i size
  have hU : 0 < U32 := by decide
  refine ⟨Nat.mod_eq_of_lt ?_, by omega⟩
  rcases Nat.eq_zero_or_pos size with hs | hs
  · subst hs
    simpa using hU
  · omega

theorem offsets_disjoint (size i j b b' : Nat) (hij : i ≠ j) (hb : b < size) (hb' : b' < size) :
    i * size + b ≠ j * size + b' := by
  rcases Nat.lt_or_gt_of_ne hij with h | h
  · have h1 : (i + 1) * size ≤ j * size := Nat.mul_le_mul_right size h
    have e : (i + 1) * size = i * size + size := Nat.succ_mul i size
    omega
  · have h1 : (j + 1) * size ≤ i * size := Nat.mul_le_mul_right size h
    have e : (j + 1) * size = j * size + size := Nat.succ_mul j size
    omega

/-- Within 32-bit offsets `local_transposeVar_2d` is a matrix transpose: if
`dimsT[0] * dimsT[1] * size` is at most `2^32` and the destination buffer,
distinct from the source buffer, holds that many bytes, then afterwards byte
`b` of the destination element with flat index `k0 + k1 * dimsT[0]` is byte `b`
of the source element with flat index `k1 + k0 * dimsT[1]`, for all
`k0 < dimsT[0]`, `k1 < dimsT[1]`, `b < size`; every other buffer, the source
included, and the sizes of all buffers are as before. -/
theorem local_transposeVar_2d_in_range (m : Mem) (data dataT size : Nat) (dimsT : List Nat)
    (hne : data ≠ dataT) (hdT : dataT < m.bufs.length)
    (hlen : dimsT.getD 0 0 * dimsT.getD 1 0 * size ≤ (m.bufs.getD dataT []).length)
    (hfit : dimsT.getD 0 0 * dimsT.getD 1 0 * size ≤ U32) :
    (∀ k0 k1 b, k0 < dimsT.getD 0 0 → k1 < dimsT.getD 1 0 → b < size →
      (local_transposeVar_2d m data dataT size dimsT).read dataT
          ((k0 + k1 * dimsT.getD 0 0) * size + b)
        = m.read data ((k1 + k0 * dimsT.getD 1 0) * size + b))
    ∧ (∀ q o, q ≠ dataT →
        (local_transposeVar_2d m data dataT size dimsT).read q o = m.read q o)
    ∧ (local_transposeVar_2d m data dataT size dimsT).bufs.length = m.bufs.length
    ∧ (∀ q, ((local_transposeVar_2d m data dataT size dimsT).bufs.getD q []).length
        = (m.bufs.getD q []).length) := by
  have hcomm : dimsT.getD 1 0 * dimsT.getD 0 0 = dimsT.getD 0 0 * dimsT.getD 1 0 :=
    Nat.mul_comm _ _
  have hP : ∀ k0 k1, k0 < dimsT.getD 0 0 → k1 < dimsT.getD 1 0 →
      (local_transposeVar_2d_pos size dimsT k0 k1).1 = (k0 + k1 * dimsT.getD 0 0) * size
      ∧ (k0 + k1 * dimsT.getD 0 0) * size + size ≤ dimsT.getD 0 0 * dimsT.getD 1 0 * size := by
    intro k0 k1 h0 h1
    exact offset_exact _ size _ (cell_index_lt _ _ k0 k1 h0 h1) hfit
  have hQ : ∀ k0 k1, k0 < dimsT.getD 0 0 → k1 < dimsT.getD 1 0 →
      (local_transposeVar_2d_pos size dimsT k0 k1).2 = (k1 + k0 * dimsT.getD 1 0) * size := by
    intro k0 k1 h0 h1
    have h := cell_index_lt (dimsT.getD 1 0) (dimsT.getD 0 0) k1 k0 h1 h0
    rw [hcomm] at h
    exact (offset_exact _ size _ h hfit).1
  obtain ⟨⟨hl1, hl2⟩, hframe, _, hcells⟩ := copy_fold
    (fun c : Nat × Nat => (local_transposeVar_2d_pos size dimsT c.1 c.2).1)
    (fun c : Nat × Nat => (local_transposeVar_2d_pos size dimsT c.1 c.2).2)
    data dataT size hne m hdT (local_transposeVar_2d_cells dimsT) m
    (fun c hc c' hc' hcc b b' hb hb' => by
      obtain ⟨k0, k1⟩ := c
      obtain ⟨k0', k1'⟩ := c'
      obtain ⟨h0, h1⟩ := (mem_local_transposeVar_2d_cells dimsT k0 k1).mp hc
      obtain ⟨h0', h1'⟩ := (mem_local_transposeVar_2d_cells dimsT k0' k1').mp hc'
      show (local_transposeVar_2d_pos size dimsT k0 k1).1 + b
        ≠ (local_transposeVar_2d_pos size dimsT k0' k1').1 + b'
      rw [(hP k0 k1 h0 h1).1, (hP k0' k1' h0' h1').1]
      apply offsets_disjoint size _ _ b b' _ hb hb'
      intro heq
      obtain ⟨e0, e1⟩ := cell_index_inj _ k0 k1 k0' k1' h0 h0' heq
      exact hcc (by rw [e0, e1]))
    (fun c hc => by
      obtain ⟨k0, k1⟩ := c
      obtain ⟨h0, h1⟩ := (mem_local_transposeVar_2d_cells dimsT k0 k1).mp hc
      show (local_transposeVar_2d_pos size dimsT k0 k1).1 + size ≤ _
      rw [(hP k0 k1 h0 h1).1]
      exact Nat.le_trans (hP k0 k1 h0 h1).2 hlen)
    ⟨rfl, fun _ => rfl, fun _ => rfl⟩
  rw [local_transposeVar_2d_eq]
  refine ⟨fun k0 k1 b h0 h1 hb => ?_, hframe, hl1, hl2⟩
  have h := hcells (k0, k1) ((mem_local_transposeVar_2d_cells dimsT k0 k1).mpr ⟨h0, h1⟩) b hb
  simp only at h
  rw [(hP k0 k1 h0 h1).1, hQ k0 k1 h0 h1] at h
  exact h

/-- Within 32-bit offsets two successive 2-D transposes restore the data: for
a buffer `A` of `d0 * d1` elements of `size` bytes with `d0 * d1 * size` at most
`2^32`, transposing `A` into `B` with `dimsT = (d1, d0)` and then `B` into `C`
with `dimsT = (d0, d1)` leaves in `C` the bytes of every element of `A`. -/
theorem local_transposeVar_2d_twice_in_range (m : Mem) (A B C size d0 d1 : Nat)
    (hAB : A ≠ B) (hBC : B ≠ C) (hB : B < m.bufs.length) (hC : C < m.bufs.length)
    (hlenB : d0 * d1 * size ≤ (m.bufs.getD B []).length)
    (hlenC : d0 * d1 * size ≤ (m.bufs.getD C []).length)
    (hfit : d0 * d1 * size ≤ U32) :
    ∀ i b, i < d0 * d1 → b < size →
      (local_transposeVar_2d (local_transposeVar_2d m A B size [d1, d0]) B C size
          [d0, d1]).read C (i * size + b)
        = m.read A (i * size + b) := by
  intro i b hi hb
  have hcomm : d1 * d0 = d0 * d1 := Nat.mul_comm _ _
  have hd0 : 0 < d0 := by
    rcases Nat.eq_zero_or_pos d0 with h | h
    · subst h
      simp at hi
    · exact h
  have hk0 : i % d0 < d0 := Nat.mod_lt _ hd0
  have hk1 : i / d0 < d1 := by
    apply Nat.div_lt_of_lt_mul
    exact hi
  have hi2 : i % d0 + i / d0 * d0 = i := by
    have := Nat.mod_add_div i d0
    rw [Nat.mul_comm d0 (i / d0)] at this
    exact this
  obtain ⟨h1, _, hl1, hl2⟩ := local_transposeVar_2d_in_range m A B size [d1, d0] hAB hB
    (by simpa [hcomm] using hlenB) (by simpa [hcomm] using hfit)
  obtain ⟨h2, _, _, _⟩ := local_transposeVar_2d_in_range
    (local_transposeVar_2d m A B size [d1, d0]) B C size [d0, d1] hBC
    (by rw [hl1]; exact hC) (by rw [hl2]; simpa using hlenC) (by simpa using hfit)
  have e2 := h2 (i % d0) (i / d0) b (by simpa using hk0) (by simpa using hk1) hb
  have e1 := h1 (i / d0) (i % d0) b (by simpa using hk1) (by simpa using hk0) hb
  simp only [List.getD_cons_zero, List.getD_cons_succ] at e1 e2
  rw [hi2] at e2 e1
  rw [e2, e1]

/-- Within 32-bit offsets the accesses of `local_transposeVar_2d` are a
bijection: if `dimsT[0] * dimsT[1] * size` is at most `2^32`, the write and
read offsets of a visited cell are exactly `(k0 + k1 * dimsT[0]) * size` and
`(k1 + k0 * dimsT[1]) * size`, both element indices are below
`dimsT[0] * dimsT[1]`, two visited cells with the same destination index or the
same source index are the same cell, and every index below `dimsT[0] * dimsT[1]`
is the destination index of a visited cell and the source index of a visited
cell. -/
theorem local_transposeVar_2d_bijection_in_range (size : Nat) (dimsT : List Nat)
    (hfit : dimsT.getD 0 0 * dimsT.getD 1 0 * size ≤ U32) :
    (∀ c ∈ local_transposeVar_2d_cells dimsT,
      local_transposeVar_2d_pos size dimsT c.1 c.2
        = ((c.1 + c.2 * dimsT.getD 0 0) * size, (c.2 + c.1 * dimsT.getD 1 0) * size)
      ∧ c.1 + c.2 * dimsT.getD 0 0 < dimsT.getD 0 0 * dimsT.getD 1 0
      ∧ c.2 + c.1 * dimsT.getD 1 0 < dimsT.getD 0 0 * dimsT.getD 1 0)
    ∧ (∀ c ∈ local_transposeVar_2d_cells dimsT, ∀ c' ∈ local_transposeVar_2d_cells dimsT,
        (c.1 + c.2 * dimsT.getD 0 0 = c'.1 + c'.2 * dimsT.getD 0 0
          ∨ c.2 + c.1 * dimsT.getD 1 0 = c'.2 + c'.1 * dimsT.getD 1 0) → c = c')
    ∧ (∀ j, j < dimsT.getD 0 0 * dimsT.getD 1 0 →
        (∃ c ∈ local_transposeVar_2d_cells dimsT, c.1 + c.2 * dimsT.getD 0 0 = j)
        ∧ (∃ c ∈ local_transposeVar_2d_cells dimsT, c.2 + c.1 * dimsT.getD 1 0 = j)) := by
  have hcomm : dimsT.getD 1 0 * dimsT.getD 0 0 = dimsT.getD 0 0 * dimsT.getD 1 0 :=
    Nat.mul_comm _ _
  refine ⟨?_, ?_, ?_⟩
  · rintro ⟨k0, k1⟩ hc
    obtain ⟨h0, h1⟩ := (mem_local_transposeVar_2d_cells dimsT k0 k1).mp hc
    have hT := cell_index_lt _ _ k0 k1 h0 h1
    have hS := cell_index_lt (dimsT.getD 1 0) (dimsT.getD 0 0) k1 k0 h1 h0
    rw [hcomm] at hS
    refine ⟨?_, hT, hS⟩
    simp only [local_transposeVar_2d_pos, (offset_exact _ size _ hT hfit).1,
      (offset_exact _ size _ hS hfit).1]
  · rintro ⟨k0, k1⟩ hc ⟨k0', k1'⟩ hc' h
    obtain ⟨h0, h1⟩ := (mem_local_transposeVar_2d_cells dimsT k0 k1).mp hc
    obtain ⟨h0', h1'⟩ := (mem_local_transposeVar_2d_cells dimsT k0' k1').mp hc'
    rcases h with h | h
    · obtain ⟨e0, e1⟩ := cell_index_inj _ k0 k1 k0' k1' h0 h0' h
      rw [e0, e1]
    · obtain ⟨e1, e0⟩ := cell_index_inj _ k1 k0 k1' k0' h1 h1' h
      rw [e0, e1]
  · intro j hj
    have hd0 : 0 < dimsT.getD 0 0 := by
      rcases Nat.eq_zero_or_pos (dimsT.getD 0 0) with h | h
      · rw [h] at hj
        simp at hj
      · exact h
    have hd1 : 0 < dimsT.getD 1 0 := by
      rcases Nat.eq_zero_or_pos (dimsT.getD 1 0) with h | h
      · rw [h] at hj
        simp at hj
      · exact h
    constructor
    · refine ⟨(j % dimsT.getD 0 0, j / dimsT.getD 0 0),
        (mem_local_transposeVar_2d_cells dimsT _ _).mpr
          ⟨Nat.mod_lt _ hd0, Nat.div_lt_of_lt_mul hj⟩, ?_⟩
      have := Nat.mod_add_div j (dimsT.getD 0 0)
      rw [Nat.mul_comm (dimsT.getD 0 0) (j / dimsT.getD 0 0)] at this
      exact this
    · refine ⟨(j / dimsT.getD 1 0, j % dimsT.getD 1 0),
        (mem_local_transposeVar_2d_cells dimsT _ _).mpr
          ⟨Nat.div_lt_of_lt_mul (by rw [hcomm]; exact hj), Nat.mod_lt _ hd1⟩, ?_⟩
      have := Nat.mod_add_div j (dimsT.getD 1 0)
      rw [Nat.mul_comm (dimsT.getD 1 0) (j / dimsT.getD 1 0)] at this
      exact this

/-- An instance of the three theorems above: transposing the 3 x 2 buffer
`10..15` of `exampleMem` (1-byte elements) into buffer 0 and back. -/
theorem local_transposeVar_2d_in_range_example :
    local_transposeVar_2d exampleMem 1 0 1 [2, 3]
      = ⟨[[10, 13, 11, 14, 12, 15], [10, 11, 12, 13, 14, 15]], []⟩
    ∧ (∀ k0 k1 b, k0 < 2 → k1 < 3 → b < 1 →
        (local_transposeVar_2d exampleMem 1 0 1 [2, 3]).read 0 ((k0 + k1 * 2) * 1 + b)
          = exampleMem.read 1 ((k1 + k0 * 3) * 1 + b))
    ∧ (∀ i b, i < 3 * 2 → b < 1 →
        (local_transposeVar_2d (local_transposeVar_2d exampleMem 1 0 1 [2, 3]) 0 1 1
            [3, 2]).read 1 (i * 1 + b) = exampleMem.read 1 (i * 1 + b)) :=
  ⟨by decide,
    (local_transposeVar_2d_in_range exampleMem 1 0 1 [2, 3] (by decide) (by decide) (by decide)
      (by decide)).1,
    local_transposeVar_2d_twice_in_range exampleMem 1 0 1 1 3 2 (by decide) (by decide)
      (by decide) (by decide) (by decide) (by decide) (by decide)⟩

end Ginnungagap
